import Mathlib

/-!
# The rewrite stage of the encore compiler: `compiler/rewrite.go`

A shallow embedding of `(*builder).rewritePkg` and a verification of its
specification.

Conventions of the embedding.

* Pointers used as map keys (`ast.Node`, `*ast.SelectorExpr`, `*est.Package`)
  are natural numbers (`ptr`); two values denote the same object when their
  `ptr` agree.
* A Go map whose values are all `true` is the list of its keys, without
  repetition, in order of first insertion.
* A Go panic is an `Except.error`; the effects on the outside world (files
  written, overlays, generated wrapper files) are logged in `Effects`, which
  survive an abort.
* `[]byte` buffers are `String`s.
* `(*token.FileSet).Position` is modelled on `go/token`: the line table and
  the table of `//line` directives of each file, positions adjusted by the
  directives; the file name of a position is left out, the markers do not
  print it.
* What `rewritePkg` calls but this file of the repository does not define is
  a field of `Env`: the standard library (`strconv.Quote`, `filepath.Base`,
  `filepath.Join`, `ioutil.WriteFile`, the order of `range` over a map) and
  code of other files (`usesImport`, `findImport`, `generateWrappers`,
  `rewrite.Rewriter.Data`).
-/

namespace compiler

/-! ## Data model (`est`, `go/ast`, `go/token`) -/

/-- The directive kinds `est.NodeType`: the five kinds `rewritePkg` switches
on, and every other value of the underlying integer type. -/
inductive NodeType where
  | SQLDBNode
  | RLogNode
  | RPCCallNode
  | RPCDefNode
  | SecretsNode
  | unrecognized (tag : Nat)
deriving DecidableEq, Repr

/-- A `*est.Package` as reached through `rpc.Svc.Root`: its identity and the
two fields `rewritePkg` reads from it. -/
structure PkgRef where
  ptr : Nat
  Name : String
  ImportPath : String
deriving DecidableEq, Repr

/-- The type `est.Service`. -/
structure Service where
  Name : String
  Root : PkgRef
deriving DecidableEq, Repr

/-- The type `est.RPC`; `Func` is the identity of the defining `*ast.FuncDecl`. -/
structure RPC where
  Svc : Service
  Name : String
  Func : Nat
deriving DecidableEq, Repr

/-- The value type of `file.References` (`rewrite.Type`, `rewrite.RPC`);
`RPC` is a pointer and may be nil. -/
structure Directive where
  Typ : NodeType
  RPC : Option RPC
deriving DecidableEq, Repr

/-- Syntax nodes of `go/ast`, as far as `rewritePkg` tells them apart.
`pos` and `end_` are the results of the node's `Pos()` and `End()`.  The
children are listed in the order `astutil.Apply` walks them. -/
inductive Node where
  | CallExpr (ptr pos end_ : Nat) (Fun : Node) (Lparen : Nat) (Args : List Node)
  | SelectorExpr (ptr pos end_ : Nat) (X Sel : Node)
  | ValueSpec (ptr pos end_ : Nat) (Names : List Node) (Typ : Option Node) (Values : List Node)
  | Other (ptr pos end_ : Nat) (children : List Node)

/-- Identity of a node (its address in Go). -/
def Node.ptr : Node → Nat
  | .CallExpr p _ _ _ _ _ => p
  | .SelectorExpr p _ _ _ _ => p
  | .ValueSpec p _ _ _ _ _ => p
  | .Other p _ _ _ => p

/-- The method `Pos()` of a node. -/
def Node.Pos : Node → Nat
  | .CallExpr _ p _ _ _ _ => p
  | .SelectorExpr _ p _ _ _ => p
  | .ValueSpec _ p _ _ _ _ => p
  | .Other _ p _ _ => p

/-- The method `End()` of a node. -/
def Node.End : Node → Nat
  | .CallExpr _ _ e _ _ _ => e
  | .SelectorExpr _ _ e _ _ => e
  | .ValueSpec _ _ e _ _ _ => e
  | .Other _ _ e _ => e

/-- The root `*ast.File`; `astutil.Apply` walks `Name` and then `Decls`
(doc comments are left out). -/
structure AstFile where
  ptr : Nat
  pos : Nat
  end_ : Nat
  Name : Node
  Decls : List Node

/-- The root seen as a node: it is neither a call expression nor a value
specification. -/
def AstFile.node (f : AstFile) : Node :=
  .Other f.ptr f.pos f.end_ (f.Name :: f.Decls)

/-- The type `est.File`; `Base` is `file.Token.Base()` and `References` the
directive map, keyed by node identity. -/
structure File where
  Path : String
  Contents : String
  Base : Nat
  AST : AstFile
  References : List (Nat × Directive)

/-- The type `est.Package`; `Service` is a pointer and may be nil. -/
structure Package where
  self : PkgRef
  Dir : String
  Service : Option Service
  Secrets : List String
  Files : List File

/-- The type `token.Position`, without the file name. -/
structure Position where
  Line : Nat
  Column : Nat
deriving DecidableEq, Repr

/-- An entry of the table `infos` of a `token.File`, recorded for a `//line`
directive: the offset from which it applies and the line and column it gives
(column 0 when the directive gives none); the file name is left out. -/
structure LineInfo where
  Offset : Nat
  Line : Nat
  Column : Nat
deriving DecidableEq, Repr

/-- A `token.File`: its base, its size, the offsets of its line starts
(ascending, the first is 0) and the table of its `//line` directives
(ascending offsets). -/
structure TokenFile where
  base : Nat
  size : Nat
  lines : List Nat
  infos : List LineInfo

/-- The helper `searchInts` of `go/token` on an ascending table: the index of
the last entry that is at most `x`, if any. -/
def searchInts (a : List Nat) (x : Nat) : Option Nat :=
  match (a.takeWhile (fun v => decide (v ≤ x))).length with
  | 0 => none
  | i + 1 => some i

/-- The helper `searchLineInfos` of `go/token` on a table of ascending
offsets: the index of the last entry whose offset is at most `x`, if any. -/
def searchLineInfos (a : List LineInfo) (x : Nat) : Option Nat :=
  searchInts (a.map LineInfo.Offset) x

/-- The method `(*token.File).unpack(offset, true)`, without the file name:
the line and column of the offset in the file, adjusted by the last `//line`
directive at or before the offset, if any. On ascending tables the line
distance `d` is not negative. -/
def TokenFile.unpack (f : TokenFile) (offset : Nat) : Nat × Nat :=
  let lc : Nat × Nat :=
    match searchInts f.lines offset with
    | some i => (i + 1, offset - f.lines.getD i 0 + 1)
    | none => (0, 0)
  match searchLineInfos f.infos offset with
  | none => lc
  | some k =>
    match f.infos.get? k with
    | none => lc
    | some alt =>
      match searchInts f.lines alt.Offset with
      | none => lc
      | some i =>
        let d := lc.1 - (i + 1)
        if alt.Column = 0 then (alt.Line + d, 0)
        else if d = 0 then (alt.Line + d, alt.Column + (offset - alt.Offset))
        else (alt.Line + d, lc.2)

/-- The method `(*token.File).position(p, true)`, without the file name and
the offset. -/
def TokenFile.position (f : TokenFile) (p : Nat) : Position :=
  let lc := f.unpack (p - f.base)
  ⟨lc.1, lc.2⟩

/-- A `token.FileSet`: its files. -/
structure FileSet where
  files : List TokenFile

/-- The method `(*token.FileSet).Position`, that is `PositionFor(p, true)`: the
adjusted position, and the zero position for `NoPos` and for a position no
file holds. -/
def FileSet.Position (s : FileSet) (p : Nat) : Position :=
  if p = 0 then ⟨0, 0⟩
  else
    match s.files.find? (fun f => decide (f.base ≤ p) && decide (p ≤ f.base + f.size)) with
    | some f => f.position p
    | none => ⟨0, 0⟩

/-- The parse result `b.res`: the file set and the Node Identity Registry
`Nodes[pkg][node]`, whose entries are pointers (absent entries are nil); only
the `Id` of an entry is read. -/
structure Result where
  FileSet : FileSet
  Nodes : Nat → Nat → Option Int

/-- The receiver of `rewritePkg`. -/
structure builder where
  res : Result

/-! ## The edit buffer (`compiler/internal/rewrite`) -/

/-- One recorded call on the rewriter. -/
inductive Edit where
  | Insert (start : Nat) (data : String)
  | Replace (start end_ : Nat) (data : String)
  | Delete (start end_ : Nat)
deriving DecidableEq, Repr

/-- Modelled from the spec: the Edit Buffer of `compiler/internal/rewrite`,
whose source is not part of this file. It keeps the original buffer and its
base untouched and accumulates the edits in the order they are made. -/
structure Rewriter where
  data : String
  base : Nat
  edits : List Edit
deriving DecidableEq, Repr

/-- The constructor `rewrite.New`. -/
def Rewriter.New (data : String) (base : Nat) : Rewriter :=
  ⟨data, base, []⟩

/-- The method `Insert`: records the edit. -/
def Rewriter.Insert (r : Rewriter) (start : Nat) (data : String) : Rewriter :=
  { r with edits := r.edits ++ [.Insert start data] }

/-- The method `Replace`: records the edit. -/
def Rewriter.Replace (r : Rewriter) (start end_ : Nat) (data : String) : Rewriter :=
  { r with edits := r.edits ++ [.Replace start end_ data] }

/-- The method `Delete`: records the edit. -/
def Rewriter.Delete (r : Rewriter) (start end_ : Nat) : Rewriter :=
  { r with edits := r.edits ++ [.Delete start end_] }

/-- Start position of an edit. -/
def Edit.start : Edit → Nat
  | .Insert s _ => s
  | .Replace s _ _ => s
  | .Delete s _ => s

/-- End position of an edit; an insertion covers no original byte. -/
def Edit.stop : Edit → Nat
  | .Insert s _ => s
  | .Replace _ e _ => e
  | .Delete _ e => e

/-- Payload of an edit. -/
def Edit.payload : Edit → String
  | .Insert _ d => d
  | .Replace _ _ d => d
  | .Delete _ _ => ""

/-- Stable insertion of an edit into a list sorted by start position. -/
def insertByStart (e : Edit) : List Edit → List Edit
  | [] => [e]
  | x :: xs => if e.start < x.start then e :: x :: xs else x :: insertByStart e xs

/-- Stable sort of the edits by start position. -/
def sortByStart (es : List Edit) : List Edit :=
  es.foldl (fun acc e => insertByStart e acc) []

/-- Splices sorted edits into the original characters; `at_` is the position
of the first character of `src`. Fails when an edit starts before `at_` (it
overlaps its predecessor) or reaches past the buffer. -/
def splice : List Edit → Nat → List Char → Option (List Char)
  | [], _, src => some src
  | e :: es, at_, src =>
    if e.start < at_ ∨ e.stop < e.start ∨ at_ + src.length < e.stop then none
    else
      match splice es e.stop (src.drop (e.stop - at_)) with
      | none => none
      | some rest => some (src.take (e.start - at_) ++ e.payload.data ++ rest)

/-- Modelled from the spec: `Materialize` of the Edit Buffer (`Data` in the
source, defined outside this file): sorts the recorded edits by start offset,
fails when two ranges overlap, and otherwise copies the untouched spans and
splices in the payloads in order. -/
def Rewriter.Materialize (r : Rewriter) : Option String :=
  match splice (sortByStart r.edits) r.base r.data.data with
  | some cs => some (String.mk cs)
  | none => none

/-! ## The outside world -/

/-- Result of `findImport`: the spans of the import spec and of its
declaration, and `len(decl.Specs)`. -/
structure FoundImport where
  specPos : Nat
  specEnd : Nat
  declPos : Nat
  declEnd : Nat
  numSpecs : Nat
deriving DecidableEq, Repr

/-- What `rewritePkg` calls and this source file does not define. -/
structure Env where
  /-- The function `strconv.Quote`. -/
  Quote : String → String
  /-- The function `filepath.Base`. -/
  Base : String → String
  /-- The function `filepath.Join` of two elements. -/
  Join : String → String → String
  /-- The function `usesImport(file.AST, name, importPath, useExceptions)`. -/
  usesImport : AstFile → String → String → List Nat → Bool
  /-- The function `findImport(file.AST, importPath)`; `none` when not ok. -/
  findImport : AstFile → String → Option FoundImport
  /-- The order in which `range` visits the keys of `rewrittenPkgs`: some
  rearrangement of them. -/
  rangeOrder : (keys : List PkgRef) → { l : List PkgRef // l.Perm keys }
  /-- The method `rw.Data()`; `none` when it aborts fatally. -/
  Data : Rewriter → Option String
  /-- The function `ioutil.WriteFile(dst, data, 0644)`: the error, if any. -/
  WriteFile : String → String → Option String
  /-- The method `b.generateWrappers(pkg, wrappers, path)`: the error, if any. -/
  generateWrappers : Package → List RPC → String → Option String

/-- Reasons of a fatal abort. -/
inductive Panic where
  | unhandledRewriteType (t : NodeType)
  | typeAssertion
  | nilDereference
  | indexOutOfRange
  | rewriterData
deriving DecidableEq, Repr

/-! ## The traversal `astutil.Apply` -/

mutual
/-- The function `astutil.Apply(root, pre, nil)` with the state of the closure
threaded through: `pre` is called on the node, and the children are walked
in order when it answers `true`. A panic of `pre` ends the walk. -/
def Apply {σ ε : Type} (pre : σ → Node → Except ε (σ × Bool)) : Node → σ → Except ε σ
  | .CallExpr p a e f lp args, s =>
    match pre s (.CallExpr p a e f lp args) with
    | .error x => .error x
    | .ok (s1, false) => .ok s1
    | .ok (s1, true) =>
      match Apply pre f s1 with
      | .error x => .error x
      | .ok s2 => ApplyList pre args s2
  | .SelectorExpr p a e x sel, s =>
    match pre s (.SelectorExpr p a e x sel) with
    | .error x => .error x
    | .ok (s1, false) => .ok s1
    | .ok (s1, true) =>
      match Apply pre x s1 with
      | .error x => .error x
      | .ok s2 => Apply pre sel s2
  | .ValueSpec p a e names typ values, s =>
    match pre s (.ValueSpec p a e names typ values) with
    | .error x => .error x
    | .ok (s1, false) => .ok s1
    | .ok (s1, true) =>
      match ApplyList pre names s1 with
      | .error x => .error x
      | .ok s2 =>
        match ApplyOpt pre typ s2 with
        | .error x => .error x
        | .ok s3 => ApplyList pre values s3
  | .Other p a e children, s =>
    match pre s (.Other p a e children) with
    | .error x => .error x
    | .ok (s1, false) => .ok s1
    | .ok (s1, true) => ApplyList pre children s1
/-- The walk of a list of children, in order. -/
def ApplyList {σ ε : Type} (pre : σ → Node → Except ε (σ × Bool)) : List Node → σ → Except ε σ
  | [], s => .ok s
  | n :: ns, s =>
    match Apply pre n s with
    | .error x => .error x
    | .ok s1 => ApplyList pre ns s1
/-- The walk of an optional child; a nil child has no directive and no children. -/
def ApplyOpt {σ ε : Type} (pre : σ → Node → Except ε (σ × Bool)) : Option Node → σ → Except ε σ
  | none, s => .ok s
  | some n, s => Apply pre n s
end

/-! ## `rewritePkg` -/

/-- Sets `m[k] = true` in a map of booleans kept as its list of keys. -/
def setTrue {α : Type} [DecidableEq α] (m : List α) (k : α) : List α :=
  if k ∈ m then m else m ++ [k]

/-- The variables the closure passed to `astutil.Apply` captures: `rw`,
`useExceptions` and `rewrittenPkgs` of the file, `seenWrappers` and
`wrappers` of the package. -/
structure WalkState where
  rw : Rewriter
  useExceptions : List Nat
  rewrittenPkgs : List PkgRef
  seenWrappers : List String
  wrappers : List RPC
deriving DecidableEq, Repr

/-- The name of the wrapper of a remote procedure (line 53). -/
def wrapperName (rpc : RPC) : String :=
  "__encore_" ++ rpc.Svc.Name ++ "_" ++ rpc.Name

/-- The position marker of `fmt.Sprintf("/*line :%d:%d*/", line, column)`. -/
def lineMarker (line column : Nat) : String :=
  "/*line :" ++ toString line ++ ":" ++ toString column ++ "*/"

/-- The initializer built in the buffer `buf` for the secrets (lines 84-90). -/
def secretsInit (env : Env) (secrets : List String) (ep : Position) : String :=
  "\x7b\n"
    ++ String.join (secrets.map (fun secret =>
        "\t" ++ secret ++ ": __encore_runtime.LoadSecret(" ++ env.Quote secret ++ "),\n"))
    ++ "\x7d" ++ lineMarker ep.Line ep.Column

/-- The import of the runtime package inserted before the first declaration
(line 97). -/
def runtimeImport (env : Env) (ln : Position) : String :=
  "import __encore_runtime " ++ env.Quote "encore.dev/runtime" ++ "\n" ++ lineMarker ln.Line ln.Column

/-- The closure given to `astutil.Apply` (lines 32-103): the new values of the
captured variables and the boolean returned, or the panic raised. -/
def pre (env : Env) (b : builder) (pkg : Package) (file : File)
    (st : WalkState) (node : Node) : Except Panic (WalkState × Bool) :=
  match file.References.lookup node.ptr with
  | none => .ok (st, true)
  | some rewrite =>
    match rewrite.Typ with
    | .SQLDBNode =>
      match node with
      | .CallExpr _ _ _ _ Lparen _ =>
        let lp := b.res.FileSet.Position Lparen
        match pkg.Service with
        | none => .error .nilDereference
        | some svc =>
          let arg := env.Quote svc.Name ++ "," ++ lineMarker lp.Line (lp.Column + 1)
          .ok ({ st with rw := st.rw.Insert (Lparen + 1) arg }, true)
      | _ => .error .typeAssertion
    | .RLogNode => .ok (st, false)
    | .RPCCallNode =>
      match rewrite.RPC with
      | none => .error .nilDereference
      | some rpc =>
        let name := wrapperName rpc
        match node with
        | .CallExpr callPtr _ _ Fun Lparen _ =>
          let useExceptions :=
            match Fun with
            | .SelectorExpr sel _ _ _ _ => setTrue st.useExceptions sel
            | _ => st.useExceptions
          let rw1 := st.rw.Replace Fun.Pos Fun.End name
          let lp := b.res.FileSet.Position Lparen
          match b.res.Nodes pkg.self.ptr callPtr, b.res.Nodes rpc.Svc.Root.ptr rpc.Func with
          | some callTx, some rpcTx =>
            let ids := toString callTx ++ ", " ++ toString rpcTx ++ "," ++ lineMarker lp.Line (lp.Column + 1)
            let rw2 := rw1.Insert (Lparen + 1) ids
            let seen := decide (name ∈ st.seenWrappers)
            .ok ({ rw := rw2
                   useExceptions := useExceptions
                   rewrittenPkgs := setTrue st.rewrittenPkgs rpc.Svc.Root
                   seenWrappers := if seen then st.seenWrappers else setTrue st.seenWrappers name
                   wrappers := if seen then st.wrappers else st.wrappers ++ [rpc] }, true)
          | _, _ => .error .nilDereference
        | _ => .error .typeAssertion
    | .RPCDefNode => .ok (st, true)
    | .SecretsNode =>
      match node with
      | .ValueSpec _ _ specEnd _ typ _ =>
        let ep := b.res.FileSet.Position specEnd
        let buf := secretsInit env pkg.Secrets ep
        match typ with
        | none => .error .nilDereference
        | some t =>
          let rw1 := st.rw.Insert t.Pos "= "
          let rw2 := rw1.Insert specEnd buf
          match file.AST.Decls with
          | [] => .error .indexOutOfRange
          | decl :: _ =>
            let ln := b.res.FileSet.Position decl.Pos
            .ok ({ st with rw := rw2.Insert decl.Pos (runtimeImport env ln) }, true)
      | _ => .error .typeAssertion
    | .unrecognized t => .error (.unhandledRewriteType (.unrecognized t))

/-- One iteration of the loop over `rewrittenPkgs` (lines 107-117): when the
package is no longer used and its import is found, the import is deleted. -/
def removeImport (env : Env) (file : File) (useExceptions : List Nat) (rw : Rewriter)
    (pkg : PkgRef) : Rewriter :=
  if !env.usesImport file.AST pkg.Name pkg.ImportPath useExceptions then
    match env.findImport file.AST pkg.ImportPath with
    | some found =>
      if found.numSpecs > 1 then rw.Delete found.specPos found.specEnd
      else rw.Delete found.declPos found.declEnd
    | none => rw
  else rw

/-- The loop over `rewrittenPkgs` (lines 106-118). -/
def removeUnusedImports (env : Env) (file : File) (st : WalkState) : Rewriter :=
  (env.rangeOrder st.rewrittenPkgs).val.foldl (removeImport env file st.useExceptions) st.rw

/-- What a run has done to the outside world: the files `ioutil.WriteFile`
has written (path, contents), the calls of `b.addOverlay` (source,
destination) and the wrapper files `b.generateWrappers` has produced (path,
wrappers), each in order. -/
structure Effects where
  written : List (String × String)
  overlays : List (String × String)
  generated : List (String × List RPC)
deriving DecidableEq, Repr

/-- The variables of `rewritePkg` that live across files. -/
structure Wrappers where
  seenWrappers : List String
  wrappers : List RPC
deriving DecidableEq, Repr

/-- How the loop over the files is left early: by a panic or by
`return err`. -/
inductive Abort where
  | panic (p : Panic)
  | err (e : String)
deriving DecidableEq, Repr

/-- The variables captured by the closure when the walk of a file starts
(lines 19-20, 28-31). -/
def initialState (file : File) (acc : Wrappers) : WalkState :=
  { rw := Rewriter.New file.Contents file.Base
    useExceptions := []
    rewrittenPkgs := []
    seenWrappers := acc.seenWrappers
    wrappers := acc.wrappers }

/-- One iteration of the loop over `pkg.Files` (lines 22-127). -/
def rewriteFile (env : Env) (b : builder) (pkg : Package) (targetDir : String)
    (file : File) (acc : Wrappers) (eff : Effects) : Effects × Except Abort Wrappers :=
  if file.References.length = 0 then (eff, .ok acc)
  else
    match Apply (pre env b pkg file) file.AST.node (initialState file acc) with
    | .error p => (eff, .error (.panic p))
    | .ok st =>
      let rw := removeUnusedImports env file st
      let name := env.Base file.Path
      let dst := env.Join targetDir name
      match env.Data rw with
      | none => (eff, .error (.panic .rewriterData))
      | some data =>
        match env.WriteFile dst data with
        | some err => (eff, .error (.err err))
        | none =>
          ({ eff with written := eff.written ++ [(dst, data)]
                      overlays := eff.overlays ++ [(file.Path, dst)] },
           .ok ⟨st.seenWrappers, st.wrappers⟩)

/-- The loop over `pkg.Files`. -/
def rewriteFiles (env : Env) (b : builder) (pkg : Package) (targetDir : String) :
    List File → Wrappers → Effects → Effects × Except Abort Wrappers
  | [], acc, eff => (eff, .ok acc)
  | file :: files, acc, eff =>
    match rewriteFile env b pkg targetDir file acc eff with
    | (eff1, .ok acc1) => rewriteFiles env b pkg targetDir files acc1 eff1
    | (eff1, .error a) => (eff1, .error a)

/-- How a call of `rewritePkg` ends. -/
inductive Outcome where
  | returned (err : Option String)
  | panicked (p : Panic)
deriving DecidableEq, Repr

/-- The method `(*builder).rewritePkg(pkg, targetDir)`: its effects and how it
ends. -/
def rewritePkg (env : Env) (b : builder) (pkg : Package) (targetDir : String) :
    Effects × Outcome :=
  match rewriteFiles env b pkg targetDir pkg.Files ⟨[], []⟩ ⟨[], [], []⟩ with
  | (eff, .error (.panic p)) => (eff, .panicked p)
  | (eff, .error (.err e)) => (eff, .returned (some e))
  | (eff, .ok acc) =>
    if acc.wrappers.length > 0 then
      let name := "encore_rpc_wrappers.go"
      let wrapperPath := env.Join targetDir name
      match env.generateWrappers pkg acc.wrappers wrapperPath with
      | some err => (eff, .returned (some err))
      | none =>
        ({ eff with generated := eff.generated ++ [(wrapperPath, acc.wrappers)]
                    overlays := eff.overlays ++ [(env.Join pkg.Dir name, wrapperPath)] },
         .returned none)
    else (eff, .returned none)

/-! ## Notions used to state the properties -/

/-- Whether the closure lets the walk descend below a node: only a node whose
directive is a LogAnnotation (`RLogNode`) stops it. -/
def descends (refs : List (Nat × Directive)) (n : Node) : Bool :=
  match refs.lookup n.ptr with
  | some d => decide (d.Typ ≠ .RLogNode)
  | none => true

mutual
/-- The nodes of a tree the walk reaches when nothing panics, in the order it
reaches them: the node itself, then, if `desc` holds of it, those of its
children. With `desc` constantly true these are all the nodes of the tree. -/
def visited (desc : Node → Bool) : Node → List Node
  | .CallExpr p a e f lp args =>
    .CallExpr p a e f lp args ::
      (if desc (.CallExpr p a e f lp args) then visited desc f ++ visitedList desc args else [])
  | .SelectorExpr p a e x sel =>
    .SelectorExpr p a e x sel ::
      (if desc (.SelectorExpr p a e x sel) then visited desc x ++ visited desc sel else [])
  | .ValueSpec p a e names typ values =>
    .ValueSpec p a e names typ values ::
      (if desc (.ValueSpec p a e names typ values) then
        visitedList desc names ++ (visitedOpt desc typ ++ visitedList desc values)
       else [])
  | .Other p a e children =>
    .Other p a e children ::
      (if desc (.Other p a e children) then visitedList desc children else [])
/-- The nodes reached in a list of children. -/
def visitedList (desc : Node → Bool) : List Node → List Node
  | [] => []
  | n :: ns => visited desc n ++ visitedList desc ns
/-- The nodes reached in an optional child. -/
def visitedOpt (desc : Node → Bool) : Option Node → List Node
  | none => []
  | some n => visited desc n
end

/-- All the nodes of a tree, in document order. -/
def allNodes (n : Node) : List Node :=
  visited (fun _ => true) n

/-- The nodes of a file the closure is called on when nothing panics: those
without an ancestor carrying a LogAnnotation directive. -/
def File.reached (file : File) : List Node :=
  visited (descends file.References) file.AST.node

/-- The closure run over a list of nodes in order, the captured variables
threaded through. -/
def walk {σ ε : Type} (pre : σ → Node → Except ε (σ × Bool)) : List Node → σ → Except ε σ
  | [], s => .ok s
  | n :: ns, s =>
    match pre s n with
    | .error x => .error x
    | .ok (s1, _) => walk pre ns s1

/-- The remote procedure a node is a RemoteCall of, if its directive is one. -/
def rpcTarget (refs : List (Nat × Directive)) (n : Node) : Option RPC :=
  match refs.lookup n.ptr with
  | some d =>
    match d.Typ with
    | .RPCCallNode => d.RPC
    | _ => none
  | none => none

/-- The targets of the RemoteCall directives of a file, in traversal order; a
file with an empty directive map is not traversed. -/
def File.targets (file : File) : List RPC :=
  if file.References.length = 0 then [] else file.reached.filterMap (rpcTarget file.References)

/-- The targets of the RemoteCall directives of the files of a package, files
in declaration order. -/
def Package.targets (pkg : Package) : List RPC :=
  (pkg.Files.map File.targets).flatten

/-- First-occurrence deduplication by a key, as the specification words it:
the first element is kept, and what is kept of the rest is rid of the
elements with the key of the first. -/
def firstOccurrences {α κ : Type} [DecidableEq κ] (key : α → κ) : List α → List α
  | [] => []
  | x :: xs => x :: (firstOccurrences key xs).filter (fun y => decide (key y ≠ key x))

/-- The membership test and append of lines 71-74, on one target. -/
def addWrapper (acc : List String × List RPC) (rpc : RPC) : List String × List RPC :=
  if wrapperName rpc ∈ acc.1 then acc else (setTrue acc.1 (wrapperName rpc), acc.2 ++ [rpc])

/-- Whether `rewritePkg` rewrites a file: its directive map is not empty. -/
def File.hasDirectives (file : File) : Bool :=
  decide (file.References.length ≠ 0)

/-- The path the rewritten file is written to (lines 121-122). -/
def destination (env : Env) (targetDir : String) (file : File) : String :=
  env.Join targetDir (env.Base file.Path)

/-- The files of a list that `rewritePkg` rewrites, in order. -/
def rewrittenFiles (files : List File) : List File :=
  files.filter File.hasDirectives

/-- The children of a node, in the order `astutil.Apply` walks them. -/
def Node.children : Node → List Node
  | .CallExpr _ _ _ f _ args => f :: args
  | .SelectorExpr _ _ _ x sel => [x, sel]
  | .ValueSpec _ _ _ names typ values => names ++ (typ.toList ++ values)
  | .Other _ _ _ children => children

/-- Whether a node is a call expression. -/
def Node.isCall : Node → Bool
  | .CallExpr _ _ _ _ _ _ => true
  | _ => false

/-- The call expressions of a tree, in document order. -/
def calls (root : Node) : List Node :=
  (allNodes root).filter Node.isCall

/-- A node is nested in the target expression of a call expression. -/
def nestedInFun (c : Node) : Node → Prop
  | .CallExpr _ _ _ f _ _ => c ∈ allNodes f
  | _ => False

/-- A node is nested in the arguments of a call expression. -/
def nestedInArgs (c : Node) : Node → Prop
  | .CallExpr _ _ _ _ _ args => c ∈ visitedList (fun _ => true) args
  | _ => False

/-- A call expression is well formed: its target expression starts no earlier
than the call and ends at or before the opening parenthesis, which lies
inside the call; the calls nested in the target expression end with it at the
latest, and the calls nested in the arguments start strictly after the
opening parenthesis. -/
def wellFormedCall : Node → Bool
  | .CallExpr _ pos end_ f lp args =>
    decide (pos ≤ f.Pos ∧ f.Pos ≤ f.End ∧ f.End ≤ lp ∧ lp < end_) &&
    ((allNodes f).filter Node.isCall).all (fun c => decide (c.End ≤ f.End)) &&
    ((visitedList (fun _ => true) args).filter Node.isCall).all (fun c => decide (lp < c.Pos))
  | _ => true

/-- The call expressions of a tree are well formed: each of them is, and any
two of them are nested, one in the target expression or in the arguments of
the other, or occupy disjoint spans. -/
def callsWellFormed (root : Node) : Prop :=
  (∀ c ∈ calls root, wellFormedCall c = true) ∧
  (∀ c1 ∈ calls root, ∀ c2 ∈ calls root,
    c1 = c2 ∨ nestedInFun c2 c1 ∨ nestedInArgs c2 c1 ∨ nestedInFun c1 c2 ∨
      nestedInArgs c1 c2 ∨ c1.End ≤ c2.Pos ∨ c2.End ≤ c1.Pos)

/-- The file of a file set that holds a position, as `(*token.FileSet).Position`
looks it up. -/
def FileSet.file (s : FileSet) (p : Nat) : Option TokenFile :=
  s.files.find? (fun f => decide (f.base ≤ p) && decide (p ≤ f.base + f.size))

/-- The byte at position `p` is one byte inside a line: `p` is a valid
position, `p` and `p + 1` lie in the same file of the file set, the line
table of that file starts at offset 0, and no line starts at `p + 1`. -/
def FileSet.oneByteOnLine (s : FileSet) (p : Nat) : Prop :=
  p ≠ 0 ∧ ∃ f, s.file p = some f ∧ s.file (p + 1) = some f ∧
    f.lines.head? = some 0 ∧ p + 1 - f.base ∉ f.lines

/-- No `//line` directive governs the position `p`: every entry of the table
of directives of the file that holds `p` applies from a later offset. -/
def FileSet.noLineDirective (s : FileSet) (p : Nat) : Prop :=
  ∀ f, s.file p = some f → ∀ a ∈ f.infos, p - f.base < a.Offset

/-- The position marker of a position of the file set. -/
def markerAt (b : builder) (p : Nat) : String :=
  lineMarker (b.res.FileSet.Position p).Line (b.res.FileSet.Position p).Column

/-! ## Concrete inputs -/

/-- The function `strconv.Quote` on a string of printable ASCII characters
other than the double quote and the backslash. -/
def quotePlain (s : String) : String :=
  "\"" ++ s ++ "\""

/-- The function `filepath.Base` on a clean slash-separated path that names a
file: what follows the last slash. -/
def basePlain (p : String) : String :=
  String.mk (p.data.reverse.takeWhile (fun c => decide (c ≠ '/'))).reverse

/-- The function `filepath.Join` on two clean, non-empty elements. -/
def joinPlain (dir name : String) : String :=
  dir ++ "/" ++ name

/-- An outside world in which every write succeeds, no import is found, the
keys of a map are visited in order of insertion and the edit buffer is the
one of the specification. -/
def demoEnv : Env where
  Quote := quotePlain
  Base := basePlain
  Join := joinPlain
  usesImport := fun _ _ _ _ => false
  findImport := fun _ _ => none
  rangeOrder := fun keys => ⟨keys, List.Perm.refl keys⟩
  Data := Rewriter.Materialize
  WriteFile := fun _ _ => none
  generateWrappers := fun _ _ _ => none

/-- A builder whose file set holds two files of one line each, at bases 1
and 101, and whose registry gives node `n` of package `p` the id
`100 * p + n`. -/
def demoBuilder : builder where
  res :=
    { FileSet := ⟨[⟨1, 99, [0], []⟩, ⟨101, 99, [0], []⟩]⟩
      Nodes := fun p n => some (100 * (p : Int) + (n : Int)) }

/-- An identifier or other leaf at `[pos, end_)`. -/
def leaf (ptr pos end_ : Nat) : Node :=
  .Other ptr pos end_ []

/-- The call `x.sel(...)` at `pos` whose opening parenthesis is at `lparen`;
the selector expression is node `ptr + 1`. -/
def selectorCall (ptr pos lparen end_ : Nat) (args : List Node) : Node :=
  .CallExpr ptr pos end_
    (.SelectorExpr (ptr + 1) pos lparen (leaf (ptr + 2) pos (pos + 1)) (leaf (ptr + 3) (pos + 2) lparen))
    lparen args

/-- The packages `users` and `billing` and three of their procedures. -/
def usersPkg : PkgRef := ⟨2, "users", "app/users"⟩

/-- The package `billing`. -/
def billingPkg : PkgRef := ⟨3, "billing", "app/billing"⟩

/-- The procedure `users.Get`. -/
def usersGet : RPC := ⟨⟨"users", usersPkg⟩, "Get", 201⟩

/-- The procedure `users.List`. -/
def usersList : RPC := ⟨⟨"users", usersPkg⟩, "List", 202⟩

/-- The procedure `billing.Charge`. -/
def billingCharge : RPC := ⟨⟨"billing", billingPkg⟩, "Charge", 301⟩

/-- A package of two files: the first calls `users.Get`, `billing.Charge` and
`users.Get` again, the second `billing.Charge`, `users.List` and `users.Get`. -/
def ordersPkg : Package where
  self := ⟨1, "orders", "app/orders"⟩
  Dir := "app/orders"
  Service := some ⟨"orders", ⟨1, "orders", "app/orders"⟩⟩
  Secrets := []
  Files :=
    [ { Path := "app/orders/a.go"
        Contents := "u.Get() b.Charge() u.Get()"
        Base := 1
        AST := ⟨10, 1, 27, leaf 11 1 1,
          [.Other 12 1 27 [selectorCall 20 1 6 8 [], selectorCall 30 9 17 19 [],
            selectorCall 40 20 25 27 []]]⟩
        References := [(20, ⟨.RPCCallNode, some usersGet⟩), (30, ⟨.RPCCallNode, some billingCharge⟩),
          (40, ⟨.RPCCallNode, some usersGet⟩)] },
      { Path := "app/orders/b.go"
        Contents := "b.Charge() u.List() u.Get()"
        Base := 101
        AST := ⟨50, 101, 128, leaf 51 101 101,
          [.Other 52 101 128 [selectorCall 60 101 109 111 [], selectorCall 70 112 118 120 [],
            selectorCall 80 121 126 128 []]]⟩
        References := [(60, ⟨.RPCCallNode, some billingCharge⟩), (70, ⟨.RPCCallNode, some usersList⟩),
          (80, ⟨.RPCCallNode, some usersGet⟩)] } ]

/-- The procedure `Out_Send` of the service `pay`. -/
def payOutSend : RPC := ⟨⟨"pay", ⟨4, "pay", "app/pay"⟩⟩, "Out_Send", 401⟩

/-- The procedure `Send` of the service `pay_Out`. -/
def payOutSend2 : RPC := ⟨⟨"pay_Out", ⟨5, "pay_Out", "app/pay_Out"⟩⟩, "Send", 501⟩

/-- A package of one file that calls `pay.Out_Send` and then `pay_Out.Send`. -/
def collidingPkg : Package where
  self := ⟨1, "orders", "app/orders"⟩
  Dir := "app/orders"
  Service := some ⟨"orders", ⟨1, "orders", "app/orders"⟩⟩
  Secrets := []
  Files :=
    [ { Path := "app/orders/c.go"
        Contents := "pay.Out_Send() pay_Out.Send()"
        Base := 1
        AST := ⟨10, 1, 30, leaf 11 1 1,
          [.Other 12 1 30 [
            .CallExpr 20 1 15 (.SelectorExpr 21 1 13 (leaf 22 1 4) (leaf 23 5 13)) 13 [],
            .CallExpr 30 16 30 (.SelectorExpr 31 16 28 (leaf 32 16 23) (leaf 33 24 28)) 28 []]]⟩
        References := [(20, ⟨.RPCCallNode, some payOutSend⟩), (30, ⟨.RPCCallNode, some payOutSend2⟩)] } ]

/-- The file `rlog.Info(x)` whose call is a LogAnnotation and whose argument
`x` carries a directive of an unrecognized kind. -/
def logFile : File where
  Path := "app/orders/l.go"
  Contents := "rlog.Info(x)"
  Base := 1
  AST := ⟨10, 1, 13, leaf 11 1 1,
    [.Other 12 1 13 [
      .CallExpr 20 1 13 (.SelectorExpr 21 1 10 (leaf 22 1 5) (leaf 23 6 10)) 10
        [leaf 24 11 12]]]⟩
  References := [(20, ⟨.RLogNode, none⟩), (24, ⟨.unrecognized 7, none⟩)]

/-- The package `orders` of the one file `logFile`. -/
def logPkg : Package where
  self := ⟨1, "orders", "app/orders"⟩
  Dir := "app/orders"
  Service := some ⟨"orders", ⟨1, "orders", "app/orders"⟩⟩
  Secrets := []
  Files := [logFile]

/-- The file `func Place() {}` whose declaration is a RemoteCallDefinition. -/
def definitionFile : File where
  Path := "app/orders/a.go"
  Contents := "func Place() \x7b\x7d"
  Base := 1
  AST := ⟨10, 1, 16, leaf 11 1 1, [.Other 12 1 16 [leaf 13 6 11]]⟩
  References := [(12, ⟨.RPCDefNode, none⟩)]

/-- The file `x` whose one declaration carries a directive of an unrecognized
kind. -/
def unrecognizedFile : File where
  Path := "app/orders/b.go"
  Contents := "x"
  Base := 101
  AST := ⟨50, 101, 102, leaf 51 101 101, [leaf 52 101 102]⟩
  References := [(52, ⟨.unrecognized 7, none⟩)]

/-- The package `orders` of the two files `definitionFile` and
`unrecognizedFile`, in this order. -/
def abortingPkg : Package where
  self := ⟨1, "orders", "app/orders"⟩
  Dir := "app/orders"
  Service := some ⟨"orders", ⟨1, "orders", "app/orders"⟩⟩
  Secrets := []
  Files := [definitionFile, unrecognizedFile]

/-- The file `var a struct{} var b struct{}` whose two specifications are
SecretDeclarations. -/
def twoSecretsFile : File where
  Path := "app/billing/s.go"
  Contents := "var a struct\x7b\x7d var b struct\x7b\x7d"
  Base := 1
  AST := ⟨10, 1, 30, leaf 11 1 1,
    [.Other 12 1 15 [.ValueSpec 13 5 15 [leaf 14 5 6] (some (leaf 15 7 15)) []],
     .Other 16 16 30 [.ValueSpec 17 20 30 [leaf 18 20 21] (some (leaf 19 22 30)) []]]⟩
  References := [(13, ⟨.SecretsNode, none⟩), (17, ⟨.SecretsNode, none⟩)]

/-- The package `billing` with the secret `ApiKey` and the one file
`twoSecretsFile`. -/
def twoSecretsPkg : Package where
  self := ⟨1, "billing", "app/billing"⟩
  Dir := "app/billing"
  Service := some ⟨"billing", ⟨1, "billing", "app/billing"⟩⟩
  Secrets := ["ApiKey"]
  Files := [twoSecretsFile]

/-- The call `h.Query(a, b)` at position 1. -/
def queryCall : Node :=
  .CallExpr 20 1 14 (.SelectorExpr 21 1 8 (leaf 22 1 2) (leaf 23 3 8)) 8
    [leaf 24 9 10, leaf 25 12 13]

/-- The file `h.Query(a, b)` whose call is a DatabaseHandle. -/
def queryFile : File where
  Path := "app/payments/q.go"
  Contents := "h.Query(a, b)"
  Base := 1
  AST := ⟨10, 1, 14, leaf 11 1 1, [.Other 12 1 14 [queryCall]]⟩
  References := [(20, ⟨.SQLDBNode, none⟩)]

/-- The package of the service `payments`, of the one file `queryFile`. -/
def paymentsPkg : Package where
  self := ⟨1, "payments", "app/payments"⟩
  Dir := "app/payments"
  Service := some ⟨"payments", ⟨1, "payments", "app/payments"⟩⟩
  Secrets := []
  Files := [queryFile]

/-- The value specification `secrets struct{}` at position 5. -/
def secretsSpec : Node :=
  .ValueSpec 13 5 21 [leaf 14 5 12] (some (leaf 15 13 21)) []

/-- The file `var secrets struct{}` whose specification is a SecretDeclaration. -/
def secretsFile : File where
  Path := "app/billing/s.go"
  Contents := "var secrets struct\x7b\x7d"
  Base := 1
  AST := ⟨10, 1, 21, leaf 11 1 1, [.Other 12 1 21 [secretsSpec]]⟩
  References := [(13, ⟨.SecretsNode, none⟩)]

/-- The package `billing` with the secrets `ApiKey` and `DbPass`. -/
def billingSecretsPkg : Package where
  self := ⟨1, "billing", "app/billing"⟩
  Dir := "app/billing"
  Service := some ⟨"billing", ⟨1, "billing", "app/billing"⟩⟩
  Secrets := ["ApiKey", "DbPass"]
  Files := [secretsFile]

/-- The outside world `demoEnv` in which the import of `app/users` is found,
with the given spans. -/
def importEnv (found : FoundImport) : Env :=
  { demoEnv with
    findImport := fun _ path => if path = "app/users" then some found else none }

/-- A builder whose file set holds one file of two lines at base 1, the second
line starting at the given offset. -/
def twoLineBuilder (second : Nat) : builder where
  res :=
    { FileSet := ⟨[⟨1, 99, [0, second], []⟩]⟩
      Nodes := fun p n => some (100 * (p : Int) + (n : Int)) }

/-- The call `Get(x)` on the second line, whose target is an unqualified
identifier. -/
def dotCall : Node :=
  .CallExpr 20 22 28 (leaf 21 22 25) 25 [leaf 22 26 27]

/-- A file that imports `app/users` with a dot and calls `Get(x)`, a
RemoteCall of `users.Get`. -/
def dotImportFile : File where
  Path := "app/orders/d.go"
  Contents := "import . \"app/users\"\nGet(x)"
  Base := 1
  AST := ⟨10, 1, 28, leaf 11 1 1, [.Other 12 1 21 [leaf 13 8 21], .Other 14 22 28 [dotCall]]⟩
  References := [(20, ⟨.RPCCallNode, some usersGet⟩)]

/-- The package `orders` of the one file `dotImportFile`. -/
def dotImportPkg : Package where
  self := ⟨1, "orders", "app/orders"⟩
  Dir := "app/orders"
  Service := some ⟨"orders", ⟨1, "orders", "app/orders"⟩⟩
  Secrets := []
  Files := [dotImportFile]

/-- A file that imports `app/users` and calls `users.Get()`, a RemoteCall of
`users.Get`. -/
def usersCallFile : File where
  Path := "app/orders/u.go"
  Contents := "import \"app/users\"\nusers.Get()"
  Base := 1
  AST := ⟨10, 1, 31, leaf 11 1 1,
    [.Other 12 1 19 [leaf 13 8 19],
     .Other 14 20 31
      [.CallExpr 20 20 31 (.SelectorExpr 21 20 29 (leaf 22 20 25) (leaf 23 26 29)) 29 []]]⟩
  References := [(20, ⟨.RPCCallNode, some usersGet⟩)]

/-- The package `orders` of the one file `usersCallFile`. -/
def usersCallPkg : Package where
  self := ⟨1, "orders", "app/orders"⟩
  Dir := "app/orders"
  Service := some ⟨"orders", ⟨1, "orders", "app/orders"⟩⟩
  Secrets := []
  Files := [usersCallFile]

/-- The outside world `importEnv` in which the liveness check reports that the
package is still used. -/
def usedEnv (found : FoundImport) : Env :=
  { importEnv found with usesImport := fun _ _ _ _ => true }

/-- The file `package orders` without any directive. -/
def plainFile : File where
  Path := "app/orders/n.go"
  Contents := "package orders"
  Base := 101
  AST := ⟨60, 101, 115, leaf 61 109 115, []⟩
  References := []

/-- The file `queryFile` under the path `app/orders/q.go`. -/
def ordersQueryFile : File :=
  { queryFile with Path := "app/orders/q.go" }

/-- The package `orders` of the three files `definitionFile`, `plainFile` and
`ordersQueryFile`, in this order. -/
def mixedPkg : Package where
  self := ⟨1, "orders", "app/orders"⟩
  Dir := "app/orders"
  Service := some ⟨"orders", ⟨1, "orders", "app/orders"⟩⟩
  Secrets := []
  Files := [definitionFile, plainFile, ordersQueryFile]

/-- The outside world `demoEnv` in which the write to the given path fails. -/
def failAtEnv (dst : String) : Env :=
  { demoEnv with WriteFile := fun d _ => if d = dst then some "disk full" else none }

/-- The outside world `demoEnv` in which the generation of the wrappers fails. -/
def noWrappersEnv : Env :=
  { demoEnv with generateWrappers := fun _ _ _ => some "no wrappers" }

/-- The call `h.Query(a)` at offset 11, a DatabaseHandle. -/
def innerQuery : Node :=
  .CallExpr 30 11 21 (.SelectorExpr 31 11 18 (leaf 32 11 12) (leaf 33 13 18)) 18
    [leaf 34 19 20]

/-- The call `users.Get(h.Query(a))`, a RemoteCall whose argument is
`innerQuery`. -/
def outerGet : Node :=
  .CallExpr 20 1 22 (.SelectorExpr 21 1 10 (leaf 22 1 6) (leaf 23 7 10)) 10 [innerQuery]

/-- The file `users.Get(h.Query(a))`. -/
def nestedCallFile : File where
  Path := "app/orders/g.go"
  Contents := "users.Get(h.Query(a))"
  Base := 1
  AST := ⟨10, 1, 22, leaf 11 1 1, [.Other 12 1 22 [outerGet]]⟩
  References := [(20, ⟨.RPCCallNode, some usersGet⟩), (30, ⟨.SQLDBNode, none⟩)]

/-- The package `orders` of the one file `nestedCallFile`. -/
def nestedCallPkg : Package where
  self := ⟨1, "orders", "app/orders"⟩
  Dir := "app/orders"
  Service := some ⟨"orders", ⟨1, "orders", "app/orders"⟩⟩
  Secrets := []
  Files := [nestedCallFile]

/-- The call `pick(x)` at offset 1, a DatabaseHandle. -/
def innerPick : Node :=
  .CallExpr 30 1 8 (leaf 31 1 5) 5 [leaf 32 6 7]

/-- The call `pick(x).Get()`, a RemoteCall whose target expression holds
`innerPick`. -/
def chainedGet : Node :=
  .CallExpr 20 1 14 (.SelectorExpr 21 1 12 innerPick (leaf 23 9 12)) 12 []

/-- The file `pick(x).Get()`. -/
def chainedCallFile : File where
  Path := "app/orders/c.go"
  Contents := "pick(x).Get()"
  Base := 1
  AST := ⟨10, 1, 14, leaf 11 1 1, [.Other 12 1 14 [chainedGet]]⟩
  References := [(20, ⟨.RPCCallNode, some usersGet⟩), (30, ⟨.SQLDBNode, none⟩)]

/-- The package `orders` of the one file `chainedCallFile`. -/
def chainedCallPkg : Package where
  self := ⟨1, "orders", "app/orders"⟩
  Dir := "app/orders"
  Service := some ⟨"orders", ⟨1, "orders", "app/orders"⟩⟩
  Secrets := []
  Files := [chainedCallFile]

/-- A builder whose file set holds the one file of `directiveFile`: two lines,
the second at offset 18, and one `//line` directive that gives line 100 and no
column from offset 18 on. -/
def directiveBuilder : builder where
  res :=
    { FileSet := ⟨[⟨1, 31, [0, 18], [⟨18, 100, 0⟩]⟩]⟩
      Nodes := fun p n => some (100 * (p : Int) + (n : Int)) }

/-- The file of the two lines `//line gen.go:100` and `h.Query(a, b)`, whose
call is a DatabaseHandle. -/
def directiveFile : File where
  Path := "app/payments/d.go"
  Contents := "//line gen.go:100\nh.Query(a, b)"
  Base := 1
  AST := ⟨10, 19, 32, leaf 11 19 19,
    [.Other 12 19 32
      [.CallExpr 20 19 32 (.SelectorExpr 21 19 26 (leaf 22 19 20) (leaf 23 21 26)) 26
        [leaf 24 27 28, leaf 25 30 31]]]⟩
  References := [(20, ⟨.SQLDBNode, none⟩)]

/-- The package of the service `payments`, of the one file `directiveFile`. -/
def directivePkg : Package where
  self := ⟨1, "payments", "app/payments"⟩
  Dir := "app/payments"
  Service := some ⟨"payments", ⟨1, "payments", "app/payments"⟩⟩
  Secrets := []
  Files := [directiveFile]

/-- The file `rlog.Info(h.Query(a))`: the outer call is a LogAnnotation, its
argument `innerQuery` a DatabaseHandle. -/
def loggedQueryFile : File where
  Path := "app/payments/l.go"
  Contents := "rlog.Info(h.Query(a))"
  Base := 1
  AST := ⟨10, 1, 22, leaf 11 1 1,
    [.Other 12 1 22
      [.CallExpr 20 1 22 (.SelectorExpr 21 1 10 (leaf 22 1 5) (leaf 23 6 10)) 10
        [innerQuery]]]⟩
  References := [(20, ⟨.RLogNode, none⟩), (30, ⟨.SQLDBNode, none⟩)]

/-- The package of the service `payments`, of the one file `loggedQueryFile`. -/
def loggedQueryPkg : Package where
  self := ⟨1, "payments", "app/payments"⟩
  Dir := "app/payments"
  Service := some ⟨"payments", ⟨1, "payments", "app/payments"⟩⟩
  Secrets := []
  Files := [loggedQueryFile]

/-- The call `users.Get()` at offset 11, a RemoteCall of `users.Get`. -/
def innerGet : Node :=
  .CallExpr 30 11 22 (.SelectorExpr 31 11 20 (leaf 32 11 16) (leaf 33 17 20)) 20 []

/-- The file `rlog.Info(users.Get())`: the outer call is a LogAnnotation, its
argument `innerGet` a RemoteCall. -/
def loggedCallFile : File where
  Path := "app/orders/l.go"
  Contents := "rlog.Info(users.Get())"
  Base := 1
  AST := ⟨10, 1, 23, leaf 11 1 1,
    [.Other 12 1 23
      [.CallExpr 20 1 23 (.SelectorExpr 21 1 10 (leaf 22 1 5) (leaf 23 6 10)) 10
        [innerGet]]]⟩
  References := [(20, ⟨.RLogNode, none⟩), (30, ⟨.RPCCallNode, some usersGet⟩)]

/-- The package `orders` of the one file `loggedCallFile`. -/
def loggedCallPkg : Package where
  self := ⟨1, "orders", "app/orders"⟩
  Dir := "app/orders"
  Service := some ⟨"orders", ⟨1, "orders", "app/orders"⟩⟩
  Secrets := []
  Files := [loggedCallFile]

/-! ## Theorems -/

set_option maxRecDepth 100000

theorem walk_append {σ ε : Type} (pre : σ → Node → Except ε (σ × Bool)) (l1 l2 : List Node)
    (s : σ) :
    walk pre (l1 ++ l2) s =
      match walk pre l1 s with
      | .error x => .error x
      | .ok s1 => walk pre l2 s1 := by
  induction l1 generalizing s with
  | nil => simp [walk]
  | cons n ns ih =>
    simp only [List.cons_append, walk]
    cases h : pre s n with
    | error x => simp
    | ok r => obtain ⟨s1, d⟩ := r; simp [ih]

mutual
theorem Apply_eq_walk {σ ε : Type} (pre : σ → Node → Except ε (σ × Bool)) (desc : Node → Bool)
    (h : ∀ s n s1 d, pre s n = .ok (s1, d) → d = desc n) :
    ∀ (n : Node) (s : σ), Apply pre n s = walk pre (visited desc n) s
  | .CallExpr p a e f lp args, s => by
    rw [Apply, visited, walk]
    cases hp : pre s (.CallExpr p a e f lp args) with
    | error x => rfl
    | ok r =>
      obtain ⟨s1, d⟩ := r
      have hd := h _ _ _ _ hp
      subst hd
      cases hdesc : desc (.CallExpr p a e f lp args) with
      | false => simp [walk]
      | true =>
        simp only [if_true, walk_append]
        rw [Apply_eq_walk pre desc h f s1]
        cases walk pre (visited desc f) s1 with
        | error x => rfl
        | ok s2 => exact ApplyList_eq_walk pre desc h args s2
  | .SelectorExpr p a e x sel, s => by
    rw [Apply, visited, walk]
    cases hp : pre s (.SelectorExpr p a e x sel) with
    | error x => rfl
    | ok r =>
      obtain ⟨s1, d⟩ := r
      have hd := h _ _ _ _ hp
      subst hd
      cases hdesc : desc (.SelectorExpr p a e x sel) with
      | false => simp [walk]
      | true =>
        simp only [if_true, walk_append]
        rw [Apply_eq_walk pre desc h x s1]
        cases walk pre (visited desc x) s1 with
        | error x => rfl
        | ok s2 => exact Apply_eq_walk pre desc h sel s2
  | .ValueSpec p a e names typ values, s => by
    rw [Apply, visited, walk]
    cases hp : pre s (.ValueSpec p a e names typ values) with
    | error x => rfl
    | ok r =>
      obtain ⟨s1, d⟩ := r
      have hd := h _ _ _ _ hp
      subst hd
      cases hdesc : desc (.ValueSpec p a e names typ values) with
      | false => simp [walk]
      | true =>
        simp only [if_true, walk_append]
        rw [ApplyList_eq_walk pre desc h names s1]
        cases walk pre (visitedList desc names) s1 with
        | error x => rfl
        | ok s2 =>
          simp only []
          rw [ApplyOpt_eq_walk pre desc h typ s2]
          cases walk pre (visitedOpt desc typ) s2 with
          | error x => rfl
          | ok s3 => exact ApplyList_eq_walk pre desc h values s3
  | .Other p a e children, s => by
    rw [Apply, visited, walk]
    cases hp : pre s (.Other p a e children) with
    | error x => rfl
    | ok r =>
      obtain ⟨s1, d⟩ := r
      have hd := h _ _ _ _ hp
      subst hd
      cases hdesc : desc (.Other p a e children) with
      | false => simp [walk]
      | true =>
        simp only [if_true]
        exact ApplyList_eq_walk pre desc h children s1
theorem ApplyList_eq_walk {σ ε : Type} (pre : σ → Node → Except ε (σ × Bool))
    (desc : Node → Bool) (h : ∀ s n s1 d, pre s n = .ok (s1, d) → d = desc n) :
    ∀ (ns : List Node) (s : σ), ApplyList pre ns s = walk pre (visitedList desc ns) s
  | [], s => by rw [ApplyList, visitedList, walk]
  | n :: ns, s => by
    rw [ApplyList, visitedList, walk_append, Apply_eq_walk pre desc h n s]
    cases walk pre (visited desc n) s with
    | error x => rfl
    | ok s1 => exact ApplyList_eq_walk pre desc h ns s1
theorem ApplyOpt_eq_walk {σ ε : Type} (pre : σ → Node → Except ε (σ × Bool))
    (desc : Node → Bool) (h : ∀ s n s1 d, pre s n = .ok (s1, d) → d = desc n) :
    ∀ (o : Option Node) (s : σ), ApplyOpt pre o s = walk pre (visitedOpt desc o) s
  | none, s => by rw [ApplyOpt, visitedOpt, walk]
  | some n, s => by
    rw [ApplyOpt, visitedOpt]
    exact Apply_eq_walk pre desc h n s
end

/-- The boolean the closure returns is decided by the directive of the node alone. -/
theorem pre_descends (env : Env) (b : builder) (pkg : Package) (file : File)
    (s : WalkState) (n : Node) (s1 : WalkState) (d : Bool)
    (h : pre env b pkg file s n = .ok (s1, d)) : d = descends file.References n := by
  unfold pre at h
  unfold descends
  split at h
  · rename_i hl
    rw [hl]
    injection h with h
    injection h with _ h
    exact h.symm
  · rename_i rewrite hl
    rw [hl]
    split at h <;> rename_i ht <;> simp only [ht]
    all_goals (repeat' split at h)
    all_goals first
      | (injection h with h; injection h with _ h; simp [← h])
      | (exact absurd h (by simp))

/-- The walk of a file by `astutil.Apply` is the closure run over the nodes reached. -/
theorem Apply_file (env : Env) (b : builder) (pkg : Package) (file : File) (s : WalkState) :
    Apply (pre env b pkg file) file.AST.node s = walk (pre env b pkg file) file.reached s :=
  Apply_eq_walk _ _ (pre_descends env b pkg file) _ _

/-- What one call of the closure does to the wrapper set. -/
theorem pre_wrappers (env : Env) (b : builder) (pkg : Package) (file : File)
    (s : WalkState) (n : Node) (s1 : WalkState) (d : Bool)
    (h : pre env b pkg file s n = .ok (s1, d)) :
    (s1.seenWrappers, s1.wrappers) =
      match rpcTarget file.References n with
      | some rpc => addWrapper (s.seenWrappers, s.wrappers) rpc
      | none => (s.seenWrappers, s.wrappers) := by
  unfold pre at h
  unfold rpcTarget
  split at h
  · rename_i hl
    rw [hl]
    injection h with h
    injection h with h _
    subst h
    rfl
  · rename_i rewrite hl
    rw [hl]
    split at h <;> rename_i ht <;> simp only [ht]
    all_goals (repeat' split at h)
    all_goals first
      | (exact Except.noConfusion h)
      | (injection h with h; injection h with h _; subst h; rfl)
      | skip
    all_goals
      dsimp only at h
      injection h with h
      injection h with h _
      subst h
      simp only [*, addWrapper]
      split_ifs <;> simp_all

theorem walk_wrappers (env : Env) (b : builder) (pkg : Package) (file : File)
    (nodes : List Node) (s s1 : WalkState)
    (h : walk (pre env b pkg file) nodes s = .ok s1) :
    (s1.seenWrappers, s1.wrappers) =
      (nodes.filterMap (rpcTarget file.References)).foldl addWrapper
        (s.seenWrappers, s.wrappers) := by
  induction nodes generalizing s with
  | nil =>
    simp only [walk] at h
    injection h with h
    subst h
    rfl
  | cons n ns ih =>
    simp only [walk] at h
    cases hp : pre env b pkg file s n with
    | error x => rw [hp] at h; exact absurd h (by simp)
    | ok r =>
      obtain ⟨s2, d⟩ := r
      rw [hp] at h
      simp only at h
      rw [ih s2 h]
      have h2 := pre_wrappers env b pkg file s n s2 d hp
      cases ht : rpcTarget file.References n with
      | none =>
        rw [ht] at h2
        simp only [List.filterMap_cons, ht, h2]
      | some rpc =>
        rw [ht] at h2
        simp only [List.filterMap_cons, ht, List.foldl_cons, h2]

theorem foldl_addWrapper (ts : List RPC) (seen : List String) (ws : List RPC) :
    (ts.foldl addWrapper (seen, ws)).2 =
      ws ++ (firstOccurrences wrapperName ts).filter (fun t => decide (wrapperName t ∉ seen)) := by
  induction ts generalizing seen ws with
  | nil => simp [firstOccurrences]
  | cons t ts ih =>
    simp only [List.foldl_cons, firstOccurrences]
    by_cases hm : wrapperName t ∈ seen
    · have h1 : addWrapper (seen, ws) t = (seen, ws) := by simp [addWrapper, hm]
      rw [h1, ih, List.filter_cons]
      simp only [hm, not_true_eq_false, decide_False, Bool.false_eq_true, if_false,
        List.filter_filter]
      congr 1
      apply List.filter_congr
      intro x _
      by_cases hx : wrapperName x ∈ seen
      · simp [hx]
      · have : wrapperName x ≠ wrapperName t := fun h => hx (h ▸ hm)
        simp [hx, this]
    · have h1 : addWrapper (seen, ws) t = (seen ++ [wrapperName t], ws ++ [t]) := by
        simp [addWrapper, hm, setTrue]
      rw [h1, ih, List.filter_cons]
      simp only [hm, not_false_eq_true, decide_True, if_true, List.filter_filter,
        List.append_assoc, List.singleton_append]
      congr 2
      apply List.filter_congr
      intro x _
      simp only [List.mem_append, List.mem_singleton, not_or, ne_eq]
      by_cases hx : wrapperName x ∈ seen <;> by_cases hk : wrapperName x = wrapperName t <;>
        simp [hx, hk]

theorem firstOccurrences_nodup {α κ : Type} [DecidableEq κ] (key : α → κ) (l : List α) :
    ((firstOccurrences key l).map key).Nodup := by
  induction l with
  | nil => simp [firstOccurrences]
  | cons x xs ih =>
    simp only [firstOccurrences, List.map_cons, List.nodup_cons]
    constructor
    · intro hmem
      obtain ⟨y, hy, hk⟩ := List.mem_map.mp hmem
      have := (List.mem_filter.mp hy).2
      simp at this
      exact this hk
    · exact ih.sublist ((List.filter_sublist _).map key)

theorem firstOccurrences_find {α κ : Type} [DecidableEq κ] (key : α → κ) (l : List α) (k : κ) :
    (firstOccurrences key l).find? (fun w => decide (key w = k)) =
      l.find? (fun w => decide (key w = k)) := by
  induction l with
  | nil => simp [firstOccurrences]
  | cons x xs ih =>
    simp only [firstOccurrences, List.find?_cons]
    by_cases hx : key x = k
    · simp [hx]
    · simp only [hx, decide_False]
      rw [← ih, List.find?_filter]
      congr 1
      funext a
      by_cases ha : key a = k
      · have : key a ≠ key x := fun h => hx (h ▸ ha)
        simp [ha, this, Ne.symm hx]
      · simp [ha]

theorem firstOccurrences_sublist {α κ : Type} [DecidableEq κ] (key : α → κ) (l : List α) :
    (firstOccurrences key l).Sublist l := by
  induction l with
  | nil => simp [firstOccurrences]
  | cons x xs ih =>
    simp only [firstOccurrences]
    exact ((List.filter_sublist _).trans ih).cons₂ x

/-- What an iteration of the loop that ends normally has done. -/
theorem rewriteFile_ok (env : Env) (b : builder) (pkg : Package) (targetDir : String)
    (file : File) (acc acc1 : Wrappers) (eff eff1 : Effects)
    (h : rewriteFile env b pkg targetDir file acc eff = (eff1, .ok acc1)) :
    (file.References.length = 0 ∧ eff1 = eff ∧ acc1 = acc) ∨
    (file.References.length ≠ 0 ∧ ∃ st data,
      walk (pre env b pkg file) file.reached (initialState file acc) = .ok st ∧
      env.Data (removeUnusedImports env file st) = some data ∧
      env.WriteFile (env.Join targetDir (env.Base file.Path)) data = none ∧
      eff1 = { eff with
        written := eff.written ++ [(env.Join targetDir (env.Base file.Path), data)]
        overlays := eff.overlays ++ [(file.Path, env.Join targetDir (env.Base file.Path))] } ∧
      acc1 = ⟨st.seenWrappers, st.wrappers⟩) := by
  unfold rewriteFile at h
  split at h
  · rename_i h0
    left
    injection h with h1 h2
    injection h2 with h2
    exact ⟨h0, h1.symm, h2.symm⟩
  · rename_i h0
    right
    refine ⟨h0, ?_⟩
    rw [Apply_file] at h
    cases hw : walk (pre env b pkg file) file.reached (initialState file acc) with
    | error p => rw [hw] at h; exact absurd (congrArg Prod.snd h) (by simp)
    | ok st =>
      rw [hw] at h
      dsimp only at h
      cases hd : env.Data (removeUnusedImports env file st) with
      | none => rw [hd] at h; exact absurd (congrArg Prod.snd h) (by simp)
      | some data =>
        rw [hd] at h
        dsimp only at h
        cases hwf : env.WriteFile (env.Join targetDir (env.Base file.Path)) data with
        | some err => rw [hwf] at h; exact absurd (congrArg Prod.snd h) (by simp)
        | none =>
          rw [hwf] at h
          injection h with h1 h2
          injection h2 with h2
          exact ⟨st, data, rfl, hd, hwf, h1.symm, h2.symm⟩

theorem rewriteFile_wrappers (env : Env) (b : builder) (pkg : Package) (targetDir : String)
    (file : File) (acc acc1 : Wrappers) (eff eff1 : Effects)
    (h : rewriteFile env b pkg targetDir file acc eff = (eff1, .ok acc1)) :
    (acc1.seenWrappers, acc1.wrappers) =
      file.targets.foldl addWrapper (acc.seenWrappers, acc.wrappers) := by
  unfold File.targets
  rcases rewriteFile_ok env b pkg targetDir file acc acc1 eff eff1 h with
    ⟨h0, _, h2⟩ | ⟨h0, st, data, hw, _, _, _, h2⟩
  · subst h2
    simp [h0]
  · subst h2
    simp only [h0, if_false]
    exact walk_wrappers env b pkg file _ _ _ hw

theorem rewriteFiles_wrappers (env : Env) (b : builder) (pkg : Package) (targetDir : String)
    (files : List File) (acc acc1 : Wrappers) (eff eff1 : Effects)
    (h : rewriteFiles env b pkg targetDir files acc eff = (eff1, .ok acc1)) :
    (acc1.seenWrappers, acc1.wrappers) =
      (files.map File.targets).flatten.foldl addWrapper (acc.seenWrappers, acc.wrappers) := by
  induction files generalizing acc eff with
  | nil =>
    simp only [rewriteFiles] at h
    injection h with _ h
    injection h with h
    subst h
    rfl
  | cons f fs ih =>
    simp only [rewriteFiles] at h
    split at h
    · rename_i eff2 acc2 hf
      rw [ih acc2 eff2 h, List.map_cons, List.flatten_cons, List.foldl_append,
        ← rewriteFile_wrappers env b pkg targetDir f acc acc2 eff eff2 hf]
    · exact absurd (congrArg Prod.snd h) (by simp)

/-- Claim C1. When the loop over the files of a package completes, the wrapper
list it has accumulated is the first-occurrence deduplication, keyed by the
wrapper name, of the targets of the RemoteCall directives reached, files in
declaration order and nodes in traversal order: its entries stand in the
order of the targets, no two of them have the same wrapper name, and for
every wrapper name the entry is the first target of that name (so that every
target is represented by exactly one entry, whatever the number of its
occurrences). -/
theorem C1_wrappers_first_occurrences (env : Env) (b : builder) (pkg : Package)
    (targetDir : String) (acc : Wrappers)
    (h : (rewriteFiles env b pkg targetDir pkg.Files ⟨[], []⟩ ⟨[], [], []⟩).2 = .ok acc) :
    acc.wrappers = firstOccurrences wrapperName pkg.targets ∧
    acc.wrappers.Sublist pkg.targets ∧
    (acc.wrappers.map wrapperName).Nodup ∧
    (∀ name, acc.wrappers.find? (fun w => decide (wrapperName w = name)) =
      pkg.targets.find? (fun w => decide (wrapperName w = name))) ∧
    (∀ r ∈ pkg.targets, (acc.wrappers.filter (fun w => decide (wrapperName w = wrapperName r))).length = 1) := by
  have h1 : acc.wrappers = firstOccurrences wrapperName pkg.targets := by
    have h2 := rewriteFiles_wrappers env b pkg targetDir pkg.Files ⟨[], []⟩ acc ⟨[], [], []⟩
      (rewriteFiles env b pkg targetDir pkg.Files ⟨[], []⟩ ⟨[], [], []⟩).1 (Prod.ext rfl h)
    have h3 := congrArg Prod.snd h2
    simp only [foldl_addWrapper] at h3
    simpa [Package.targets] using h3
  have hnd := firstOccurrences_nodup wrapperName pkg.targets
  have hfind := firstOccurrences_find wrapperName pkg.targets
  refine ⟨h1, ?_, ?_, ?_, ?_⟩
  · rw [h1]; exact firstOccurrences_sublist _ _
  · rw [h1]; exact hnd
  · intro name; rw [h1]; exact hfind name
  · intro r hr
    rw [h1]
    have hex : ∃ w, (firstOccurrences wrapperName pkg.targets).find?
        (fun w => decide (wrapperName w = wrapperName r)) = some w := by
      rw [hfind]
      cases hf : pkg.targets.find? (fun w => decide (wrapperName w = wrapperName r)) with
      | some w => exact ⟨w, rfl⟩
      | none =>
        have := List.find?_eq_none.mp hf r hr
        simp at this
    obtain ⟨w, hw⟩ := hex
    have hwmem := List.mem_of_find?_eq_some hw
    have hwk : wrapperName w = wrapperName r := by
      have := List.find?_some hw
      simpa using this
    have hle : ((firstOccurrences wrapperName pkg.targets).filter
        (fun w => decide (wrapperName w = wrapperName r))).length ≤ 1 := by
      have hnd2 : (((firstOccurrences wrapperName pkg.targets).filter
          (fun w => decide (wrapperName w = wrapperName r))).map wrapperName).Nodup :=
        hnd.sublist ((List.filter_sublist _).map wrapperName)
      have hall : ∀ x ∈ ((firstOccurrences wrapperName pkg.targets).filter
          (fun w => decide (wrapperName w = wrapperName r))).map wrapperName,
          x = wrapperName r := by
        intro x hx
        obtain ⟨y, hy, rfl⟩ := List.mem_map.mp hx
        simpa using (List.mem_filter.mp hy).2
      rw [← List.length_map _ wrapperName]
      generalize ((firstOccurrences wrapperName pkg.targets).filter
          (fun w => decide (wrapperName w = wrapperName r))).map wrapperName = l at hnd2 hall
      match l, hnd2, hall with
      | [], _, _ => simp
      | [_], _, _ => simp
      | a :: c :: _, hn, ha =>
        have e1 := ha a (by simp)
        have e2 := ha c (by simp)
        simp [e1, e2] at hn
    have hge : 0 < ((firstOccurrences wrapperName pkg.targets).filter
        (fun w => decide (wrapperName w = wrapperName r))).length :=
      List.length_pos_of_mem (List.mem_filter.mpr ⟨hwmem, by simpa using hwk⟩)
    omega

/-- Claim C1 on `ordersPkg`, whose two files hold six calls to three
procedures. -/
theorem C1_wrappers_witness :
    (rewriteFiles demoEnv demoBuilder ordersPkg "out" ordersPkg.Files ⟨[], []⟩ ⟨[], [], []⟩).2 =
        .ok ⟨["__encore_users_Get", "__encore_billing_Charge", "__encore_users_List"],
          [usersGet, billingCharge, usersList]⟩ ∧
      ordersPkg.targets =
        [usersGet, billingCharge, usersGet, billingCharge, usersList, usersGet] ∧
      [usersGet, billingCharge, usersList] = firstOccurrences wrapperName ordersPkg.targets :=
  ⟨by rfl, by rfl,
    (C1_wrappers_first_occurrences demoEnv demoBuilder ordersPkg "out"
      ⟨["__encore_users_Get", "__encore_billing_Charge", "__encore_users_List"],
        [usersGet, billingCharge, usersList]⟩ (by rfl)).1⟩

/-- What an iteration of the loop that aborts has done: nothing to the
outside world, and the abort is a panic of the walk, a fatal abort of the
edit buffer or the error of the write. -/
theorem rewriteFile_error (env : Env) (b : builder) (pkg : Package) (targetDir : String)
    (file : File) (acc : Wrappers) (eff eff1 : Effects) (a : Abort)
    (h : rewriteFile env b pkg targetDir file acc eff = (eff1, .error a)) :
    eff1 = eff ∧ file.References.length ≠ 0 ∧
    ((∃ p, walk (pre env b pkg file) file.reached (initialState file acc) = .error p ∧
        a = .panic p) ∨
     (∃ st, walk (pre env b pkg file) file.reached (initialState file acc) = .ok st ∧
        env.Data (removeUnusedImports env file st) = none ∧ a = .panic .rewriterData) ∨
     (∃ st data e, walk (pre env b pkg file) file.reached (initialState file acc) = .ok st ∧
        env.Data (removeUnusedImports env file st) = some data ∧
        env.WriteFile (destination env targetDir file) data = some e ∧ a = .err e)) := by
  unfold rewriteFile at h
  split at h
  · exact absurd (congrArg Prod.snd h) (by simp)
  · rename_i h0
    rw [Apply_file] at h
    cases hw : walk (pre env b pkg file) file.reached (initialState file acc) with
    | error p =>
      rw [hw] at h
      injection h with h1 h2
      injection h2 with h2
      exact ⟨h1.symm, h0, Or.inl ⟨p, rfl, h2.symm⟩⟩
    | ok st =>
      rw [hw] at h
      dsimp only at h
      cases hd : env.Data (removeUnusedImports env file st) with
      | none =>
        rw [hd] at h
        injection h with h1 h2
        injection h2 with h2
        exact ⟨h1.symm, h0, Or.inr (Or.inl ⟨st, rfl, hd, h2.symm⟩)⟩
      | some data =>
        rw [hd] at h
        dsimp only at h
        cases hwf : env.WriteFile (env.Join targetDir (env.Base file.Path)) data with
        | some err =>
          rw [hwf] at h
          injection h with h1 h2
          injection h2 with h2
          exact ⟨h1.symm, h0, Or.inr (Or.inr ⟨st, data, err, rfl, hd, hwf, h2.symm⟩)⟩
        | none =>
          rw [hwf] at h
          exact absurd (congrArg Prod.snd h) (by simp)

/-- A loop that aborts has completed on the files before some file and aborted
in the iteration of that file. -/
theorem rewriteFiles_error (env : Env) (b : builder) (pkg : Package) (targetDir : String)
    (files : List File) (acc : Wrappers) (eff eff1 : Effects) (a : Abort)
    (h : rewriteFiles env b pkg targetDir files acc eff = (eff1, .error a)) :
    ∃ before f after acc0, files = before ++ f :: after ∧
      rewriteFiles env b pkg targetDir before acc eff = (eff1, .ok acc0) ∧
      rewriteFile env b pkg targetDir f acc0 eff1 = (eff1, .error a) := by
  induction files generalizing acc eff with
  | nil =>
    simp only [rewriteFiles] at h
    exact absurd (congrArg Prod.snd h) (by simp)
  | cons f fs ih =>
    simp only [rewriteFiles] at h
    split at h
    · rename_i eff2 acc2 hf
      obtain ⟨before, g, after, acc0, hsplit, hb, hg⟩ := ih acc2 eff2 h
      refine ⟨f :: before, g, after, acc0, by rw [hsplit]; rfl, ?_, hg⟩
      simp only [rewriteFiles, hf]
      exact hb
    · rename_i eff2 a2 hf
      injection h with h1 h2
      injection h2 with h2
      subst h1 h2
      have he := (rewriteFile_error env b pkg targetDir f acc eff eff2 a2 hf).1
      subst he
      exact ⟨[], f, fs, acc, rfl, rfl, hf⟩

/-- A loop that completes has written the rewritten files and recorded their
overlays, in order, and has generated nothing. -/
theorem rewriteFiles_ok_effects (env : Env) (b : builder) (pkg : Package)
    (targetDir : String) (files : List File) (acc acc1 : Wrappers) (eff eff1 : Effects)
    (h : rewriteFiles env b pkg targetDir files acc eff = (eff1, .ok acc1)) :
    eff1.overlays = eff.overlays ++
      (rewrittenFiles files).map (fun g => (g.Path, destination env targetDir g)) ∧
    eff1.written.map Prod.fst = eff.written.map Prod.fst ++
      (rewrittenFiles files).map (destination env targetDir) ∧
    eff1.generated = eff.generated := by
  induction files generalizing acc eff with
  | nil =>
    simp only [rewriteFiles] at h
    injection h with h1 _
    subst h1
    simp [rewrittenFiles]
  | cons f fs ih =>
    simp only [rewriteFiles] at h
    split at h
    · rename_i eff2 acc2 hf
      obtain ⟨i1, i2, i3⟩ := ih acc2 eff2 h
      rcases rewriteFile_ok env b pkg targetDir f acc acc2 eff eff2 hf with
        ⟨h0, he, _⟩ | ⟨h0, st, data, _, _, _, he, _⟩
      · subst he
        have hf0 : File.hasDirectives f = false := by simp [File.hasDirectives, h0]
        simp only [rewrittenFiles, List.filter_cons, hf0] at i1 i2 ⊢
        exact ⟨i1, i2, i3⟩
      · subst he
        have hf1 : File.hasDirectives f = true := by simp [File.hasDirectives, h0]
        simp only [rewrittenFiles, List.filter_cons, hf1, if_true, List.map_cons] at i1 i2 ⊢
        refine ⟨?_, ?_, i3⟩
        · rw [i1]; simp [destination]
        · rw [i2]; simp [destination]
    · exact absurd (congrArg Prod.snd h) (by simp)

/-- The closure panics on a node whose directive is of an unrecognized kind. -/
theorem pre_unrecognized (env : Env) (b : builder) (pkg : Package) (file : File)
    (s : WalkState) (n : Node) (d : Directive) (t : Nat)
    (hd : file.References.lookup n.ptr = some d) (ht : d.Typ = .unrecognized t) :
    pre env b pkg file s n = .error (.unhandledRewriteType (.unrecognized t)) := by
  unfold pre
  rw [hd]
  simp only
  split <;> simp_all

/-- The walk panics when the closure panics on one of the nodes, whatever the
captured variables. -/
theorem walk_error_of_mem {σ ε : Type} (pre : σ → Node → Except ε (σ × Bool))
    (nodes : List Node) (n : Node) (hn : n ∈ nodes) (hp : ∀ s, ∃ x, pre s n = .error x) :
    ∀ s, ∃ x, walk pre nodes s = .error x := by
  induction nodes with
  | nil => exact absurd hn (List.not_mem_nil _)
  | cons m ms ih =>
    intro s
    simp only [walk]
    cases hm : pre s m with
    | error x => exact ⟨x, rfl⟩
    | ok r =>
      obtain ⟨s1, d⟩ := r
      rcases List.mem_cons.mp hn with rfl | hmem
      · obtain ⟨x, hx⟩ := hp s
        rw [hx] at hm
        exact absurd hm (by simp)
      · exact ih hmem s1

theorem lookup_length_ne_zero {β : Type} (refs : List (Nat × β)) (k : Nat) (v : β)
    (h : refs.lookup k = some v) : refs.length ≠ 0 := by
  cases refs with
  | nil => simp [List.lookup] at h
  | cons _ _ => simp

/-- The iteration of a file panics when the walk reaches a node whose
directive is of an unrecognized kind. -/
theorem rewriteFile_unrecognized (env : Env) (b : builder) (pkg : Package)
    (targetDir : String) (f : File) (n : Node) (d : Directive) (t : Nat)
    (hn : n ∈ f.reached) (hd : f.References.lookup n.ptr = some d)
    (ht : d.Typ = .unrecognized t) (acc : Wrappers) (eff : Effects) :
    ∃ p, rewriteFile env b pkg targetDir f acc eff = (eff, .error (.panic p)) := by
  have h0 := lookup_length_ne_zero _ _ _ hd
  obtain ⟨p, hp⟩ := walk_error_of_mem (pre env b pkg f) f.reached n hn
    (fun s => ⟨_, pre_unrecognized env b pkg f s n d t hd ht⟩) (initialState f acc)
  refine ⟨p, ?_⟩
  unfold rewriteFile
  simp only [h0, if_false]
  rw [Apply_file, hp]

/-- Claim C2, evaluated where it fails: the targets `Out_Send` of the service
`pay` and `Send` of the service `pay_Out` differ in both names, yet they
receive the same wrapper name; a package that calls both ends with a
wrapper set of one entry, the first target, and both call sites are
rewritten to the same identifier. -/
theorem C2_wrapper_name_collision :
    (payOutSend.Svc.Name, payOutSend.Name) ≠ (payOutSend2.Svc.Name, payOutSend2.Name) ∧
    wrapperName payOutSend = "__encore_pay_Out_Send" ∧
    wrapperName payOutSend2 = "__encore_pay_Out_Send" ∧
    collidingPkg.targets = [payOutSend, payOutSend2] ∧
    rewritePkg demoEnv demoBuilder collidingPkg "out" =
      (⟨[("out/c.go",
          "__encore_pay_Out_Send(120, 801,/*line :1:14*/) __encore_pay_Out_Send(130, 1001,/*line :1:29*/)")],
        [("app/orders/c.go", "out/c.go"),
          ("app/orders/encore_rpc_wrappers.go", "out/encore_rpc_wrappers.go")],
        [("out/encore_rpc_wrappers.go", [payOutSend])]⟩, .returned none) :=
  ⟨by decide, by rfl, by rfl, by rfl, by rfl⟩

/-- Claim C3 as stated fails: in `logFile` the argument `x` carries a
directive of an unrecognized kind, but it lies below a call with a
LogAnnotation directive, whose subtree is not walked, and `rewritePkg`
returns normally. -/
theorem C3_unrecognized_below_log_annotation :
    (∃ f ∈ logPkg.Files, ∃ n ∈ allNodes f.AST.node, ∃ d t,
      f.References.lookup n.ptr = some d ∧ d.Typ = .unrecognized t) ∧
    rewritePkg demoEnv demoBuilder logPkg "out" =
      (⟨[("out/l.go", "rlog.Info(x)")], [("app/orders/l.go", "out/l.go")], []⟩,
        .returned none) := by
  refine ⟨⟨logFile, by simp [logPkg], leaf 24 11 12, ?_, ⟨.unrecognized 7, none⟩, 7, by rfl, rfl⟩,
    by rfl⟩
  simp [allNodes, logFile, AstFile.node, visited, visitedList, leaf]

theorem rewriteFiles_unrecognized (env : Env) (b : builder) (pkg : Package)
    (targetDir : String) (before after : List File) (f : File) (n : Node) (d : Directive)
    (t : Nat) (hn : n ∈ f.reached) (hd : f.References.lookup n.ptr = some d)
    (ht : d.Typ = .unrecognized t) (acc : Wrappers) (eff : Effects) :
    ∃ eff1 a, rewriteFiles env b pkg targetDir (before ++ f :: after) acc eff =
        (eff1, .error a) ∧
      ((∃ p, a = .panic p) ∨
       (∃ g ∈ before, ∃ data e,
          env.WriteFile (destination env targetDir g) data = some e ∧ a = .err e)) := by
  induction before generalizing acc eff with
  | nil =>
    obtain ⟨p, hp⟩ := rewriteFile_unrecognized env b pkg targetDir f n d t hn hd ht acc eff
    exact ⟨eff, .panic p, by simp [rewriteFiles, hp], Or.inl ⟨p, rfl⟩⟩
  | cons g gs ih =>
    simp only [List.cons_append, rewriteFiles]
    cases hg : rewriteFile env b pkg targetDir g acc eff with
    | mk eff2 r =>
      cases r with
      | ok acc2 =>
        obtain ⟨eff1, a, h1, h2⟩ := ih acc2 eff2
        refine ⟨eff1, a, h1, ?_⟩
        rcases h2 with h2 | ⟨g', hg', data, e, hw, ha⟩
        · exact Or.inl h2
        · exact Or.inr ⟨g', List.mem_cons_of_mem _ hg', data, e, hw, ha⟩
      | error a =>
        refine ⟨eff2, a, rfl, ?_⟩
        rcases (rewriteFile_error env b pkg targetDir g acc eff eff2 a hg).2.2 with
          ⟨p, _, ha⟩ | ⟨_, _, _, ha⟩ | ⟨_, data, e, _, _, hw, ha⟩
        · exact Or.inl ⟨p, ha⟩
        · exact Or.inl ⟨_, ha⟩
        · exact Or.inr ⟨g, List.mem_cons_self _ _, data, e, hw, ha⟩

/-- Claim C3, amended. If the directive map of a file of the package holds an
entry of an unrecognized kind for a node the walk reaches (a node of the
tree none of whose ancestors carries a LogAnnotation directive), `rewritePkg`
does not return normally: it panics, unless the write of an earlier file of
the package has failed, in which case it returns the error of that write. -/
theorem C3_unrecognized_reached_aborts (env : Env) (b : builder) (pkg : Package)
    (targetDir : String) (before after : List File) (f : File) (n : Node) (d : Directive)
    (t : Nat) (hfiles : pkg.Files = before ++ f :: after)
    (hn : n ∈ f.reached) (hd : f.References.lookup n.ptr = some d)
    (ht : d.Typ = .unrecognized t) :
    (∃ p, (rewritePkg env b pkg targetDir).2 = .panicked p) ∨
    (∃ g ∈ before, ∃ data e,
      env.WriteFile (destination env targetDir g) data = some e ∧
      (rewritePkg env b pkg targetDir).2 = .returned (some e)) := by
  obtain ⟨eff1, a, h1, h2⟩ := rewriteFiles_unrecognized env b pkg targetDir before after f n d
    t hn hd ht ⟨[], []⟩ ⟨[], [], []⟩
  unfold rewritePkg
  rw [hfiles, h1]
  rcases h2 with ⟨p, rfl⟩ | ⟨g, hg, data, e, hw, rfl⟩
  · exact Or.inl ⟨p, rfl⟩
  · exact Or.inr ⟨g, hg, data, e, hw, rfl⟩

/-- The amended claim C3 on `abortingPkg`: the unrecognized directive of the
second file is reached, every write succeeds, and `rewritePkg` panics. -/
theorem C3_unrecognized_reached_witness :
    (∃ p, (rewritePkg demoEnv demoBuilder abortingPkg "out").2 = .panicked p) ∨
    (∃ g ∈ [definitionFile], ∃ data e,
      demoEnv.WriteFile (destination demoEnv "out" g) data = some e ∧
      (rewritePkg demoEnv demoBuilder abortingPkg "out").2 = .returned (some e)) :=
  C3_unrecognized_reached_aborts demoEnv demoBuilder abortingPkg "out" [definitionFile] []
    unrecognizedFile (leaf 52 101 102) ⟨.unrecognized 7, none⟩ 7 (by rfl)
    (by simp [File.reached, unrecognizedFile, AstFile.node, visited, visitedList, leaf,
      descends, Node.ptr, List.lookup])
    (by rfl) (by rfl)

/-- Claim C4 as stated fails: in `abortingPkg` the unrecognized directive is
in the second file; when `rewritePkg` panics on it, the first file has been
written and its overlay recorded. -/
theorem C4_abort_after_first_file_written :
    rewritePkg demoEnv demoBuilder abortingPkg "out" =
      (⟨[("out/a.go", "func Place() \x7b\x7d")], [("app/orders/a.go", "out/a.go")], []⟩,
        .panicked (.unhandledRewriteType (.unrecognized 7))) ∧
    (rewritePkg demoEnv demoBuilder abortingPkg "out").1.written ≠ [] ∧
    (rewritePkg demoEnv demoBuilder abortingPkg "out").1.overlays ≠ [] :=
  ⟨by rfl, by decide, by decide⟩

/-- Claim C4, amended. When `rewritePkg` aborts on an unrecognized directive
kind, met in the walk of a file `f`, no wrapper file has been generated and
the files written and the overlays recorded are exactly those of the files
before `f` whose directive map is not empty, in order: nothing has been
written or recorded for `f`, for a later file or for the wrapper file (and
nothing at all when no rewritten file precedes `f`). -/
theorem C4_abort_effects (env : Env) (b : builder) (pkg : Package) (targetDir : String)
    (t : NodeType)
    (h : (rewritePkg env b pkg targetDir).2 = .panicked (.unhandledRewriteType t)) :
    ∃ before f after acc, pkg.Files = before ++ f :: after ∧
      walk (pre env b pkg f) f.reached (initialState f acc) =
        .error (.unhandledRewriteType t) ∧
      (rewritePkg env b pkg targetDir).1.generated = [] ∧
      (rewritePkg env b pkg targetDir).1.overlays =
        (rewrittenFiles before).map (fun g => (g.Path, destination env targetDir g)) ∧
      (rewritePkg env b pkg targetDir).1.written.map Prod.fst =
        (rewrittenFiles before).map (destination env targetDir) := by
  unfold rewritePkg at h ⊢
  cases hr : rewriteFiles env b pkg targetDir pkg.Files ⟨[], []⟩ ⟨[], [], []⟩ with
  | mk eff r =>
    rw [hr] at h
    cases r with
    | ok acc1 =>
      dsimp only at h
      split at h
      · split at h <;> exact absurd h (by simp)
      · exact absurd h (by simp)
    | error a =>
      cases a with
      | err e => exact absurd h (by simp)
      | panic p =>
        dsimp only at h ⊢
        injection h with hp
        subst hp
        obtain ⟨before, f, after, acc0, hsplit, hb, hf⟩ :=
          rewriteFiles_error env b pkg targetDir pkg.Files _ _ eff _ hr
        obtain ⟨i1, i2, i3⟩ := rewriteFiles_ok_effects env b pkg targetDir before _ _ _ _ hb
        refine ⟨before, f, after, acc0, hsplit, ?_, by simpa using i3, by simpa using i1,
          by simpa using i2⟩
        rcases (rewriteFile_error env b pkg targetDir f acc0 eff eff _ hf).2.2 with
          ⟨p, hw, ha⟩ | ⟨_, _, _, ha⟩ | ⟨_, _, _, _, _, _, ha⟩
        · injection ha with ha
          rw [ha]
          exact hw
        · exact absurd ha (by simp)
        · exact absurd ha (by simp)

/-- The amended claim C4 on `abortingPkg`, which aborts in its second file. -/
theorem C4_abort_effects_witness :
    (rewritePkg demoEnv demoBuilder abortingPkg "out").2 =
        .panicked (.unhandledRewriteType (.unrecognized 7)) ∧
    ∃ before f after acc, abortingPkg.Files = before ++ f :: after ∧
      walk (pre demoEnv demoBuilder abortingPkg f) f.reached (initialState f acc) =
        .error (.unhandledRewriteType (.unrecognized 7)) ∧
      (rewritePkg demoEnv demoBuilder abortingPkg "out").1.generated = [] ∧
      (rewritePkg demoEnv demoBuilder abortingPkg "out").1.overlays =
        (rewrittenFiles before).map (fun g => (g.Path, destination demoEnv "out" g)) ∧
      (rewritePkg demoEnv demoBuilder abortingPkg "out").1.written.map Prod.fst =
        (rewrittenFiles before).map (destination demoEnv "out") :=
  ⟨by rfl, C4_abort_effects demoEnv demoBuilder abortingPkg "out" (.unrecognized 7) (by rfl)⟩

/-- Claim C5, evaluated where it fails: `twoSecretsFile` holds two
SecretDeclarations, and the walk records the insertion of the runtime import
twice, both at the start of the first declaration; the file written carries
the import twice. -/
theorem C5_runtime_import_inserted_twice :
    (Apply (pre demoEnv demoBuilder twoSecretsPkg twoSecretsFile) twoSecretsFile.AST.node
        (initialState twoSecretsFile ⟨[], []⟩)).map (fun st => st.rw.edits) =
      .ok [.Insert 7 "= ",
        .Insert 15 "\x7b\n\tApiKey: __encore_runtime.LoadSecret(\"ApiKey\"),\n\x7d/*line :1:15*/",
        .Insert 1 "import __encore_runtime \"encore.dev/runtime\"\n/*line :1:1*/",
        .Insert 22 "= ",
        .Insert 30 "\x7b\n\tApiKey: __encore_runtime.LoadSecret(\"ApiKey\"),\n\x7d/*line :1:30*/",
        .Insert 1 "import __encore_runtime \"encore.dev/runtime\"\n/*line :1:1*/"] ∧
    (rewritePkg demoEnv demoBuilder twoSecretsPkg "out").1.written =
      [("out/s.go",
        "import __encore_runtime \"encore.dev/runtime\"\n/*line :1:1*/import __encore_runtime \"encore.dev/runtime\"\n/*line :1:1*/var a = struct\x7b\x7d\x7b\n\tApiKey: __encore_runtime.LoadSecret(\"ApiKey\"),\n\x7d/*line :1:15*/ var b = struct\x7b\x7d\x7b\n\tApiKey: __encore_runtime.LoadSecret(\"ApiKey\"),\n\x7d/*line :1:30*/")] :=
  ⟨by rfl, by rfl⟩

/-- What the closure does on a call expression with a RemoteCall directive
whose call site and target are in the registry (lines 51-75). -/
theorem pre_RPCCall (env : Env) (b : builder) (pkg : Package) (file : File) (st : WalkState)
    (callPtr pos end_ : Nat) (Fun : Node) (Lparen : Nat) (Args : List Node) (d : Directive)
    (rpc : RPC) (callTx rpcTx : Int)
    (hd : file.References.lookup callPtr = some d) (ht : d.Typ = .RPCCallNode)
    (hr : d.RPC = some rpc)
    (hc : b.res.Nodes pkg.self.ptr callPtr = some callTx)
    (hf : b.res.Nodes rpc.Svc.Root.ptr rpc.Func = some rpcTx) :
    pre env b pkg file st (.CallExpr callPtr pos end_ Fun Lparen Args) =
      .ok ({ rw := (st.rw.Replace Fun.Pos Fun.End (wrapperName rpc)).Insert (Lparen + 1)
                (toString callTx ++ ", " ++ toString rpcTx ++ "," ++
                  lineMarker (b.res.FileSet.Position Lparen).Line
                    ((b.res.FileSet.Position Lparen).Column + 1))
             useExceptions :=
                match Fun with
                | .SelectorExpr sel _ _ _ _ => setTrue st.useExceptions sel
                | _ => st.useExceptions
             rewrittenPkgs := setTrue st.rewrittenPkgs rpc.Svc.Root
             seenWrappers :=
                if wrapperName rpc ∈ st.seenWrappers then st.seenWrappers
                else setTrue st.seenWrappers (wrapperName rpc)
             wrappers :=
                if wrapperName rpc ∈ st.seenWrappers then st.wrappers
                else st.wrappers ++ [rpc] }, true) := by
  unfold pre
  simp only [Node.ptr, hd, ht, hr, hc, hf]
  by_cases hm : wrapperName rpc ∈ st.seenWrappers <;> simp [hm]

theorem mem_setTrue {α : Type} [DecidableEq α] (m : List α) (k x : α) :
    x ∈ setTrue m k ↔ x ∈ m ∨ x = k := by
  unfold setTrue
  by_cases h : k ∈ m
  · simp only [h, if_true]
    constructor
    · exact Or.inl
    · rintro (h1 | rfl)
      · exact h1
      · exact h
  · simp [h]

theorem nodup_setTrue {α : Type} [DecidableEq α] (m : List α) (k : α) (h : m.Nodup) :
    (setTrue m k).Nodup := by
  unfold setTrue
  by_cases hk : k ∈ m
  · simpa [hk] using h
  · simp only [hk, if_false]
    rw [List.nodup_append]
    refine ⟨h, List.nodup_singleton k, ?_⟩
    intro a ha hb
    rw [List.mem_singleton] at hb
    exact hk (hb ▸ ha)

/-- A walk that completes over a list of nodes has completed on the nodes
before any one of them, has called the closure on it without a panic, and has
completed on the nodes after it. -/
theorem walk_split (env : Env) (b : builder) (pkg : Package) (file : File)
    (before after : List Node) (n : Node) (s st : WalkState)
    (h : walk (pre env b pkg file) (before ++ n :: after) s = .ok st) :
    ∃ st0 st1 d, walk (pre env b pkg file) before s = .ok st0 ∧
      pre env b pkg file st0 n = .ok (st1, d) ∧
      walk (pre env b pkg file) after st1 = .ok st := by
  rw [walk_append] at h
  cases hb : walk (pre env b pkg file) before s with
  | error x =>
    rw [hb] at h
    exact Except.noConfusion h
  | ok st0 =>
    rw [hb] at h
    simp only [walk] at h
    cases hp : pre env b pkg file st0 n with
    | error x =>
      rw [hp] at h
      exact Except.noConfusion h
    | ok r =>
      obtain ⟨st1, d⟩ := r
      rw [hp] at h
      exact ⟨st0, st1, d, rfl, hp, h⟩

/-- One call of the closure only appends to the edits and only adds to the
candidates and to the use-exceptions. -/
theorem pre_grows (env : Env) (b : builder) (pkg : Package) (file : File)
    (s : WalkState) (n : Node) (s1 : WalkState) (d : Bool)
    (h : pre env b pkg file s n = .ok (s1, d)) :
    s.rw.edits <+: s1.rw.edits ∧
    (∀ q ∈ s.rewrittenPkgs, q ∈ s1.rewrittenPkgs) ∧
    (∀ k ∈ s.useExceptions, k ∈ s1.useExceptions) := by
  unfold pre at h
  split at h
  · injection h with h
    injection h with h _
    subst h
    exact ⟨List.prefix_refl _, fun _ hq => hq, fun _ hk => hk⟩
  · split at h
    all_goals (repeat' split at h)
    all_goals first
      | (exact Except.noConfusion h)
      | (injection h with h; injection h with h _; subst h
         exact ⟨by simp [Rewriter.Insert, Rewriter.Replace], fun _ hq => hq, fun _ hk => hk⟩)
      | (dsimp only at h; injection h with h; injection h with h _; subst h
         refine ⟨by simp [Rewriter.Insert, Rewriter.Replace],
           fun q hq => (mem_setTrue _ _ _).mpr (Or.inl hq), ?_⟩
         intro k hk
         first
           | exact (mem_setTrue _ _ _).mpr (Or.inl hk)
           | exact hk)

/-- A walk only appends to the edits and only adds to the candidates and to
the use-exceptions. -/
theorem walk_grows (env : Env) (b : builder) (pkg : Package) (file : File)
    (nodes : List Node) (s s1 : WalkState)
    (h : walk (pre env b pkg file) nodes s = .ok s1) :
    s.rw.edits <+: s1.rw.edits ∧
    (∀ q ∈ s.rewrittenPkgs, q ∈ s1.rewrittenPkgs) ∧
    (∀ k ∈ s.useExceptions, k ∈ s1.useExceptions) := by
  induction nodes generalizing s with
  | nil =>
    simp only [walk] at h
    injection h with h
    subst h
    exact ⟨List.prefix_refl _, fun _ hq => hq, fun _ hk => hk⟩
  | cons n ns ih =>
    simp only [walk] at h
    cases hp : pre env b pkg file s n with
    | error x =>
      rw [hp] at h
      exact Except.noConfusion h
    | ok r =>
      obtain ⟨s2, d⟩ := r
      rw [hp] at h
      obtain ⟨e1, q1, k1⟩ := pre_grows env b pkg file s n s2 d hp
      obtain ⟨e2, q2, k2⟩ := ih s2 h
      exact ⟨e1.trans e2, fun q hq => q2 q (q1 q hq), fun k hk => k2 k (k1 k hk)⟩

/-- The loop over the candidates only appends to the edits. -/
theorem removeUnusedImports_appends (env : Env) (file : File) (st : WalkState) :
    st.rw.edits <+: (removeUnusedImports env file st).edits := by
  unfold removeUnusedImports
  generalize (env.rangeOrder st.rewrittenPkgs).val = l
  generalize st.rw = rw
  induction l generalizing rw with
  | nil => exact List.prefix_refl _
  | cons p ps ih =>
    simp only [List.foldl_cons]
    refine List.IsPrefix.trans ?_ (ih _)
    unfold removeImport
    split
    · split
      · split <;> simp [Rewriter.Delete]
      · exact List.prefix_refl _
    · exact List.prefix_refl _

/-- What the closure does on a call expression with a DatabaseHandle
directive, in a package with a service (lines 40-45). -/
theorem pre_SQLDB (env : Env) (b : builder) (pkg : Package) (file : File)
    (st : WalkState) (callPtr pos end_ : Nat) (Fun : Node) (Lparen : Nat) (Args : List Node)
    (d : Directive) (svc : Service)
    (hd : file.References.lookup callPtr = some d) (ht : d.Typ = .SQLDBNode)
    (hs : pkg.Service = some svc) :
    pre env b pkg file st (.CallExpr callPtr pos end_ Fun Lparen Args) =
      .ok ({ st with
        rw := { st.rw with
          edits := st.rw.edits ++
            [.Insert (Lparen + 1)
              (env.Quote svc.Name ++ "," ++
                ("/*line :" ++ toString (b.res.FileSet.Position Lparen).Line ++ ":" ++
                  toString ((b.res.FileSet.Position Lparen).Column + 1) ++ "*/"))] } },
        true) := by
  unfold pre
  simp only [Node.ptr, hd, ht, hs]
  rfl

/-- Claim C6 as stated fails: `dotImportFile` calls `users.Get` through the
unqualified identifier `Get`; the walk records no use-exception but does
record the package `users` as a candidate, and, whatever the outside world,
the loop over the candidates is one iteration for `users`, in which the
liveness check is consulted with no use-exception and decides, with
`findImport`, whether the clause of `app/users` is deleted. -/
theorem C6_unqualified_call_flags_candidate :
    (∀ env : Env,
      Apply (pre env (twoLineBuilder 21) dotImportPkg dotImportFile) dotImportFile.AST.node
          (initialState dotImportFile ⟨[], []⟩) =
        .ok ⟨⟨"import . \"app/users\"\nGet(x)", 1,
            [.Replace 22 25 "__encore_users_Get", .Insert 26 "120, 401,/*line :2:5*/"]⟩,
          [], [usersPkg], ["__encore_users_Get"], [usersGet]⟩) ∧
    (∀ (env : Env) (rw : Rewriter),
      removeUnusedImports env dotImportFile ⟨rw, [], [usersPkg], ["__encore_users_Get"],
          [usersGet]⟩ =
        if !env.usesImport dotImportFile.AST "users" "app/users" [] then
          match env.findImport dotImportFile.AST "app/users" with
          | some found =>
            if found.numSpecs > 1 then rw.Delete found.specPos found.specEnd
            else rw.Delete found.declPos found.declEnd
          | none => rw
        else rw) := by
  refine ⟨fun env => by rfl, fun env rw => ?_⟩
  have hl : (env.rangeOrder [usersPkg]).val = [usersPkg] :=
    List.perm_singleton.mp (env.rangeOrder [usersPkg]).property
  unfold removeUnusedImports
  simp only [hl, List.foldl_cons, List.foldl_nil]
  rfl

/-- Claim C6, amended. For every RemoteCall directive on a call that the walk
of a file reaches, with call site and target in the registry, in a walk that
completes: the call of the closure on it adds the home package of the target
to the candidates, whatever the form of the target expression, and adds no
other; the package is a candidate when the walk ends and the loop over the
candidates has an iteration for it, in which the liveness check is consulted.
The use-exceptions grow by the target expression itself when it is a selector
expression, which is then a use-exception when the walk ends, and not at all
when it is not (an unqualified identifier). -/
theorem C6_reached_call_flags_candidate (env : Env) (b : builder) (pkg : Package)
    (file : File) (acc : Wrappers) (st : WalkState) (before after : List Node)
    (callPtr pos end_ : Nat) (Fun : Node) (Lparen : Nat) (Args : List Node)
    (d : Directive) (rpc : RPC) (callTx rpcTx : Int)
    (hreach : file.reached = before ++ .CallExpr callPtr pos end_ Fun Lparen Args :: after)
    (hd : file.References.lookup callPtr = some d) (ht : d.Typ = .RPCCallNode)
    (hr : d.RPC = some rpc)
    (hc : b.res.Nodes pkg.self.ptr callPtr = some callTx)
    (hf : b.res.Nodes rpc.Svc.Root.ptr rpc.Func = some rpcTx)
    (hwalk : Apply (pre env b pkg file) file.AST.node (initialState file acc) = .ok st) :
    ∃ st0 st1,
      walk (pre env b pkg file) before (initialState file acc) = .ok st0 ∧
      pre env b pkg file st0 (.CallExpr callPtr pos end_ Fun Lparen Args) = .ok (st1, true) ∧
      walk (pre env b pkg file) after st1 = .ok st ∧
      (∀ q, q ∈ st1.rewrittenPkgs ↔ q ∈ st0.rewrittenPkgs ∨ q = rpc.Svc.Root) ∧
      rpc.Svc.Root ∈ st.rewrittenPkgs ∧
      (∃ l1 l2, (env.rangeOrder st.rewrittenPkgs).val = l1 ++ rpc.Svc.Root :: l2 ∧
        removeUnusedImports env file st =
          l2.foldl (removeImport env file st.useExceptions)
            (removeImport env file st.useExceptions
              (l1.foldl (removeImport env file st.useExceptions) st.rw) rpc.Svc.Root)) ∧
      (∀ sel a e x s, Fun = .SelectorExpr sel a e x s →
        (∀ k, k ∈ st1.useExceptions ↔ k ∈ st0.useExceptions ∨ k = sel) ∧
        sel ∈ st.useExceptions) ∧
      ((∀ sel a e x s, Fun ≠ .SelectorExpr sel a e x s) →
        st1.useExceptions = st0.useExceptions) := by
  rw [Apply_file, hreach] at hwalk
  obtain ⟨st0, st1, r, h0, hp, h1⟩ := walk_split env b pkg file before after _ _ _ hwalk
  have hpre := pre_RPCCall env b pkg file st0 callPtr pos end_ Fun Lparen Args d rpc callTx
    rpcTx hd ht hr hc hf
  rw [hpre] at hp
  injection hp with hp
  injection hp with hst hr1
  subst hst
  obtain ⟨_, hq, hk⟩ := walk_grows env b pkg file after _ st h1
  have hroot : rpc.Svc.Root ∈ st.rewrittenPkgs := hq _ ((mem_setTrue _ _ _).mpr (Or.inr rfl))
  refine ⟨st0, _, h0, hpre, h1, fun q => mem_setTrue _ _ _, hroot, ?_, ?_, ?_⟩
  · have hmem : rpc.Svc.Root ∈ (env.rangeOrder st.rewrittenPkgs).val :=
      (env.rangeOrder st.rewrittenPkgs).property.mem_iff.mpr hroot
    obtain ⟨l1, l2, hl⟩ := List.append_of_mem hmem
    refine ⟨l1, l2, hl, ?_⟩
    unfold removeUnusedImports
    rw [hl, List.foldl_append, List.foldl_cons]
  · intro sel a e x s hFun
    subst hFun
    exact ⟨fun k => mem_setTrue _ _ _, hk _ ((mem_setTrue _ _ _).mpr (Or.inr rfl))⟩
  · intro hFun
    cases Fun with
    | SelectorExpr sel a e x s => exact absurd rfl (hFun sel a e x s)
    | CallExpr _ _ _ _ _ _ => rfl
    | ValueSpec _ _ _ _ _ _ => rfl
    | Other _ _ _ _ => rfl

/-- The amended claim C6 on the call `Get(x)` of `dotImportFile`, the last but
two of the nodes the walk reaches. -/
theorem C6_candidate_witness :
    dotImportFile.reached =
      [dotImportFile.AST.node, leaf 11 1 1, .Other 12 1 21 [leaf 13 8 21], leaf 13 8 21,
        .Other 14 22 28 [dotCall]] ++
      .CallExpr 20 22 28 (leaf 21 22 25) 25 [leaf 22 26 27] :: [leaf 21 22 25, leaf 22 26 27] ∧
    ∃ st0 st1,
      walk (pre demoEnv (twoLineBuilder 21) dotImportPkg dotImportFile)
        [dotImportFile.AST.node, leaf 11 1 1, .Other 12 1 21 [leaf 13 8 21], leaf 13 8 21,
          .Other 14 22 28 [dotCall]] (initialState dotImportFile ⟨[], []⟩) = .ok st0 ∧
      pre demoEnv (twoLineBuilder 21) dotImportPkg dotImportFile st0
        (.CallExpr 20 22 28 (leaf 21 22 25) 25 [leaf 22 26 27]) = .ok (st1, true) ∧
      walk (pre demoEnv (twoLineBuilder 21) dotImportPkg dotImportFile)
        [leaf 21 22 25, leaf 22 26 27] st1 =
        .ok ⟨⟨"import . \"app/users\"\nGet(x)", 1,
            [.Replace 22 25 "__encore_users_Get", .Insert 26 "120, 401,/*line :2:5*/"]⟩,
          [], [usersPkg], ["__encore_users_Get"], [usersGet]⟩ ∧
      (∀ q, q ∈ st1.rewrittenPkgs ↔ q ∈ st0.rewrittenPkgs ∨ q = usersGet.Svc.Root) ∧
      usersGet.Svc.Root ∈ [usersPkg] ∧
      (∃ l1 l2, (demoEnv.rangeOrder [usersPkg]).val = l1 ++ usersGet.Svc.Root :: l2 ∧
        removeUnusedImports demoEnv dotImportFile
            ⟨⟨"import . \"app/users\"\nGet(x)", 1,
              [.Replace 22 25 "__encore_users_Get", .Insert 26 "120, 401,/*line :2:5*/"]⟩,
            [], [usersPkg], ["__encore_users_Get"], [usersGet]⟩ =
          l2.foldl (removeImport demoEnv dotImportFile [])
            (removeImport demoEnv dotImportFile []
              (l1.foldl (removeImport demoEnv dotImportFile [])
                ⟨"import . \"app/users\"\nGet(x)", 1,
                  [.Replace 22 25 "__encore_users_Get",
                    .Insert 26 "120, 401,/*line :2:5*/"]⟩) usersGet.Svc.Root)) ∧
      (∀ sel a e x s, leaf 21 22 25 = .SelectorExpr sel a e x s →
        (∀ k, k ∈ st1.useExceptions ↔ k ∈ st0.useExceptions ∨ k = sel) ∧
        sel ∈ ([] : List Nat)) ∧
      ((∀ sel a e x s, leaf 21 22 25 ≠ .SelectorExpr sel a e x s) →
        st1.useExceptions = st0.useExceptions) :=
  ⟨by rfl,
    C6_reached_call_flags_candidate demoEnv (twoLineBuilder 21) dotImportPkg dotImportFile
      ⟨[], []⟩
      ⟨⟨"import . \"app/users\"\nGet(x)", 1,
          [.Replace 22 25 "__encore_users_Get", .Insert 26 "120, 401,/*line :2:5*/"]⟩,
        [], [usersPkg], ["__encore_users_Get"], [usersGet]⟩
      [dotImportFile.AST.node, leaf 11 1 1, .Other 12 1 21 [leaf 13 8 21], leaf 13 8 21,
        .Other 14 22 28 [dotCall]]
      [leaf 21 22 25, leaf 22 26 27]
      20 22 28 (leaf 21 22 25) 25 [leaf 22 26 27] ⟨.RPCCallNode, some usersGet⟩ usersGet
      120 401 (by rfl) (by rfl) (by rfl) (by rfl) (by rfl) (by rfl) (by rfl)⟩

/-- Claim C7 as stated fails for a directive the walk does not reach: in
`loggedQueryFile` the call `h.Query(a)` carries a DatabaseHandle directive, in
a package with a service, but it is an argument of a call with a
LogAnnotation directive; the walk records no edit and the file is written
unchanged. -/
theorem C7_database_handle_below_log_annotation :
    loggedQueryFile.References.lookup innerQuery.ptr = some ⟨.SQLDBNode, none⟩ ∧
    innerQuery ∈ allNodes loggedQueryFile.AST.node ∧
    innerQuery ∉ loggedQueryFile.reached ∧
    Apply (pre demoEnv demoBuilder loggedQueryPkg loggedQueryFile) loggedQueryFile.AST.node
        (initialState loggedQueryFile ⟨[], []⟩) =
      .ok ⟨⟨"rlog.Info(h.Query(a))", 1, []⟩, [], [], [], []⟩ ∧
    rewritePkg demoEnv demoBuilder loggedQueryPkg "out" =
      (⟨[("out/l.go", "rlog.Info(h.Query(a))")], [("app/payments/l.go", "out/l.go")], []⟩,
        .returned none) :=
  ⟨by rfl,
    by simp [allNodes, loggedQueryFile, AstFile.node, visited, visitedList, leaf, innerQuery],
    by simp [File.reached, loggedQueryFile, AstFile.node, visited, visitedList, leaf,
      innerQuery, descends, Node.ptr, List.lookup],
    by rfl, by rfl⟩

/-- Claim C7, amended. For a DatabaseHandle directive on a call expression
that the walk of a file reaches, in a package whose service is named `S` and
in a walk that completes, the call of the closure on the call expression
records exactly one edit, an Insert at `Lparen + 1` of the quoted `S`, a comma
and the marker of the line and of the column plus one of the opening
parenthesis, with no blank after it; it records no Replace and no Delete,
changes no other captured variable and returns true, so that the walk
descends into the children of the call. The edit is in the edits of the walk
when it ends and in those of the buffer after the loop over the candidates,
from which the file is written. -/
theorem C7_database_handle_reached (env : Env) (b : builder) (pkg : Package) (file : File)
    (acc : Wrappers) (st : WalkState) (before after : List Node)
    (callPtr pos end_ : Nat) (Fun : Node) (Lparen : Nat) (Args : List Node)
    (d : Directive) (svc : Service)
    (hreach : file.reached = before ++ .CallExpr callPtr pos end_ Fun Lparen Args :: after)
    (hd : file.References.lookup callPtr = some d) (ht : d.Typ = .SQLDBNode)
    (hs : pkg.Service = some svc)
    (hwalk : Apply (pre env b pkg file) file.AST.node (initialState file acc) = .ok st) :
    ∃ st0 added,
      walk (pre env b pkg file) before (initialState file acc) = .ok st0 ∧
      added =
        [.Insert (Lparen + 1)
          (env.Quote svc.Name ++ "," ++
            ("/*line :" ++ toString (b.res.FileSet.Position Lparen).Line ++ ":" ++
              toString ((b.res.FileSet.Position Lparen).Column + 1) ++ "*/"))] ∧
      pre env b pkg file st0 (.CallExpr callPtr pos end_ Fun Lparen Args) =
        .ok ({ st0 with rw := { st0.rw with edits := st0.rw.edits ++ added } }, true) ∧
      walk (pre env b pkg file) after
          { st0 with rw := { st0.rw with edits := st0.rw.edits ++ added } } = .ok st ∧
      (st0.rw.edits ++ added) <+: st.rw.edits ∧
      (st0.rw.edits ++ added) <+: (removeUnusedImports env file st).edits ∧
      descends file.References (.CallExpr callPtr pos end_ Fun Lparen Args) = true := by
  rw [Apply_file, hreach] at hwalk
  obtain ⟨st0, st1, r, h0, hp, h1⟩ := walk_split env b pkg file before after _ _ _ hwalk
  have hpre := pre_SQLDB env b pkg file st0 callPtr pos end_ Fun Lparen Args d svc hd ht hs
  rw [hpre] at hp
  injection hp with hp
  injection hp with hst hr1
  subst hst
  obtain ⟨he, _, _⟩ := walk_grows env b pkg file after _ st h1
  refine ⟨st0, _, h0, rfl, hpre, h1, he, he.trans (removeUnusedImports_appends env file st), ?_⟩
  unfold descends
  simp [Node.ptr, hd, ht]

/-- The amended claim C7 on `h.Query(a, b)` under the service `payments`: the
one edit recorded, and the file written,
`h.Query("payments",/*line :1:9*/a, b)`. -/
theorem C7_database_handle_witness :
    (queryFile.reached =
      [queryFile.AST.node, leaf 11 1 1, .Other 12 1 14 [queryCall]] ++
        .CallExpr 20 1 14 (.SelectorExpr 21 1 8 (leaf 22 1 2) (leaf 23 3 8)) 8
          [leaf 24 9 10, leaf 25 12 13] ::
        [.SelectorExpr 21 1 8 (leaf 22 1 2) (leaf 23 3 8), leaf 22 1 2, leaf 23 3 8,
          leaf 24 9 10, leaf 25 12 13] ∧
     Apply (pre demoEnv demoBuilder paymentsPkg queryFile) queryFile.AST.node
        (initialState queryFile ⟨[], []⟩) =
      .ok ⟨⟨"h.Query(a, b)", 1, [.Insert 9 "\"payments\",/*line :1:9*/"]⟩, [], [], [], []⟩ ∧
     (rewritePkg demoEnv demoBuilder paymentsPkg "out").1.written =
      [("out/q.go", "h.Query(\"payments\",/*line :1:9*/a, b)")]) ∧
    ∃ st0 added,
      walk (pre demoEnv demoBuilder paymentsPkg queryFile)
        [queryFile.AST.node, leaf 11 1 1, .Other 12 1 14 [queryCall]]
        (initialState queryFile ⟨[], []⟩) = .ok st0 ∧
      added =
        [.Insert (8 + 1)
          (demoEnv.Quote "payments" ++ "," ++
            ("/*line :" ++ toString (demoBuilder.res.FileSet.Position 8).Line ++ ":" ++
              toString ((demoBuilder.res.FileSet.Position 8).Column + 1) ++ "*/"))] ∧
      pre demoEnv demoBuilder paymentsPkg queryFile st0
          (.CallExpr 20 1 14 (.SelectorExpr 21 1 8 (leaf 22 1 2) (leaf 23 3 8)) 8
            [leaf 24 9 10, leaf 25 12 13]) =
        .ok ({ st0 with rw := { st0.rw with edits := st0.rw.edits ++ added } }, true) ∧
      walk (pre demoEnv demoBuilder paymentsPkg queryFile)
          [.SelectorExpr 21 1 8 (leaf 22 1 2) (leaf 23 3 8), leaf 22 1 2, leaf 23 3 8,
            leaf 24 9 10, leaf 25 12 13]
          { st0 with rw := { st0.rw with edits := st0.rw.edits ++ added } } =
        .ok ⟨⟨"h.Query(a, b)", 1, [.Insert 9 "\"payments\",/*line :1:9*/"]⟩, [], [], [], []⟩ ∧
      (st0.rw.edits ++ added) <+: [Edit.Insert 9 "\"payments\",/*line :1:9*/"] ∧
      (st0.rw.edits ++ added) <+:
        (removeUnusedImports demoEnv queryFile
          ⟨⟨"h.Query(a, b)", 1, [.Insert 9 "\"payments\",/*line :1:9*/"]⟩, [], [], [],
            []⟩).edits ∧
      descends queryFile.References
        (.CallExpr 20 1 14 (.SelectorExpr 21 1 8 (leaf 22 1 2) (leaf 23 3 8)) 8
          [leaf 24 9 10, leaf 25 12 13]) = true :=
  ⟨⟨by rfl, by rfl, by rfl⟩,
    C7_database_handle_reached demoEnv demoBuilder paymentsPkg queryFile ⟨[], []⟩
      ⟨⟨"h.Query(a, b)", 1, [.Insert 9 "\"payments\",/*line :1:9*/"]⟩, [], [], [], []⟩
      [queryFile.AST.node, leaf 11 1 1, .Other 12 1 14 [queryCall]]
      [.SelectorExpr 21 1 8 (leaf 22 1 2) (leaf 23 3 8), leaf 22 1 2, leaf 23 3 8,
        leaf 24 9 10, leaf 25 12 13]
      20 1 14 (.SelectorExpr 21 1 8 (leaf 22 1 2) (leaf 23 3 8)) 8
      [leaf 24 9 10, leaf 25 12 13] ⟨.SQLDBNode, none⟩
      ⟨"payments", ⟨1, "payments", "app/payments"⟩⟩
      (by rfl) (by rfl) (by rfl) (by rfl) (by rfl)⟩

/-- Claim C8 as stated fails for a directive the walk does not reach: in
`loggedCallFile` the call `users.Get()` carries a RemoteCall directive, with
call site and target in the registry, but it is an argument of a call with a
LogAnnotation directive; the walk records no edit, no candidate and no
wrapper, the file is written unchanged and no wrapper file is generated. -/
theorem C8_remote_call_below_log_annotation :
    loggedCallFile.References.lookup innerGet.ptr = some ⟨.RPCCallNode, some usersGet⟩ ∧
    demoBuilder.res.Nodes loggedCallPkg.self.ptr innerGet.ptr = some 130 ∧
    demoBuilder.res.Nodes usersGet.Svc.Root.ptr usersGet.Func = some 401 ∧
    innerGet ∈ allNodes loggedCallFile.AST.node ∧
    innerGet ∉ loggedCallFile.reached ∧
    Apply (pre demoEnv demoBuilder loggedCallPkg loggedCallFile) loggedCallFile.AST.node
        (initialState loggedCallFile ⟨[], []⟩) =
      .ok ⟨⟨"rlog.Info(users.Get())", 1, []⟩, [], [], [], []⟩ ∧
    rewritePkg demoEnv demoBuilder loggedCallPkg "out" =
      (⟨[("out/l.go", "rlog.Info(users.Get())")], [("app/orders/l.go", "out/l.go")], []⟩,
        .returned none) :=
  ⟨by rfl, by rfl, by rfl,
    by simp [allNodes, loggedCallFile, AstFile.node, visited, visitedList, leaf, innerGet],
    by simp [File.reached, loggedCallFile, AstFile.node, visited, visitedList, leaf,
      innerGet, descends, Node.ptr, List.lookup],
    by rfl, by rfl⟩

/-- Claim C8, amended. For a RemoteCall directive on a call to the procedure
`P` of the service `S` that the walk of a file reaches, with call site and
target in the registry and in a walk that completes, the call of the closure
on the call expression records exactly two edits: the Replace of the span of
the target expression by `__encore_S_P`, and the Insert at `Lparen + 1` of the
decimal id of the call site, a comma and a blank, the decimal id of the
defining function of the target, a comma and the marker of the line and of
the column plus one of the opening parenthesis. Neither edit reaches beyond
the target expression and the insertion point, and both are in the edits of
the walk when it ends and in those of the buffer after the loop over the
candidates, from which the file is written. -/
theorem C8_remote_call_reached (env : Env) (b : builder) (pkg : Package) (file : File)
    (acc : Wrappers) (st : WalkState) (before after : List Node)
    (callPtr pos end_ : Nat) (Fun : Node) (Lparen : Nat) (Args : List Node)
    (d : Directive) (rpc : RPC) (callTx rpcTx : Int)
    (hreach : file.reached = before ++ .CallExpr callPtr pos end_ Fun Lparen Args :: after)
    (hd : file.References.lookup callPtr = some d) (ht : d.Typ = .RPCCallNode)
    (hr : d.RPC = some rpc)
    (hc : b.res.Nodes pkg.self.ptr callPtr = some callTx)
    (hf : b.res.Nodes rpc.Svc.Root.ptr rpc.Func = some rpcTx)
    (hwalk : Apply (pre env b pkg file) file.AST.node (initialState file acc) = .ok st) :
    ∃ st0 st1 added,
      walk (pre env b pkg file) before (initialState file acc) = .ok st0 ∧
      pre env b pkg file st0 (.CallExpr callPtr pos end_ Fun Lparen Args) = .ok (st1, true) ∧
      added =
        [.Replace Fun.Pos Fun.End ("__encore_" ++ rpc.Svc.Name ++ "_" ++ rpc.Name),
          .Insert (Lparen + 1)
            (toString callTx ++ ", " ++ toString rpcTx ++ "," ++
              ("/*line :" ++ toString (b.res.FileSet.Position Lparen).Line ++ ":" ++
                toString ((b.res.FileSet.Position Lparen).Column + 1) ++ "*/"))] ∧
      st1.rw = { st0.rw with edits := st0.rw.edits ++ added } ∧
      walk (pre env b pkg file) after st1 = .ok st ∧
      (st0.rw.edits ++ added) <+: st.rw.edits ∧
      (st0.rw.edits ++ added) <+: (removeUnusedImports env file st).edits ∧
      (∀ e ∈ added, (e.start = Fun.Pos ∧ e.stop = Fun.End) ∨
        (e.start = Lparen + 1 ∧ e.stop = Lparen + 1)) := by
  rw [Apply_file, hreach] at hwalk
  obtain ⟨st0, st1, r, h0, hp, h1⟩ := walk_split env b pkg file before after _ _ _ hwalk
  have hpre := pre_RPCCall env b pkg file st0 callPtr pos end_ Fun Lparen Args d rpc callTx
    rpcTx hd ht hr hc hf
  rw [hpre] at hp
  injection hp with hp
  injection hp with hst hr1
  subst hst
  obtain ⟨he, _, _⟩ := walk_grows env b pkg file after _ st h1
  have hrw : ((st0.rw.Replace Fun.Pos Fun.End (wrapperName rpc)).Insert (Lparen + 1)
      (toString callTx ++ ", " ++ toString rpcTx ++ "," ++
        lineMarker (b.res.FileSet.Position Lparen).Line
          ((b.res.FileSet.Position Lparen).Column + 1))).edits =
      st0.rw.edits ++
        [.Replace Fun.Pos Fun.End ("__encore_" ++ rpc.Svc.Name ++ "_" ++ rpc.Name),
          .Insert (Lparen + 1)
            (toString callTx ++ ", " ++ toString rpcTx ++ "," ++
              ("/*line :" ++ toString (b.res.FileSet.Position Lparen).Line ++ ":" ++
                toString ((b.res.FileSet.Position Lparen).Column + 1) ++ "*/"))] := by
    simp [Rewriter.Replace, Rewriter.Insert, wrapperName, lineMarker]
  refine ⟨st0, _, _, h0, hpre, rfl, ?_, h1, ?_, ?_, ?_⟩
  · simp [Rewriter.Replace, Rewriter.Insert, wrapperName, lineMarker]
  · rw [← hrw]; exact he
  · rw [← hrw]; exact he.trans (removeUnusedImports_appends env file st)
  · intro e he
    simp only [List.mem_cons, List.mem_singleton, List.not_mem_nil, or_false] at he
    rcases he with rfl | rfl
    · exact Or.inl ⟨rfl, rfl⟩
    · exact Or.inr ⟨rfl, rfl⟩

/-- The amended claim C8 on the call `users.Get()` of `usersCallFile`, node 20
of the package 1, to the procedure `users.Get`, node 201 of the package 2. -/
theorem C8_remote_call_witness :
    (usersCallFile.reached =
      [usersCallFile.AST.node, leaf 11 1 1, .Other 12 1 19 [leaf 13 8 19], leaf 13 8 19,
        .Other 14 20 31
          [.CallExpr 20 20 31 (.SelectorExpr 21 20 29 (leaf 22 20 25) (leaf 23 26 29)) 29
            []]] ++
        .CallExpr 20 20 31 (.SelectorExpr 21 20 29 (leaf 22 20 25) (leaf 23 26 29)) 29 [] ::
        [.SelectorExpr 21 20 29 (leaf 22 20 25) (leaf 23 26 29), leaf 22 20 25,
          leaf 23 26 29] ∧
     (rewritePkg demoEnv (twoLineBuilder 19) usersCallPkg "out").1.written =
      [("out/u.go", "import \"app/users\"\n__encore_users_Get(120, 401,/*line :2:11*/)")]) ∧
    ∃ st0 st1 added,
      walk (pre demoEnv (twoLineBuilder 19) usersCallPkg usersCallFile)
        [usersCallFile.AST.node, leaf 11 1 1, .Other 12 1 19 [leaf 13 8 19], leaf 13 8 19,
          .Other 14 20 31
            [.CallExpr 20 20 31 (.SelectorExpr 21 20 29 (leaf 22 20 25) (leaf 23 26 29)) 29
              []]]
        (initialState usersCallFile ⟨[], []⟩) = .ok st0 ∧
      pre demoEnv (twoLineBuilder 19) usersCallPkg usersCallFile st0
        (.CallExpr 20 20 31 (.SelectorExpr 21 20 29 (leaf 22 20 25) (leaf 23 26 29)) 29 []) =
          .ok (st1, true) ∧
      added =
        [.Replace (Node.SelectorExpr 21 20 29 (leaf 22 20 25) (leaf 23 26 29)).Pos
            (Node.SelectorExpr 21 20 29 (leaf 22 20 25) (leaf 23 26 29)).End
            ("__encore_" ++ usersGet.Svc.Name ++ "_" ++ usersGet.Name),
          .Insert (29 + 1)
            (toString (120 : Int) ++ ", " ++ toString (401 : Int) ++ "," ++
              ("/*line :" ++ toString ((twoLineBuilder 19).res.FileSet.Position 29).Line ++ ":" ++
                toString (((twoLineBuilder 19).res.FileSet.Position 29).Column + 1) ++ "*/"))] ∧
      st1.rw = { st0.rw with edits := st0.rw.edits ++ added } ∧
      walk (pre demoEnv (twoLineBuilder 19) usersCallPkg usersCallFile)
        [.SelectorExpr 21 20 29 (leaf 22 20 25) (leaf 23 26 29), leaf 22 20 25,
          leaf 23 26 29] st1 =
        .ok ⟨⟨"import \"app/users\"\nusers.Get()", 1,
            [.Replace 20 29 "__encore_users_Get", .Insert 30 "120, 401,/*line :2:11*/"]⟩,
          [21], [usersPkg], ["__encore_users_Get"], [usersGet]⟩ ∧
      (st0.rw.edits ++ added) <+:
        [Edit.Replace 20 29 "__encore_users_Get", .Insert 30 "120, 401,/*line :2:11*/"] ∧
      (st0.rw.edits ++ added) <+:
        (removeUnusedImports demoEnv usersCallFile
          ⟨⟨"import \"app/users\"\nusers.Get()", 1,
            [.Replace 20 29 "__encore_users_Get", .Insert 30 "120, 401,/*line :2:11*/"]⟩,
          [21], [usersPkg], ["__encore_users_Get"], [usersGet]⟩).edits ∧
      (∀ e ∈ added,
        (e.start = (Node.SelectorExpr 21 20 29 (leaf 22 20 25) (leaf 23 26 29)).Pos ∧
          e.stop = (Node.SelectorExpr 21 20 29 (leaf 22 20 25) (leaf 23 26 29)).End) ∨
        (e.start = 29 + 1 ∧ e.stop = 29 + 1)) :=
  ⟨⟨by rfl, by rfl⟩,
    C8_remote_call_reached demoEnv (twoLineBuilder 19) usersCallPkg usersCallFile ⟨[], []⟩
      ⟨⟨"import \"app/users\"\nusers.Get()", 1,
          [.Replace 20 29 "__encore_users_Get", .Insert 30 "120, 401,/*line :2:11*/"]⟩,
        [21], [usersPkg], ["__encore_users_Get"], [usersGet]⟩
      [usersCallFile.AST.node, leaf 11 1 1, .Other 12 1 19 [leaf 13 8 19], leaf 13 8 19,
        .Other 14 20 31
          [.CallExpr 20 20 31 (.SelectorExpr 21 20 29 (leaf 22 20 25) (leaf 23 26 29)) 29
            []]]
      [.SelectorExpr 21 20 29 (leaf 22 20 25) (leaf 23 26 29), leaf 22 20 25, leaf 23 26 29]
      20 20 31 (.SelectorExpr 21 20 29 (leaf 22 20 25) (leaf 23 26 29)) 29 []
      ⟨.RPCCallNode, some usersGet⟩ usersGet 120 401
      (by rfl) (by rfl) (by rfl) (by rfl) (by rfl) (by rfl) (by rfl)⟩

/-- What the closure does on a value specification with a type and a
SecretDeclaration directive, in a file with a declaration (lines 81-98). -/
theorem pre_Secrets (env : Env) (b : builder) (pkg : Package) (file : File)
    (st : WalkState) (specPtr pos end_ : Nat) (Names : List Node) (typ : Node)
    (Values : List Node) (d : Directive) (decl : Node) (decls : List Node)
    (hd : file.References.lookup specPtr = some d) (ht : d.Typ = .SecretsNode)
    (hdecls : file.AST.Decls = decl :: decls) :
    pre env b pkg file st (.ValueSpec specPtr pos end_ Names (some typ) Values) =
      .ok ({ st with
        rw := ((st.rw.Insert typ.Pos "= ").Insert end_
            (secretsInit env pkg.Secrets (b.res.FileSet.Position end_))).Insert decl.Pos
              (runtimeImport env (b.res.FileSet.Position decl.Pos)) }, true) := by
  unfold pre
  simp only [Node.ptr, hd, ht, hdecls]

/-- Claim C9. For a SecretDeclaration directive on a value specification with
a type, in a file with a declaration and in a package whose secrets are the
list `N`, the closure inserts `= ` at the start of the type and, at the end
of the specification, an opening brace and a line break, then for each name
`n` of `N`, in order, the line of a tab, `n`, `: __encore_runtime.LoadSecret(`,
the quoted `n` and `),`, then a closing brace and the marker of the line and
column of the end of the specification: one entry per declared name, the
`i`-th for the `i`-th name; its last edit inserts the runtime import before
the first declaration. -/
theorem C9_secret_initializer (env : Env) (b : builder) (pkg : Package) (file : File)
    (st : WalkState) (specPtr pos end_ : Nat) (Names : List Node) (typ : Node)
    (Values : List Node) (d : Directive) (decl : Node) (decls : List Node)
    (hd : file.References.lookup specPtr = some d) (ht : d.Typ = .SecretsNode)
    (hdecls : file.AST.Decls = decl :: decls) :
    ∃ st1 entries,
      pre env b pkg file st (.ValueSpec specPtr pos end_ Names (some typ) Values) =
        .ok (st1, true) ∧
      entries = pkg.Secrets.map (fun n =>
        "\t" ++ n ++ ": __encore_runtime.LoadSecret(" ++ env.Quote n ++ "),\n") ∧
      entries.length = pkg.Secrets.length ∧
      st1.rw = { st.rw with
        edits := st.rw.edits ++
          [.Insert typ.Pos "= ",
            .Insert end_
              ("\x7b\n" ++ String.join entries ++
                ("\x7d" ++ ("/*line :" ++ toString (b.res.FileSet.Position end_).Line ++ ":" ++
                  toString (b.res.FileSet.Position end_).Column ++ "*/"))),
            .Insert decl.Pos
              ("import __encore_runtime " ++ env.Quote "encore.dev/runtime" ++ "\n" ++
                ("/*line :" ++ toString (b.res.FileSet.Position decl.Pos).Line ++ ":" ++
                  toString (b.res.FileSet.Position decl.Pos).Column ++ "*/"))] } ∧
      st1.useExceptions = st.useExceptions ∧ st1.rewrittenPkgs = st.rewrittenPkgs ∧
      st1.seenWrappers = st.seenWrappers ∧ st1.wrappers = st.wrappers := by
  refine ⟨_, _, pre_Secrets env b pkg file st specPtr pos end_ Names typ Values d decl decls
    hd ht hdecls, rfl, by simp, ?_, rfl, rfl, rfl, rfl⟩
  simp [Rewriter.Insert, secretsInit, runtimeImport, lineMarker, String.append_assoc]

/-- Claim C9 on `var secrets struct{}` in the package `billing` with the
secrets `ApiKey` and `DbPass`: the entries of the initializer are those of
`ApiKey` and `DbPass` and no others, and the file written. -/
theorem C9_secret_initializer_witness :
    (∃ st1 entries,
      pre demoEnv demoBuilder billingSecretsPkg secretsFile (initialState secretsFile ⟨[], []⟩)
          (.ValueSpec 13 5 21 [leaf 14 5 12] (some (leaf 15 13 21)) []) = .ok (st1, true) ∧
      entries = ["ApiKey", "DbPass"].map (fun n =>
        "\t" ++ n ++ ": __encore_runtime.LoadSecret(" ++ demoEnv.Quote n ++ "),\n") ∧
      entries.length = 2 ∧
      st1.rw = { (initialState secretsFile ⟨[], []⟩).rw with
        edits := (initialState secretsFile ⟨[], []⟩).rw.edits ++
          [.Insert 13 "= ",
            .Insert 21
              ("\x7b\n" ++ String.join entries ++
                ("\x7d" ++ ("/*line :" ++ toString (demoBuilder.res.FileSet.Position 21).Line ++ ":" ++
                  toString (demoBuilder.res.FileSet.Position 21).Column ++ "*/"))),
            .Insert 1
              ("import __encore_runtime " ++ demoEnv.Quote "encore.dev/runtime" ++ "\n" ++
                ("/*line :" ++ toString (demoBuilder.res.FileSet.Position 1).Line ++ ":" ++
                  toString (demoBuilder.res.FileSet.Position 1).Column ++ "*/"))] } ∧
      st1.useExceptions = [] ∧ st1.rewrittenPkgs = [] ∧
      st1.seenWrappers = [] ∧ st1.wrappers = []) ∧
    ["ApiKey", "DbPass"].map (fun n =>
        "\t" ++ n ++ ": __encore_runtime.LoadSecret(" ++ demoEnv.Quote n ++ "),\n") =
      ["\tApiKey: __encore_runtime.LoadSecret(\"ApiKey\"),\n",
        "\tDbPass: __encore_runtime.LoadSecret(\"DbPass\"),\n"] ∧
    (rewritePkg demoEnv demoBuilder billingSecretsPkg "out").1.written =
      [("out/s.go",
        "import __encore_runtime \"encore.dev/runtime\"\n/*line :1:1*/var secrets = struct\x7b\x7d\x7b\n\tApiKey: __encore_runtime.LoadSecret(\"ApiKey\"),\n\tDbPass: __encore_runtime.LoadSecret(\"DbPass\"),\n\x7d/*line :1:21*/")] :=
  ⟨C9_secret_initializer demoEnv demoBuilder billingSecretsPkg secretsFile
      (initialState secretsFile ⟨[], []⟩) 13 5 21 [leaf 14 5 12] (leaf 15 13 21) []
      ⟨.SecretsNode, none⟩ (.Other 12 1 21 [secretsSpec]) [] (by rfl) (by rfl) (by rfl),
    by rfl, by rfl⟩

/-- One call of the closure leaves the candidates alone or sets one of them. -/
theorem pre_rewrittenPkgs (env : Env) (b : builder) (pkg : Package) (file : File)
    (s : WalkState) (n : Node) (s1 : WalkState) (d : Bool)
    (h : pre env b pkg file s n = .ok (s1, d)) :
    s1.rewrittenPkgs = s.rewrittenPkgs ∨ ∃ q, s1.rewrittenPkgs = setTrue s.rewrittenPkgs q := by
  unfold pre at h
  split at h
  · injection h with h
    injection h with h _
    subst h
    exact Or.inl rfl
  · split at h
    all_goals (repeat' split at h)
    all_goals first
      | (exact Except.noConfusion h)
      | (injection h with h; injection h with h _; subst h; exact Or.inl rfl)
      | (dsimp only at h; injection h with h; injection h with h _; subst h
         exact Or.inr ⟨_, rfl⟩)

/-- The candidates of a file are recorded without repetition. -/
theorem walk_rewrittenPkgs_nodup (env : Env) (b : builder) (pkg : Package) (file : File)
    (nodes : List Node) (s s1 : WalkState) (hs : s.rewrittenPkgs.Nodup)
    (h : walk (pre env b pkg file) nodes s = .ok s1) : s1.rewrittenPkgs.Nodup := by
  induction nodes generalizing s with
  | nil =>
    simp only [walk] at h
    injection h with h
    subst h
    exact hs
  | cons n ns ih =>
    simp only [walk] at h
    cases hp : pre env b pkg file s n with
    | error x => rw [hp] at h; exact absurd h (by simp)
    | ok r =>
      obtain ⟨s2, d⟩ := r
      rw [hp] at h
      refine ih s2 ?_ h
      rcases pre_rewrittenPkgs env b pkg file s n s2 d hp with h1 | ⟨q, h1⟩
      · rw [h1]; exact hs
      · rw [h1]; exact nodup_setTrue _ _ hs

/-- Claim C10. After the walk of a file, for every candidate package flagged
by a RemoteCall rewrite of the file whose import the liveness check reports
unused and `findImport` finds, the loop over the candidates visits the
package exactly once and records in that visit exactly one edit, a Delete:
of the span of the import entry alone when its declaration holds more than
one entry, of the span of the whole declaration otherwise. -/
theorem C10_unused_import_deleted_once (env : Env) (b : builder) (pkg : Package) (file : File)
    (acc : Wrappers) (st : WalkState)
    (hwalk : Apply (pre env b pkg file) file.AST.node (initialState file acc) = .ok st)
    (p : PkgRef) (hp : p ∈ st.rewrittenPkgs)
    (huse : env.usesImport file.AST p.Name p.ImportPath st.useExceptions = false)
    (found : FoundImport) (hfind : env.findImport file.AST p.ImportPath = some found) :
    ∃ before after del,
      (env.rangeOrder st.rewrittenPkgs).val = before ++ p :: after ∧
      p ∉ before ∧ p ∉ after ∧
      del = (if found.numSpecs > 1 then Edit.Delete found.specPos found.specEnd
        else Edit.Delete found.declPos found.declEnd) ∧
      (∀ rw, removeImport env file st.useExceptions rw p =
        { rw with edits := rw.edits ++ [del] }) ∧
      removeUnusedImports env file st =
        after.foldl (removeImport env file st.useExceptions)
          (removeImport env file st.useExceptions
            (before.foldl (removeImport env file st.useExceptions) st.rw) p) := by
  rw [Apply_file] at hwalk
  have hnd : st.rewrittenPkgs.Nodup :=
    walk_rewrittenPkgs_nodup env b pkg file _ _ _ (by simp [initialState]) hwalk
  have hperm := (env.rangeOrder st.rewrittenPkgs).property
  have hnd2 : (env.rangeOrder st.rewrittenPkgs).val.Nodup := hperm.nodup_iff.mpr hnd
  have hmem : p ∈ (env.rangeOrder st.rewrittenPkgs).val := hperm.mem_iff.mpr hp
  obtain ⟨before, after, hsplit⟩ := List.append_of_mem hmem
  rw [hsplit] at hnd2
  have h1 : p ∉ before := by
    intro hb
    have := (List.nodup_append.mp hnd2).2.2
    exact this hb (List.mem_cons_self _ _)
  have h2 : p ∉ after := by
    have := (List.nodup_append.mp hnd2).2.1
    exact (List.nodup_cons.mp this).1
  refine ⟨before, after, _, hsplit, h1, h2, rfl, ?_, ?_⟩
  · intro rw
    unfold removeImport
    simp only [huse, hfind, Bool.not_false, if_true]
    split <;> rfl
  · unfold removeUnusedImports
    rw [hsplit, List.foldl_append, List.foldl_cons]

/-- Claim C10 on `usersCallFile`, whose one call consumes the only reference
to the import of `app/users`, the single entry of its declaration: the one
edit recorded after the walk is the Delete of the declaration. -/
theorem C10_unused_import_witness :
    (∃ before after del,
      ((importEnv ⟨8, 19, 1, 19, 1⟩).rangeOrder [usersPkg]).val = before ++ usersPkg :: after ∧
      usersPkg ∉ before ∧ usersPkg ∉ after ∧
      del = (if (1 : Nat) > 1 then Edit.Delete 8 19 else Edit.Delete 1 19) ∧
      (∀ rw, removeImport (importEnv ⟨8, 19, 1, 19, 1⟩) usersCallFile [21] rw usersPkg =
        { rw with edits := rw.edits ++ [del] }) ∧
      removeUnusedImports (importEnv ⟨8, 19, 1, 19, 1⟩) usersCallFile
          ⟨⟨"import \"app/users\"\nusers.Get()", 1,
            [.Replace 20 29 "__encore_users_Get", .Insert 30 "120, 401,/*line :2:11*/"]⟩,
            [21], [usersPkg], ["__encore_users_Get"], [usersGet]⟩ =
        after.foldl (removeImport (importEnv ⟨8, 19, 1, 19, 1⟩) usersCallFile [21])
          (removeImport (importEnv ⟨8, 19, 1, 19, 1⟩) usersCallFile [21]
            (before.foldl (removeImport (importEnv ⟨8, 19, 1, 19, 1⟩) usersCallFile [21])
              ⟨"import \"app/users\"\nusers.Get()", 1,
                [.Replace 20 29 "__encore_users_Get", .Insert 30 "120, 401,/*line :2:11*/"]⟩)
            usersPkg)) ∧
    (removeUnusedImports (importEnv ⟨8, 19, 1, 19, 1⟩) usersCallFile
        ⟨⟨"import \"app/users\"\nusers.Get()", 1,
          [.Replace 20 29 "__encore_users_Get", .Insert 30 "120, 401,/*line :2:11*/"]⟩,
          [21], [usersPkg], ["__encore_users_Get"], [usersGet]⟩).edits =
      [.Replace 20 29 "__encore_users_Get", .Insert 30 "120, 401,/*line :2:11*/",
        .Delete 1 19] ∧
    (rewritePkg (importEnv ⟨8, 19, 1, 19, 1⟩) (twoLineBuilder 19) usersCallPkg "out").1.written =
      [("out/u.go", "\n__encore_users_Get(120, 401,/*line :2:11*/)")] :=
  ⟨C10_unused_import_deleted_once (importEnv ⟨8, 19, 1, 19, 1⟩) (twoLineBuilder 19)
      usersCallPkg usersCallFile ⟨[], []⟩
      ⟨⟨"import \"app/users\"\nusers.Get()", 1,
        [.Replace 20 29 "__encore_users_Get", .Insert 30 "120, 401,/*line :2:11*/"]⟩,
        [21], [usersPkg], ["__encore_users_Get"], [usersGet]⟩
      (by rfl) usersPkg (by simp) (by rfl) ⟨8, 19, 1, 19, 1⟩ (by rfl),
    by rfl, by rfl⟩

/-- A candidate whose visit records nothing can be left out of the loop over
the candidates. -/
theorem foldl_removeImport_skip (env : Env) (file : File) (exc : List Nat) (p : PkgRef)
    (hskip : ∀ rw, removeImport env file exc rw p = rw) (l : List PkgRef) (rw : Rewriter) :
    l.foldl (removeImport env file exc) rw =
      (l.filter (fun q => decide (q ≠ p))).foldl (removeImport env file exc) rw := by
  induction l generalizing rw with
  | nil => rfl
  | cons q qs ih =>
    by_cases hq : q = p
    · subst hq
      simp only [List.foldl_cons, hskip, List.filter_cons, ne_eq, not_true_eq_false,
        decide_False, Bool.false_eq_true, if_false]
      exact ih rw
    · simp only [List.foldl_cons, List.filter_cons, ne_eq, hq, not_false_eq_true, decide_True,
        if_true]
      exact ih _

/-- Every edit the loop over the candidates records is the Delete of the import
of a candidate that is unused and found. -/
theorem foldl_removeImport_edits (env : Env) (file : File) (exc : List Nat)
    (l : List PkgRef) (rw : Rewriter) (e : Edit)
    (he : e ∈ (l.foldl (removeImport env file exc) rw).edits) :
    e ∈ rw.edits ∨ ∃ q ∈ l, env.usesImport file.AST q.Name q.ImportPath exc = false ∧
      ∃ found, env.findImport file.AST q.ImportPath = some found ∧
        e = (if found.numSpecs > 1 then Edit.Delete found.specPos found.specEnd
          else Edit.Delete found.declPos found.declEnd) := by
  induction l generalizing rw with
  | nil => exact Or.inl he
  | cons q qs ih =>
    simp only [List.foldl_cons] at he
    rcases ih _ he with h1 | ⟨q', hq', h2⟩
    · unfold removeImport at h1
      cases hu : env.usesImport file.AST q.Name q.ImportPath exc with
      | true =>
        simp only [hu, Bool.not_true, Bool.false_eq_true, if_false] at h1
        exact Or.inl h1
      | false =>
        simp only [hu, Bool.not_false, if_true] at h1
        cases hf : env.findImport file.AST q.ImportPath with
        | none =>
          simp only [hf] at h1
          exact Or.inl h1
        | some found =>
          simp only [hf] at h1
          by_cases hn : found.numSpecs > 1
          · simp only [hn, if_true, Rewriter.Delete, List.mem_append, List.mem_singleton] at h1
            rcases h1 with h1 | h1
            · exact Or.inl h1
            · exact Or.inr ⟨q, List.mem_cons_self _ _, hu, found, hf, by simp [hn, h1]⟩
          · simp only [hn, if_false, Rewriter.Delete, List.mem_append, List.mem_singleton] at h1
            rcases h1 with h1 | h1
            · exact Or.inl h1
            · exact Or.inr ⟨q, List.mem_cons_self _ _, hu, found, hf, by simp [hn, h1]⟩
    · exact Or.inr ⟨q', List.mem_cons_of_mem _ hq', h2⟩

/-- Claim C11. If the liveness check reports that a package is still used in
the file (a reference other than the ones consumed by RemoteCall rewrites
remains), the visit of the package records nothing, whatever the walk has
recorded before: the loop over the candidates does what it does without the
package, and every edit it records is the Delete of the import of another
candidate, one that is unused and found. -/
theorem C11_used_import_retained (env : Env) (file : File) (st : WalkState) (p : PkgRef)
    (huse : env.usesImport file.AST p.Name p.ImportPath st.useExceptions = true) :
    (∀ rw, removeImport env file st.useExceptions rw p = rw) ∧
    removeUnusedImports env file st =
      ((env.rangeOrder st.rewrittenPkgs).val.filter (fun q => decide (q ≠ p))).foldl
        (removeImport env file st.useExceptions) st.rw ∧
    (∀ e ∈ (removeUnusedImports env file st).edits, e ∈ st.rw.edits ∨
      ∃ q ∈ st.rewrittenPkgs, q ≠ p ∧
        env.usesImport file.AST q.Name q.ImportPath st.useExceptions = false ∧
        ∃ found, env.findImport file.AST q.ImportPath = some found ∧
          e = (if found.numSpecs > 1 then Edit.Delete found.specPos found.specEnd
            else Edit.Delete found.declPos found.declEnd)) := by
  have hskip : ∀ rw, removeImport env file st.useExceptions rw p = rw := by
    intro rw
    unfold removeImport
    simp [huse]
  have hloop := foldl_removeImport_skip env file st.useExceptions p hskip
    (env.rangeOrder st.rewrittenPkgs).val st.rw
  refine ⟨hskip, hloop, ?_⟩
  intro e he
  have he2 : e ∈ (((env.rangeOrder st.rewrittenPkgs).val.filter
      (fun q => decide (q ≠ p))).foldl (removeImport env file st.useExceptions) st.rw).edits := by
    rw [← hloop]
    exact he
  rcases foldl_removeImport_edits env file st.useExceptions _ _ e he2 with h1 |
    ⟨q, hq, hu, found, hf, hdel⟩
  · exact Or.inl h1
  · have hq2 := List.mem_filter.mp hq
    exact Or.inr ⟨q, (env.rangeOrder st.rewrittenPkgs).property.mem_iff.mp hq2.1,
      by simpa using hq2.2, hu, found, hf, hdel⟩

/-- Claim C11 on `usersCallFile` when another reference to `users` remains:
the loop records nothing and the file written keeps the import. -/
theorem C11_used_import_witness :
    ((∀ rw, removeImport (usedEnv ⟨8, 19, 1, 19, 1⟩) usersCallFile [21] rw usersPkg = rw) ∧
      removeUnusedImports (usedEnv ⟨8, 19, 1, 19, 1⟩) usersCallFile
          ⟨⟨"import \"app/users\"\nusers.Get()", 1,
            [.Replace 20 29 "__encore_users_Get", .Insert 30 "120, 401,/*line :2:11*/"]⟩,
            [21], [usersPkg], ["__encore_users_Get"], [usersGet]⟩ =
        ((((usedEnv ⟨8, 19, 1, 19, 1⟩).rangeOrder [usersPkg]).val.filter
          (fun q => decide (q ≠ usersPkg))).foldl
            (removeImport (usedEnv ⟨8, 19, 1, 19, 1⟩) usersCallFile [21])
            ⟨"import \"app/users\"\nusers.Get()", 1,
              [.Replace 20 29 "__encore_users_Get", .Insert 30 "120, 401,/*line :2:11*/"]⟩)) ∧
    (rewritePkg (usedEnv ⟨8, 19, 1, 19, 1⟩) (twoLineBuilder 19) usersCallPkg "out").1.written =
      [("out/u.go", "import \"app/users\"\n__encore_users_Get(120, 401,/*line :2:11*/)")] :=
  ⟨⟨(C11_used_import_retained (usedEnv ⟨8, 19, 1, 19, 1⟩) usersCallFile
      ⟨⟨"import \"app/users\"\nusers.Get()", 1,
        [.Replace 20 29 "__encore_users_Get", .Insert 30 "120, 401,/*line :2:11*/"]⟩,
        [21], [usersPkg], ["__encore_users_Get"], [usersGet]⟩ usersPkg (by rfl)).1,
    (C11_used_import_retained (usedEnv ⟨8, 19, 1, 19, 1⟩) usersCallFile
      ⟨⟨"import \"app/users\"\nusers.Get()", 1,
        [.Replace 20 29 "__encore_users_Get", .Insert 30 "120, 401,/*line :2:11*/"]⟩,
        [21], [usersPkg], ["__encore_users_Get"], [usersGet]⟩ usersPkg (by rfl)).2.1⟩,
    by rfl⟩

/-- Claim C12. For a candidate package whose import `findImport` does not find,
the visit of the package records nothing and cannot fail: the loop over the
candidates does what it does without the package, it goes on with the other
candidates, and the file is written and its overlay recorded as soon as the
edit buffer yields its data and the write succeeds, after which the loop over
the files goes on with the wrapper set of the walk. -/
theorem C12_import_not_found_no_op (env : Env) (b : builder) (pkg : Package)
    (targetDir : String) (file : File) (acc : Wrappers) (eff : Effects) (st : WalkState)
    (p : PkgRef)
    (hwalk : Apply (pre env b pkg file) file.AST.node (initialState file acc) = .ok st)
    (hfind : env.findImport file.AST p.ImportPath = none) :
    (∀ rw, removeImport env file st.useExceptions rw p = rw) ∧
    removeUnusedImports env file st =
      ((env.rangeOrder st.rewrittenPkgs).val.filter (fun q => decide (q ≠ p))).foldl
        (removeImport env file st.useExceptions) st.rw ∧
    (∀ data, file.References.length ≠ 0 →
      env.Data (((env.rangeOrder st.rewrittenPkgs).val.filter (fun q => decide (q ≠ p))).foldl
        (removeImport env file st.useExceptions) st.rw) = some data →
      env.WriteFile (env.Join targetDir (env.Base file.Path)) data = none →
      rewriteFile env b pkg targetDir file acc eff =
        ({ eff with
            written := eff.written ++ [(env.Join targetDir (env.Base file.Path), data)]
            overlays := eff.overlays ++
              [(file.Path, env.Join targetDir (env.Base file.Path))] },
          .ok ⟨st.seenWrappers, st.wrappers⟩)) := by
  have hskip : ∀ rw, removeImport env file st.useExceptions rw p = rw := by
    intro rw
    unfold removeImport
    simp [hfind]
  have hloop := foldl_removeImport_skip env file st.useExceptions p hskip
    (env.rangeOrder st.rewrittenPkgs).val st.rw
  refine ⟨hskip, hloop, ?_⟩
  intro data h0 hdata hwrite
  unfold rewriteFile
  simp only [h0, if_false, hwalk]
  have hl : removeUnusedImports env file st =
      ((env.rangeOrder st.rewrittenPkgs).val.filter (fun q => decide (q ≠ p))).foldl
        (removeImport env file st.useExceptions) st.rw := hloop
  rw [hl, hdata]
  simp only [hwrite]

/-- Claim C12 on `usersCallFile` when the import of `app/users` is not found:
the loop records nothing and the file is written with the edits of the walk
alone. -/
theorem C12_import_not_found_witness :
    ((∀ rw, removeImport demoEnv usersCallFile [21] rw usersPkg = rw) ∧
      removeUnusedImports demoEnv usersCallFile
          ⟨⟨"import \"app/users\"\nusers.Get()", 1,
            [.Replace 20 29 "__encore_users_Get", .Insert 30 "120, 401,/*line :2:11*/"]⟩,
            [21], [usersPkg], ["__encore_users_Get"], [usersGet]⟩ =
        ⟨"import \"app/users\"\nusers.Get()", 1,
          [.Replace 20 29 "__encore_users_Get", .Insert 30 "120, 401,/*line :2:11*/"]⟩) ∧
    rewritePkg demoEnv (twoLineBuilder 19) usersCallPkg "out" =
      (⟨[("out/u.go", "import \"app/users\"\n__encore_users_Get(120, 401,/*line :2:11*/)")],
        [("app/orders/u.go", "out/u.go"),
          ("app/orders/encore_rpc_wrappers.go", "out/encore_rpc_wrappers.go")],
        [("out/encore_rpc_wrappers.go", [usersGet])]⟩, .returned none) :=
  ⟨⟨(C12_import_not_found_no_op demoEnv (twoLineBuilder 19) usersCallPkg "out" usersCallFile
      ⟨[], []⟩ ⟨[], [], []⟩
      ⟨⟨"import \"app/users\"\nusers.Get()", 1,
        [.Replace 20 29 "__encore_users_Get", .Insert 30 "120, 401,/*line :2:11*/"]⟩,
        [21], [usersPkg], ["__encore_users_Get"], [usersGet]⟩ usersPkg (by rfl) (by rfl)).1,
    (C12_import_not_found_no_op demoEnv (twoLineBuilder 19) usersCallPkg "out" usersCallFile
      ⟨[], []⟩ ⟨[], [], []⟩
      ⟨⟨"import \"app/users\"\nusers.Get()", 1,
        [.Replace 20 29 "__encore_users_Get", .Insert 30 "120, 401,/*line :2:11*/"]⟩,
        [21], [usersPkg], ["__encore_users_Get"], [usersGet]⟩ usersPkg (by rfl) (by rfl)).2.1⟩,
    by rfl⟩

/-- The loop over a list of files followed by another is the loop over the
first, then, unless it aborts, the loop over the second. -/
theorem rewriteFiles_append (env : Env) (b : builder) (pkg : Package) (targetDir : String)
    (l1 l2 : List File) (acc : Wrappers) (eff : Effects) :
    rewriteFiles env b pkg targetDir (l1 ++ l2) acc eff =
      match rewriteFiles env b pkg targetDir l1 acc eff with
      | (eff1, .ok acc1) => rewriteFiles env b pkg targetDir l2 acc1 eff1
      | (eff1, .error a) => (eff1, .error a) := by
  induction l1 generalizing acc eff with
  | nil => simp [rewriteFiles]
  | cons f fs ih =>
    simp only [List.cons_append, rewriteFiles]
    cases hf : rewriteFile env b pkg targetDir f acc eff with
    | mk eff2 r =>
      cases r with
      | ok acc2 => exact ih acc2 eff2
      | error a => rfl

/-- How `rewritePkg` ends when it returns without error: the loop over the
files has completed and the wrapper set is empty or its generation succeeds. -/
theorem rewritePkg_returned_nil (env : Env) (b : builder) (pkg : Package)
    (targetDir : String) (h : (rewritePkg env b pkg targetDir).2 = .returned none) :
    ∃ eff acc,
      rewriteFiles env b pkg targetDir pkg.Files ⟨[], []⟩ ⟨[], [], []⟩ = (eff, .ok acc) ∧
      ((acc.wrappers = [] ∧ rewritePkg env b pkg targetDir = (eff, .returned none)) ∨
       (acc.wrappers ≠ [] ∧
        env.generateWrappers pkg acc.wrappers (env.Join targetDir "encore_rpc_wrappers.go") =
          none ∧
        rewritePkg env b pkg targetDir =
          ({ eff with
              generated := eff.generated ++
                [(env.Join targetDir "encore_rpc_wrappers.go", acc.wrappers)]
              overlays := eff.overlays ++
                [(env.Join pkg.Dir "encore_rpc_wrappers.go",
                  env.Join targetDir "encore_rpc_wrappers.go")] },
            .returned none))) := by
  unfold rewritePkg at h ⊢
  cases hr : rewriteFiles env b pkg targetDir pkg.Files ⟨[], []⟩ ⟨[], [], []⟩ with
  | mk eff r =>
    rw [hr] at h
    cases r with
    | error a =>
      cases a with
      | panic p => exact absurd h (by simp)
      | err e => exact absurd h (by simp)
    | ok acc =>
      refine ⟨eff, acc, rfl, ?_⟩
      dsimp only at h ⊢
      by_cases hw : acc.wrappers.length > 0
      · simp only [hw, if_true] at h ⊢
        have hne : acc.wrappers ≠ [] := by
          intro h0
          rw [h0] at hw
          exact absurd hw (by simp)
        cases hg : env.generateWrappers pkg acc.wrappers
            (env.Join targetDir "encore_rpc_wrappers.go") with
        | some e =>
          rw [hg] at h
          exact absurd h (by simp)
        | none => exact Or.inr ⟨hne, rfl, rfl⟩
      · have he : acc.wrappers = [] := by
          cases hl : acc.wrappers with
          | nil => rfl
          | cons x xs => rw [hl] at hw; exact absurd (by simp) hw
        refine Or.inl ⟨he, ?_⟩
        rw [if_neg hw]

/-- Claim C13. When `rewritePkg` returns without error, the files written are
those of the files of the package whose directive map is not empty, once
each and in their order, each at the target directory joined with the base
name of its path, and the overlays recorded are those of the same files,
followed by the overlay of the wrapper file if one was generated; a file with
an empty directive map is skipped: its iteration edits nothing, writes
nothing and records nothing. -/
theorem C13_files_written_and_overlays (env : Env) (b : builder) (pkg : Package)
    (targetDir : String) (h : (rewritePkg env b pkg targetDir).2 = .returned none) :
    (rewritePkg env b pkg targetDir).1.written.map Prod.fst =
      (pkg.Files.filter (fun f => decide (f.References.length ≠ 0))).map
        (fun f => env.Join targetDir (env.Base f.Path)) ∧
    (rewritePkg env b pkg targetDir).1.overlays =
      (pkg.Files.filter (fun f => decide (f.References.length ≠ 0))).map
        (fun f => (f.Path, env.Join targetDir (env.Base f.Path))) ++
      (rewritePkg env b pkg targetDir).1.generated.map
        (fun g => (env.Join pkg.Dir "encore_rpc_wrappers.go", g.1)) ∧
    (∀ f acc eff, f.References.length = 0 →
      rewriteFile env b pkg targetDir f acc eff = (eff, .ok acc)) := by
  obtain ⟨eff, acc, hloop, hend⟩ := rewritePkg_returned_nil env b pkg targetDir h
  obtain ⟨i1, i2, i3⟩ := rewriteFiles_ok_effects env b pkg targetDir pkg.Files _ _ _ _ hloop
  simp only [List.map_nil, List.nil_append, rewrittenFiles] at i1 i2 i3
  have hfilter : (pkg.Files.filter (fun f => decide (f.References.length ≠ 0))) =
      pkg.Files.filter File.hasDirectives := rfl
  refine ⟨?_, ?_, ?_⟩
  · rcases hend with ⟨_, hr⟩ | ⟨_, _, hr⟩
    · rw [hr, hfilter]; exact i2
    · rw [hr, hfilter]; exact i2
  · rcases hend with ⟨_, hr⟩ | ⟨_, _, hr⟩
    · rw [hr, hfilter]
      simp only [i3, List.map_nil, List.append_nil]
      exact i1
    · rw [hr, hfilter]
      simp only [i3, List.nil_append, List.map_cons, List.map_nil]
      rw [i1]
      rfl
  · intro f acc eff h0
    unfold rewriteFile
    simp [h0]

/-- Claim C13 on `mixedPkg`, whose second file has no directive. -/
theorem C13_files_written_witness :
    (rewritePkg demoEnv demoBuilder mixedPkg "out").2 = .returned none ∧
    rewritePkg demoEnv demoBuilder mixedPkg "out" =
      (⟨[("out/a.go", "func Place() \x7b\x7d"),
          ("out/q.go", "h.Query(\"orders\",/*line :1:9*/a, b)")],
        [("app/orders/a.go", "out/a.go"), ("app/orders/q.go", "out/q.go")], []⟩,
        .returned none) ∧
    (rewritePkg demoEnv demoBuilder mixedPkg "out").1.overlays =
      (mixedPkg.Files.filter (fun f => decide (f.References.length ≠ 0))).map
        (fun f => (f.Path, demoEnv.Join "out" (demoEnv.Base f.Path))) ++
      (rewritePkg demoEnv demoBuilder mixedPkg "out").1.generated.map
        (fun g => (demoEnv.Join mixedPkg.Dir "encore_rpc_wrappers.go", g.1)) :=
  ⟨by rfl, by rfl,
    (C13_files_written_and_overlays demoEnv demoBuilder mixedPkg "out" (by rfl)).2.1⟩

/-- The wrapper list of a completed loop over the files of a package. -/
theorem rewriteFiles_wrappers_eq (env : Env) (b : builder) (pkg : Package)
    (targetDir : String) (eff : Effects) (acc : Wrappers)
    (h : rewriteFiles env b pkg targetDir pkg.Files ⟨[], []⟩ ⟨[], [], []⟩ = (eff, .ok acc)) :
    acc.wrappers = firstOccurrences wrapperName pkg.targets := by
  have h2 := rewriteFiles_wrappers env b pkg targetDir pkg.Files ⟨[], []⟩ acc ⟨[], [], []⟩ eff h
  have h3 := congrArg Prod.snd h2
  simp only [foldl_addWrapper] at h3
  simpa [Package.targets] using h3

theorem firstOccurrences_eq_nil {α κ : Type} [DecidableEq κ] (key : α → κ) (l : List α) :
    firstOccurrences key l = [] ↔ l = [] := by
  cases l with
  | nil => simp [firstOccurrences]
  | cons x xs => simp [firstOccurrences]

/-- The targets of a package are not empty exactly when the traversal of one
of its files with a non-empty directive map reaches a node that carries a
RemoteCall directive with a target. -/
theorem targets_ne_nil (pkg : Package) :
    pkg.targets ≠ [] ↔
      ∃ f ∈ pkg.Files, f.References.length ≠ 0 ∧
        ∃ n ∈ f.reached, ∃ r, rpcTarget f.References n = some r := by
  constructor
  · intro h
    obtain ⟨r, hr⟩ := List.exists_mem_of_ne_nil _ h
    simp only [Package.targets, List.mem_flatten, List.mem_map] at hr
    obtain ⟨l, ⟨f, hf, rfl⟩, hrl⟩ := hr
    refine ⟨f, hf, ?_⟩
    unfold File.targets at hrl
    split at hrl
    · exact absurd hrl (by simp)
    · rename_i h0
      obtain ⟨n, hn, hnr⟩ := List.mem_filterMap.mp hrl
      exact ⟨h0, n, hn, r, hnr⟩
  · rintro ⟨f, hf, h0, n, hn, r, hr⟩
    have hmem : r ∈ pkg.targets := by
      simp only [Package.targets, List.mem_flatten, List.mem_map]
      refine ⟨f.targets, ⟨f, hf, rfl⟩, ?_⟩
      unfold File.targets
      rw [if_neg h0]
      exact List.mem_filterMap.mpr ⟨n, hn, hr⟩
    exact List.ne_nil_of_mem hmem

/-- Claim C14, as stated, fails on `usersCallPkg` when the write of its file
fails: the traversal of the file visits a RemoteCall directive and adds its
target to the wrapper set, yet `rewritePkg` returns the error of the write
and neither generates the wrapper file nor records an overlay. -/
theorem C14_write_failure_no_wrapper_file :
    usersCallPkg.targets = [usersGet] ∧
    (Apply (pre (failAtEnv "out/u.go") (twoLineBuilder 19) usersCallPkg usersCallFile)
        usersCallFile.AST.node (initialState usersCallFile ⟨[], []⟩)).map WalkState.wrappers =
      .ok [usersGet] ∧
    rewritePkg (failAtEnv "out/u.go") (twoLineBuilder 19) usersCallPkg "out" =
      (⟨[], [], []⟩, .returned (some "disk full")) :=
  ⟨by rfl, by rfl, by rfl⟩

/-- Claim C14, amended. When `rewritePkg` returns without error, either no
RemoteCall directive was visited in any file of the package, and then no
wrapper file is generated and the overlays are those of the rewritten files;
or at least one was visited, and then the wrapper file is generated exactly
once, at the target directory joined with `encore_rpc_wrappers.go`, from the
whole wrapper set (the first occurrences, by wrapper name, of the targets of
all the files), and its overlay is recorded once, after the overlays of all
the rewritten files. -/
theorem C14_wrapper_file_iff_remote_call (env : Env) (b : builder) (pkg : Package)
    (targetDir : String) (h : (rewritePkg env b pkg targetDir).2 = .returned none) :
    (pkg.targets ≠ [] ↔
      ∃ f ∈ pkg.Files, f.References.length ≠ 0 ∧
        ∃ n ∈ f.reached, ∃ r, rpcTarget f.References n = some r) ∧
    ((pkg.targets = [] ∧
      (rewritePkg env b pkg targetDir).1.generated = [] ∧
      (rewritePkg env b pkg targetDir).1.overlays =
        (rewrittenFiles pkg.Files).map (fun g => (g.Path, destination env targetDir g))) ∨
     (pkg.targets ≠ [] ∧
      (rewritePkg env b pkg targetDir).1.generated =
        [(env.Join targetDir "encore_rpc_wrappers.go",
          firstOccurrences wrapperName pkg.targets)] ∧
      (rewritePkg env b pkg targetDir).1.overlays =
        (rewrittenFiles pkg.Files).map (fun g => (g.Path, destination env targetDir g)) ++
          [(env.Join pkg.Dir "encore_rpc_wrappers.go",
            env.Join targetDir "encore_rpc_wrappers.go")])) := by
  refine ⟨targets_ne_nil pkg, ?_⟩
  obtain ⟨eff, acc, hloop, hend⟩ := rewritePkg_returned_nil env b pkg targetDir h
  obtain ⟨i1, _, i3⟩ := rewriteFiles_ok_effects env b pkg targetDir pkg.Files _ _ _ _ hloop
  simp only [List.nil_append] at i1 i3
  have hacc := rewriteFiles_wrappers_eq env b pkg targetDir eff acc hloop
  rcases hend with ⟨h0, hr⟩ | ⟨h0, _, hr⟩
  · left
    rw [hacc, firstOccurrences_eq_nil] at h0
    rw [hr]
    exact ⟨h0, i3, i1⟩
  · right
    rw [hr]
    refine ⟨?_, ?_, ?_⟩
    · intro ht
      apply h0
      rw [hacc, ht]
      rfl
    · simp only [i3, List.nil_append, hacc]
    · simp only [i1]

/-- Claim C14, amended, on `usersCallPkg`: one remote call, one wrapper file,
its overlay last. -/
theorem C14_wrapper_file_witness :
    (rewritePkg demoEnv (twoLineBuilder 19) usersCallPkg "out").2 = .returned none ∧
    usersCallPkg.targets = [usersGet] ∧
    rewritePkg demoEnv (twoLineBuilder 19) usersCallPkg "out" =
      (⟨[("out/u.go", "import \"app/users\"\n__encore_users_Get(120, 401,/*line :2:11*/)")],
        [("app/orders/u.go", "out/u.go"),
          ("app/orders/encore_rpc_wrappers.go", "out/encore_rpc_wrappers.go")],
        [("out/encore_rpc_wrappers.go", [usersGet])]⟩, .returned none) ∧
    ((usersCallPkg.targets = [] ∧
      (rewritePkg demoEnv (twoLineBuilder 19) usersCallPkg "out").1.generated = [] ∧
      (rewritePkg demoEnv (twoLineBuilder 19) usersCallPkg "out").1.overlays =
        (rewrittenFiles usersCallPkg.Files).map
          (fun g => (g.Path, destination demoEnv "out" g))) ∨
     (usersCallPkg.targets ≠ [] ∧
      (rewritePkg demoEnv (twoLineBuilder 19) usersCallPkg "out").1.generated =
        [(demoEnv.Join "out" "encore_rpc_wrappers.go",
          firstOccurrences wrapperName usersCallPkg.targets)] ∧
      (rewritePkg demoEnv (twoLineBuilder 19) usersCallPkg "out").1.overlays =
        (rewrittenFiles usersCallPkg.Files).map
          (fun g => (g.Path, destination demoEnv "out" g)) ++
          [(demoEnv.Join usersCallPkg.Dir "encore_rpc_wrappers.go",
            demoEnv.Join "out" "encore_rpc_wrappers.go")])) :=
  ⟨by rfl, by rfl, by rfl,
    (C14_wrapper_file_iff_remote_call demoEnv (twoLineBuilder 19) usersCallPkg "out"
      (by rfl)).2⟩

/-- Claim C15. If the loop over the files has completed on the files before a
file `f` of the package and the write of the rewritten `f` fails with an
error, `rewritePkg` returns that error, and what it has done is what the loop
had done before `f`: the files written and the overlays recorded are exactly
those of the files before `f` with a non-empty directive map (none for `f`,
none for a later file), and no wrapper file is generated. If the loop over
all the files has completed and the generation of the wrapper file fails with
an error, `rewritePkg` returns that error, no wrapper file is logged as
generated and the overlays are those of the rewritten files only. -/
theorem C15_write_errors_returned (env : Env) (b : builder) (pkg : Package)
    (targetDir : String) :
    (∀ (before after : List File) (f : File) (eff0 : Effects) (acc0 : Wrappers)
        (st : WalkState) (data e : String),
      pkg.Files = before ++ f :: after →
      rewriteFiles env b pkg targetDir before ⟨[], []⟩ ⟨[], [], []⟩ = (eff0, .ok acc0) →
      f.References.length ≠ 0 →
      Apply (pre env b pkg f) f.AST.node (initialState f acc0) = .ok st →
      env.Data (removeUnusedImports env f st) = some data →
      env.WriteFile (env.Join targetDir (env.Base f.Path)) data = some e →
      rewritePkg env b pkg targetDir = (eff0, .returned (some e)) ∧
      eff0.overlays =
        (rewrittenFiles before).map (fun g => (g.Path, destination env targetDir g)) ∧
      eff0.written.map Prod.fst = (rewrittenFiles before).map (destination env targetDir) ∧
      eff0.generated = []) ∧
    (∀ (eff : Effects) (acc : Wrappers) (e : String),
      rewriteFiles env b pkg targetDir pkg.Files ⟨[], []⟩ ⟨[], [], []⟩ = (eff, .ok acc) →
      acc.wrappers ≠ [] →
      env.generateWrappers pkg acc.wrappers (env.Join targetDir "encore_rpc_wrappers.go") =
        some e →
      rewritePkg env b pkg targetDir = (eff, .returned (some e)) ∧
      eff.overlays =
        (rewrittenFiles pkg.Files).map (fun g => (g.Path, destination env targetDir g)) ∧
      eff.generated = []) := by
  constructor
  · intro before after f eff0 acc0 st data e hfiles hbefore h0 hwalk hdata hwrite
    obtain ⟨i1, i2, i3⟩ := rewriteFiles_ok_effects env b pkg targetDir before _ _ _ _ hbefore
    simp only [List.nil_append, List.map_nil] at i1 i2 i3
    refine ⟨?_, i1, i2, i3⟩
    have hf : rewriteFile env b pkg targetDir f acc0 eff0 = (eff0, .error (.err e)) := by
      unfold rewriteFile
      rw [if_neg h0, hwalk]
      dsimp only
      rw [hdata]
      dsimp only
      rw [hwrite]
    unfold rewritePkg
    rw [hfiles, rewriteFiles_append, hbefore]
    dsimp only
    simp only [rewriteFiles, hf]
  · intro eff acc e hloop hne hgen
    obtain ⟨i1, _, i3⟩ := rewriteFiles_ok_effects env b pkg targetDir pkg.Files _ _ _ _ hloop
    simp only [List.nil_append] at i1 i3
    refine ⟨?_, i1, i3⟩
    unfold rewritePkg
    rw [hloop]
    dsimp only
    have hpos : acc.wrappers.length > 0 := List.length_pos.mpr hne
    rw [if_pos hpos, hgen]

/-- Claim C15 on `mixedPkg` when the write of its third file fails (the first
file is written, the second has no directive), and on `usersCallPkg` when the
generation of the wrappers fails. -/
theorem C15_write_errors_witness :
    (rewritePkg (failAtEnv "out/q.go") demoBuilder mixedPkg "out" =
      (⟨[("out/a.go", "func Place() \x7b\x7d")], [("app/orders/a.go", "out/a.go")], []⟩,
        .returned (some "disk full")) ∧
     [("app/orders/a.go", "out/a.go")] =
      (rewrittenFiles [definitionFile, plainFile]).map
        (fun g => (g.Path, destination (failAtEnv "out/q.go") "out" g))) ∧
    (rewritePkg noWrappersEnv (twoLineBuilder 19) usersCallPkg "out" =
      (⟨[("out/u.go", "import \"app/users\"\n__encore_users_Get(120, 401,/*line :2:11*/)")],
        [("app/orders/u.go", "out/u.go")], []⟩, .returned (some "no wrappers")) ∧
     [("app/orders/u.go", "out/u.go")] =
      (rewrittenFiles usersCallPkg.Files).map
        (fun g => (g.Path, destination noWrappersEnv "out" g))) :=
  ⟨⟨((C15_write_errors_returned (failAtEnv "out/q.go") demoBuilder mixedPkg "out").1
        [definitionFile, plainFile] [] ordersQueryFile
        ⟨[("out/a.go", "func Place() \x7b\x7d")], [("app/orders/a.go", "out/a.go")], []⟩
        ⟨[], []⟩
        ⟨⟨"h.Query(a, b)", 1, [.Insert 9 "\"orders\",/*line :1:9*/"]⟩, [], [], [], []⟩
        "h.Query(\"orders\",/*line :1:9*/a, b)" "disk full"
        (by rfl) (by rfl) (by decide) (by rfl) (by rfl) (by rfl)).1,
      ((C15_write_errors_returned (failAtEnv "out/q.go") demoBuilder mixedPkg "out").1
        [definitionFile, plainFile] [] ordersQueryFile
        ⟨[("out/a.go", "func Place() \x7b\x7d")], [("app/orders/a.go", "out/a.go")], []⟩
        ⟨[], []⟩
        ⟨⟨"h.Query(a, b)", 1, [.Insert 9 "\"orders\",/*line :1:9*/"]⟩, [], [], [], []⟩
        "h.Query(\"orders\",/*line :1:9*/a, b)" "disk full"
        (by rfl) (by rfl) (by decide) (by rfl) (by rfl) (by rfl)).2.1⟩,
    ⟨((C15_write_errors_returned noWrappersEnv (twoLineBuilder 19) usersCallPkg "out").2
        ⟨[("out/u.go", "import \"app/users\"\n__encore_users_Get(120, 401,/*line :2:11*/)")],
          [("app/orders/u.go", "out/u.go")], []⟩
        ⟨["__encore_users_Get"], [usersGet]⟩ "no wrappers"
        (by rfl) (by simp) (by rfl)).1,
      ((C15_write_errors_returned noWrappersEnv (twoLineBuilder 19) usersCallPkg "out").2
        ⟨[("out/u.go", "import \"app/users\"\n__encore_users_Get(120, 401,/*line :2:11*/)")],
          [("app/orders/u.go", "out/u.go")], []⟩
        ⟨["__encore_users_Get"], [usersGet]⟩ "no wrappers"
        (by rfl) (by simp) (by rfl)).2.1⟩⟩

theorem visitedList_append (desc : Node → Bool) (l1 l2 : List Node) :
    visitedList desc (l1 ++ l2) = visitedList desc l1 ++ visitedList desc l2 := by
  induction l1 with
  | nil => simp [visitedList]
  | cons n ns ih => simp [visitedList, ih]

/-- The nodes reached in a tree are its root and, if the walk descends below
the root, the nodes reached in its children. -/
theorem visited_children (desc : Node → Bool) (n : Node) :
    visited desc n = n :: (if desc n then visitedList desc n.children else []) := by
  cases n with
  | CallExpr p a e f lp args => simp [visited, visitedList, Node.children]
  | SelectorExpr p a e x sel => simp [visited, visitedList, Node.children]
  | ValueSpec p a e names typ values =>
    cases typ <;> simp [visited, visitedList, visitedOpt, Node.children, visitedList_append]
  | Other p a e children => simp [visited, Node.children]

/-- Claim C16. On a node with a LogAnnotation (RLogNode) directive the
closure changes none of its variables (no edit, no import-removal candidate,
no use-exception, no wrapper) and returns false, the nodes reached in the
subtree are the node alone, and the walk of the whole subtree leaves the
variables as they were, whatever the subtree and the directives of its nodes.
On a node with a RemoteCallDefinition (RPCDefNode) directive the closure
changes none of its variables either but returns true, and the walk of the
subtree is the walk of the children of the node, in order. -/
theorem C16_log_skipped_definition_traversed (env : Env) (b : builder) (pkg : Package)
    (file : File) (n : Node) (d : Directive)
    (hd : file.References.lookup n.ptr = some d) :
    (d.Typ = .RLogNode → ∀ st : WalkState,
      pre env b pkg file st n = .ok (st, false) ∧
      visited (descends file.References) n = [n] ∧
      Apply (pre env b pkg file) n st = .ok st) ∧
    (d.Typ = .RPCDefNode → ∀ st : WalkState,
      pre env b pkg file st n = .ok (st, true) ∧
      visited (descends file.References) n =
        n :: visitedList (descends file.References) n.children ∧
      Apply (pre env b pkg file) n st = ApplyList (pre env b pkg file) n.children st) := by
  have hwalk : ∀ (m : Node) (s : WalkState), Apply (pre env b pkg file) m s =
      walk (pre env b pkg file) (visited (descends file.References) m) s :=
    Apply_eq_walk (pre env b pkg file) (descends file.References)
      (fun s m s1 d1 h => pre_descends env b pkg file s m s1 d1 h)
  constructor
  · intro ht st
    have hpre : pre env b pkg file st n = .ok (st, false) := by
      unfold pre
      rw [hd]
      dsimp only
      rw [ht]
    have hdesc : descends file.References n = false := by
      unfold descends
      rw [hd]
      simp [ht]
    have hv : visited (descends file.References) n = [n] := by
      rw [visited_children, hdesc]
      rfl
    refine ⟨hpre, hv, ?_⟩
    rw [hwalk, hv]
    simp only [walk, hpre]
  · intro ht st
    have hpre : pre env b pkg file st n = .ok (st, true) := by
      unfold pre
      rw [hd]
      dsimp only
      rw [ht]
    have hdesc : descends file.References n = true := by
      unfold descends
      rw [hd]
      simp [ht]
    have hv : visited (descends file.References) n =
        n :: visitedList (descends file.References) n.children := by
      rw [visited_children, hdesc]
      rfl
    refine ⟨hpre, hv, ?_⟩
    rw [hwalk, hv]
    simp only [walk, hpre]
    exact (ApplyList_eq_walk (pre env b pkg file) (descends file.References)
      (fun s m s1 d1 h => pre_descends env b pkg file s m s1 d1 h) n.children st).symm

/-- Claim C16 on the call `rlog.Info(x)` of `logFile`, whose argument carries
a directive of an unrecognized kind that is never looked at, and on the
declaration of `definitionFile`, whose name is still walked. -/
theorem C16_log_skipped_witness :
    logFile.References.lookup 20 = some ⟨.RLogNode, none⟩ ∧
    logFile.References.lookup 24 = some ⟨.unrecognized 7, none⟩ ∧
    Apply (pre demoEnv demoBuilder logPkg logFile)
        (.CallExpr 20 1 13 (.SelectorExpr 21 1 10 (leaf 22 1 5) (leaf 23 6 10)) 10
          [leaf 24 11 12])
        (initialState logFile ⟨[], []⟩) = .ok (initialState logFile ⟨[], []⟩) ∧
    logFile.reached = [logFile.AST.node, leaf 11 1 1,
      .Other 12 1 13 [
        .CallExpr 20 1 13 (.SelectorExpr 21 1 10 (leaf 22 1 5) (leaf 23 6 10)) 10
          [leaf 24 11 12]],
      .CallExpr 20 1 13 (.SelectorExpr 21 1 10 (leaf 22 1 5) (leaf 23 6 10)) 10
        [leaf 24 11 12]] ∧
    definitionFile.References.lookup 12 = some ⟨.RPCDefNode, none⟩ ∧
    pre demoEnv demoBuilder mixedPkg definitionFile (initialState definitionFile ⟨[], []⟩)
        (.Other 12 1 16 [leaf 13 6 11]) = .ok (initialState definitionFile ⟨[], []⟩, true) ∧
    visited (descends definitionFile.References) (.Other 12 1 16 [leaf 13 6 11]) =
      [.Other 12 1 16 [leaf 13 6 11], leaf 13 6 11] :=
  ⟨by rfl, by rfl,
    (((C16_log_skipped_definition_traversed demoEnv demoBuilder logPkg logFile
      (.CallExpr 20 1 13 (.SelectorExpr 21 1 10 (leaf 22 1 5) (leaf 23 6 10)) 10
        [leaf 24 11 12]) ⟨.RLogNode, none⟩ (by rfl)).1 rfl)
      (initialState logFile ⟨[], []⟩)).2.2,
    by rfl, by rfl,
    (((C16_log_skipped_definition_traversed demoEnv demoBuilder mixedPkg definitionFile
      (.Other 12 1 16 [leaf 13 6 11]) ⟨.RPCDefNode, none⟩ (by rfl)).2 rfl)
      (initialState definitionFile ⟨[], []⟩)).1,
    by rfl⟩

/-- The edits the closure records on a call expression with a RemoteCall
directive, when it does not panic. -/
theorem pre_RPCCall_edits (env : Env) (b : builder) (pkg : Package) (file : File)
    (st st1 : WalkState) (r : Bool) (callPtr pos end_ : Nat) (Fun : Node) (Lparen : Nat)
    (Args : List Node) (d : Directive)
    (hd : file.References.lookup callPtr = some d) (ht : d.Typ = .RPCCallNode)
    (h : pre env b pkg file st (.CallExpr callPtr pos end_ Fun Lparen Args) = .ok (st1, r)) :
    ∃ name ids, st1.rw.edits =
      st.rw.edits ++ [.Replace Fun.Pos Fun.End name, .Insert (Lparen + 1) ids] := by
  unfold pre at h
  simp only [Node.ptr, hd, ht] at h
  cases hr : d.RPC with
  | none =>
    rw [hr] at h
    exact Except.noConfusion h
  | some rpc =>
    rw [hr] at h
    dsimp only at h
    cases hc : b.res.Nodes pkg.self.ptr callPtr with
    | none =>
      rw [hc] at h
      exact Except.noConfusion h
    | some callTx =>
      cases hf : b.res.Nodes rpc.Svc.Root.ptr rpc.Func with
      | none =>
        rw [hc, hf] at h
        exact Except.noConfusion h
      | some rpcTx =>
        rw [hc, hf] at h
        dsimp only at h
        injection h with h
        injection h with h _
        subst h
        exact ⟨wrapperName rpc,
          toString callTx ++ ", " ++ toString rpcTx ++ "," ++
            lineMarker (b.res.FileSet.Position Lparen).Line
              ((b.res.FileSet.Position Lparen).Column + 1),
          by simp [Rewriter.Insert, Rewriter.Replace]⟩

/-- The edit the closure records on a call expression with a DatabaseHandle
directive, when it does not panic. -/
theorem pre_SQLDB_edits (env : Env) (b : builder) (pkg : Package) (file : File)
    (st st1 : WalkState) (r : Bool) (callPtr pos end_ : Nat) (Fun : Node) (Lparen : Nat)
    (Args : List Node) (d : Directive)
    (hd : file.References.lookup callPtr = some d) (ht : d.Typ = .SQLDBNode)
    (h : pre env b pkg file st (.CallExpr callPtr pos end_ Fun Lparen Args) = .ok (st1, r)) :
    ∃ arg, st1.rw.edits = st.rw.edits ++ [.Insert (Lparen + 1) arg] := by
  unfold pre at h
  simp only [Node.ptr, hd, ht] at h
  cases hs : pkg.Service with
  | none =>
    rw [hs] at h
    exact Except.noConfusion h
  | some svc =>
    rw [hs] at h
    dsimp only at h
    injection h with h
    injection h with h _
    subst h
    exact ⟨_, rfl⟩

/-- What the well-formedness of a call expression says of its offsets. -/
theorem wellFormedCall_spec (p pos end_ : Nat) (f : Node) (lp : Nat) (args : List Node)
    (h : wellFormedCall (.CallExpr p pos end_ f lp args) = true) :
    pos ≤ f.Pos ∧ f.Pos ≤ f.End ∧ f.End ≤ lp ∧ lp < end_ ∧
    (∀ c ∈ allNodes f, c.isCall = true → c.End ≤ f.End) ∧
    (∀ c ∈ visitedList (fun _ => true) args, c.isCall = true → lp < c.Pos) := by
  simp only [wellFormedCall, Bool.and_eq_true, decide_eq_true_eq, List.all_eq_true,
    List.mem_filter, and_imp] at h
  obtain ⟨⟨⟨h1, h2, h3, h4⟩, h5⟩, h6⟩ := h
  exact ⟨h1, h2, h3, h4, h5, h6⟩

/-- Claim C17. In a file whose call expressions are well formed, let `A` be a
call with a RemoteCall directive and `B` a call with a DatabaseHandle or a
RemoteCall directive, both in the file, on which the closure does not panic.
The edits recorded for `A` are the Replace of the span of its target
expression and the Insert at the offset after its opening parenthesis, and
the span replaced ends strictly before that offset; the edits recorded for
`B` end with the Insert at the offset after its opening parenthesis, and if
that offset lies strictly inside the span replaced for `A`, then `B` is
nested in the target expression of `A`. -/
theorem C17_call_edits_do_not_overlap (env : Env) (b : builder) (pkg : Package) (file : File)
    (hwf : callsWellFormed file.AST.node)
    (pA aA eA : Nat) (fA : Node) (lpA : Nat) (argsA : List Node)
    (pB aB eB : Nat) (fB : Node) (lpB : Nat) (argsB : List Node)
    (hA : Node.CallExpr pA aA eA fA lpA argsA ∈ allNodes file.AST.node)
    (hB : Node.CallExpr pB aB eB fB lpB argsB ∈ allNodes file.AST.node)
    (dA dB : Directive)
    (hdA : file.References.lookup pA = some dA) (htA : dA.Typ = .RPCCallNode)
    (hdB : file.References.lookup pB = some dB)
    (htB : dB.Typ = .SQLDBNode ∨ dB.Typ = .RPCCallNode)
    (stA stA1 stB stB1 : WalkState) (rA rB : Bool)
    (hpA : pre env b pkg file stA (.CallExpr pA aA eA fA lpA argsA) = .ok (stA1, rA))
    (hpB : pre env b pkg file stB (.CallExpr pB aB eB fB lpB argsB) = .ok (stB1, rB)) :
    (∃ name ids, stA1.rw.edits =
      stA.rw.edits ++ [.Replace fA.Pos fA.End name, .Insert (lpA + 1) ids]) ∧
    fA.End < lpA + 1 ∧
    (∃ payload, stB1.rw.edits = stB.rw.edits ++ [.Insert (lpB + 1) payload] ∨
      ∃ name, stB1.rw.edits =
        stB.rw.edits ++ [.Replace fB.Pos fB.End name, .Insert (lpB + 1) payload]) ∧
    (fA.Pos < lpB + 1 → lpB + 1 < fA.End →
      Node.CallExpr pB aB eB fB lpB argsB ∈ allNodes fA) := by
  obtain ⟨hall, hpair⟩ := hwf
  have hAc : Node.CallExpr pA aA eA fA lpA argsA ∈ calls file.AST.node :=
    List.mem_filter.mpr ⟨hA, rfl⟩
  have hBc : Node.CallExpr pB aB eB fB lpB argsB ∈ calls file.AST.node :=
    List.mem_filter.mpr ⟨hB, rfl⟩
  obtain ⟨a1, a2, a3, a4, a5, a6⟩ := wellFormedCall_spec _ _ _ _ _ _ (hall _ hAc)
  obtain ⟨b1, b2, b3, b4, b5, b6⟩ := wellFormedCall_spec _ _ _ _ _ _ (hall _ hBc)
  refine ⟨pre_RPCCall_edits env b pkg file stA stA1 rA pA aA eA fA lpA argsA dA hdA htA hpA,
    by omega, ?_, ?_⟩
  · rcases htB with htB | htB
    · obtain ⟨arg, harg⟩ :=
        pre_SQLDB_edits env b pkg file stB stB1 rB pB aB eB fB lpB argsB dB hdB htB hpB
      exact ⟨arg, Or.inl harg⟩
    · obtain ⟨name, ids, hids⟩ :=
        pre_RPCCall_edits env b pkg file stB stB1 rB pB aB eB fB lpB argsB dB hdB htB hpB
      exact ⟨ids, Or.inr ⟨name, hids⟩⟩
  · intro h1 h2
    rcases hpair _ hAc _ hBc with h | h | h | h | h | h | h
    · injection h with _ _ _ hf hl _
      subst hf hl
      omega
    · exact h
    · have h3 : lpA < aB := a6 _ h rfl
      omega
    · have h3 : eA ≤ fB.End := b5 _ h rfl
      omega
    · have h3 : lpB < aA := b6 _ h rfl
      omega
    · simp only [Node.Pos, Node.End] at h
      omega
    · simp only [Node.Pos, Node.End] at h
      omega

/-- The call expressions of `nestedCallFile` are well formed. -/
theorem nestedCallFile_wellFormed : callsWellFormed nestedCallFile.AST.node := by
  have hc : calls nestedCallFile.AST.node = [outerGet, innerQuery] := by rfl
  unfold callsWellFormed
  rw [hc]
  constructor
  · intro c hc
    simp only [List.mem_cons, List.mem_singleton, List.not_mem_nil, or_false] at hc
    rcases hc with rfl | rfl <;> rfl
  · intro c1 h1 c2 h2
    simp only [List.mem_cons, List.mem_singleton, List.not_mem_nil, or_false] at h1 h2
    have hin : nestedInArgs innerQuery outerGet := by
      show innerQuery ∈ visitedList (fun _ => true) [innerQuery]
      simp [visitedList, visited, innerQuery]
    rcases h1 with rfl | rfl <;> rcases h2 with rfl | rfl
    · exact Or.inl rfl
    · exact Or.inr (Or.inr (Or.inl hin))
    · exact Or.inr (Or.inr (Or.inr (Or.inr (Or.inl hin))))
    · exact Or.inl rfl

/-- The call expressions of `chainedCallFile` are well formed. -/
theorem chainedCallFile_wellFormed : callsWellFormed chainedCallFile.AST.node := by
  have hc : calls chainedCallFile.AST.node = [chainedGet, innerPick] := by rfl
  unfold callsWellFormed
  rw [hc]
  constructor
  · intro c hc
    simp only [List.mem_cons, List.mem_singleton, List.not_mem_nil, or_false] at hc
    rcases hc with rfl | rfl <;> rfl
  · intro c1 h1 c2 h2
    simp only [List.mem_cons, List.mem_singleton, List.not_mem_nil, or_false] at h1 h2
    have hin : nestedInFun innerPick chainedGet := by
      show innerPick ∈ allNodes (.SelectorExpr 21 1 12 innerPick (leaf 23 9 12))
      simp [allNodes, visited, innerPick]
    rcases h1 with rfl | rfl <;> rcases h2 with rfl | rfl
    · exact Or.inl rfl
    · exact Or.inr (Or.inl hin)
    · exact Or.inr (Or.inr (Or.inr (Or.inl hin)))
    · exact Or.inl rfl

/-- Claim C17 on `users.Get(h.Query(a))`, where the inner call is an argument
(Replace of `[1, 10)` and Insert at 11 for the outer call, Insert at 19 for
the inner one), and on `pick(x).Get()`, where the inner call is in the target
expression (Replace of `[1, 12)` and Insert at 13 for the outer call, Insert
at 6, inside the span replaced, for the inner one). -/
theorem C17_call_edits_witness :
    (callsWellFormed nestedCallFile.AST.node ∧
     Apply (pre demoEnv demoBuilder nestedCallPkg nestedCallFile) nestedCallFile.AST.node
        (initialState nestedCallFile ⟨[], []⟩) =
      .ok ⟨⟨"users.Get(h.Query(a))", 1,
          [.Replace 1 10 "__encore_users_Get", .Insert 11 "120, 401,/*line :1:11*/",
            .Insert 19 "\"orders\",/*line :1:19*/"]⟩,
        [21], [usersPkg], ["__encore_users_Get"], [usersGet]⟩ ∧
     10 < 10 + 1) ∧
    (callsWellFormed chainedCallFile.AST.node ∧
     Apply (pre demoEnv demoBuilder chainedCallPkg chainedCallFile) chainedCallFile.AST.node
        (initialState chainedCallFile ⟨[], []⟩) =
      .ok ⟨⟨"pick(x).Get()", 1,
          [.Replace 1 12 "__encore_users_Get", .Insert 13 "120, 401,/*line :1:13*/",
            .Insert 6 "\"orders\",/*line :1:6*/"]⟩,
        [21], [usersPkg], ["__encore_users_Get"], [usersGet]⟩ ∧
     12 < 12 + 1 ∧
     innerPick ∈ allNodes (.SelectorExpr 21 1 12 innerPick (leaf 23 9 12))) :=
  ⟨⟨nestedCallFile_wellFormed, by rfl,
    (C17_call_edits_do_not_overlap demoEnv demoBuilder nestedCallPkg nestedCallFile
      nestedCallFile_wellFormed
      20 1 22 (.SelectorExpr 21 1 10 (leaf 22 1 6) (leaf 23 7 10)) 10 [innerQuery]
      30 11 21 (.SelectorExpr 31 11 18 (leaf 32 11 12) (leaf 33 13 18)) 18 [leaf 34 19 20]
      (by simp [allNodes, nestedCallFile, AstFile.node, visited, visitedList, leaf, outerGet,
        innerQuery])
      (by simp [allNodes, nestedCallFile, AstFile.node, visited, visitedList, leaf, outerGet,
        innerQuery])
      ⟨.RPCCallNode, some usersGet⟩ ⟨.SQLDBNode, none⟩ (by rfl) (by rfl) (by rfl)
      (Or.inl rfl)
      (initialState nestedCallFile ⟨[], []⟩)
      ⟨⟨"users.Get(h.Query(a))", 1,
          [.Replace 1 10 "__encore_users_Get", .Insert 11 "120, 401,/*line :1:11*/"]⟩,
        [21], [usersPkg], ["__encore_users_Get"], [usersGet]⟩
      ⟨⟨"users.Get(h.Query(a))", 1,
          [.Replace 1 10 "__encore_users_Get", .Insert 11 "120, 401,/*line :1:11*/"]⟩,
        [21], [usersPkg], ["__encore_users_Get"], [usersGet]⟩
      ⟨⟨"users.Get(h.Query(a))", 1,
          [.Replace 1 10 "__encore_users_Get", .Insert 11 "120, 401,/*line :1:11*/",
            .Insert 19 "\"orders\",/*line :1:19*/"]⟩,
        [21], [usersPkg], ["__encore_users_Get"], [usersGet]⟩
      true true (by rfl) (by rfl)).2.1⟩,
   ⟨chainedCallFile_wellFormed, by rfl,
    (C17_call_edits_do_not_overlap demoEnv demoBuilder chainedCallPkg chainedCallFile
      chainedCallFile_wellFormed
      20 1 14 (.SelectorExpr 21 1 12 innerPick (leaf 23 9 12)) 12 []
      30 1 8 (leaf 31 1 5) 5 [leaf 32 6 7]
      (by simp [allNodes, chainedCallFile, AstFile.node, visited, visitedList, leaf,
        chainedGet, innerPick])
      (by simp [allNodes, chainedCallFile, AstFile.node, visited, visitedList, leaf,
        chainedGet, innerPick])
      ⟨.RPCCallNode, some usersGet⟩ ⟨.SQLDBNode, none⟩ (by rfl) (by rfl) (by rfl)
      (Or.inl rfl)
      (initialState chainedCallFile ⟨[], []⟩)
      ⟨⟨"pick(x).Get()", 1,
          [.Replace 1 12 "__encore_users_Get", .Insert 13 "120, 401,/*line :1:13*/"]⟩,
        [21], [usersPkg], ["__encore_users_Get"], [usersGet]⟩
      ⟨⟨"pick(x).Get()", 1,
          [.Replace 1 12 "__encore_users_Get", .Insert 13 "120, 401,/*line :1:13*/"]⟩,
        [21], [usersPkg], ["__encore_users_Get"], [usersGet]⟩
      ⟨⟨"pick(x).Get()", 1,
          [.Replace 1 12 "__encore_users_Get", .Insert 13 "120, 401,/*line :1:13*/",
            .Insert 6 "\"orders\",/*line :1:6*/"]⟩,
        [21], [usersPkg], ["__encore_users_Get"], [usersGet]⟩
      true true (by rfl) (by rfl)).2.1,
    (C17_call_edits_do_not_overlap demoEnv demoBuilder chainedCallPkg chainedCallFile
      chainedCallFile_wellFormed
      20 1 14 (.SelectorExpr 21 1 12 innerPick (leaf 23 9 12)) 12 []
      30 1 8 (leaf 31 1 5) 5 [leaf 32 6 7]
      (by simp [allNodes, chainedCallFile, AstFile.node, visited, visitedList, leaf,
        chainedGet, innerPick])
      (by simp [allNodes, chainedCallFile, AstFile.node, visited, visitedList, leaf,
        chainedGet, innerPick])
      ⟨.RPCCallNode, some usersGet⟩ ⟨.SQLDBNode, none⟩ (by rfl) (by rfl) (by rfl)
      (Or.inl rfl)
      (initialState chainedCallFile ⟨[], []⟩)
      ⟨⟨"pick(x).Get()", 1,
          [.Replace 1 12 "__encore_users_Get", .Insert 13 "120, 401,/*line :1:13*/"]⟩,
        [21], [usersPkg], ["__encore_users_Get"], [usersGet]⟩
      ⟨⟨"pick(x).Get()", 1,
          [.Replace 1 12 "__encore_users_Get", .Insert 13 "120, 401,/*line :1:13*/"]⟩,
        [21], [usersPkg], ["__encore_users_Get"], [usersGet]⟩
      ⟨⟨"pick(x).Get()", 1,
          [.Replace 1 12 "__encore_users_Get", .Insert 13 "120, 401,/*line :1:13*/",
            .Insert 6 "\"orders\",/*line :1:6*/"]⟩,
        [21], [usersPkg], ["__encore_users_Get"], [usersGet]⟩
      true true (by rfl) (by rfl)).2.2.2 (by decide) (by decide)⟩⟩

theorem takeWhile_le_succ (a : List Nat) (x : Nat) (h : x + 1 ∉ a) :
    a.takeWhile (fun v => decide (v ≤ x + 1)) = a.takeWhile (fun v => decide (v ≤ x)) := by
  induction a with
  | nil => rfl
  | cons v vs ih =>
    have hv : v ≠ x + 1 := fun e => h (by simp [e])
    have hvs : x + 1 ∉ vs := fun e => h (List.mem_cons_of_mem _ e)
    by_cases hle : v ≤ x
    · have hle1 : v ≤ x + 1 := by omega
      simp [List.takeWhile, hle, hle1, ih hvs]
    · have hle1 : ¬ v ≤ x + 1 := by omega
      simp [List.takeWhile, hle, hle1]

theorem getD_takeWhile_le (a : List Nat) (x i : Nat)
    (h : i < (a.takeWhile (fun v => decide (v ≤ x))).length) : a.getD i 0 ≤ x := by
  induction a generalizing i with
  | nil => simp at h
  | cons v vs ih =>
    by_cases hle : v ≤ x
    · simp only [List.takeWhile, hle, decide_True, List.length_cons] at h
      cases i with
      | zero => simpa using hle
      | succ j =>
        simp only [List.getD_cons_succ]
        exact ih j (by omega)
    · simp [List.takeWhile, hle] at h

theorem searchInts_none (l : List Nat) (x : Nat) (h : ∀ v ∈ l, x < v) :
    searchInts l x = none := by
  cases l with
  | nil => rfl
  | cons v vs =>
    have hv : ¬ v ≤ x := by
      have := h v (List.mem_cons_self _ _)
      omega
    simp [searchInts, List.takeWhile, hv]

/-- The position of an offset that no `//line` directive governs is its line
and column in the file. -/
theorem TokenFile.unpack_unadjusted (f : TokenFile) (x : Nat)
    (h : ∀ a ∈ f.infos, x < a.Offset) :
    f.unpack x =
      match searchInts f.lines x with
      | some i => (i + 1, x - f.lines.getD i 0 + 1)
      | none => (0, 0) := by
  have hs : searchLineInfos f.infos x = none := by
    unfold searchLineInfos
    apply searchInts_none
    intro v hv
    obtain ⟨a, ha, rfl⟩ := List.mem_map.mp hv
    exact h a ha
  unfold TokenFile.unpack
  rw [hs]

/-- In a token file whose line table starts at 0, the position after a byte
that is not the last of its line and that no `//line` directive governs is
on the same line, one column further. -/
theorem TokenFile.position_succ (f : TokenFile) (p : Nat) (hb : f.base ≤ p)
    (h0 : f.lines.head? = some 0) (hn : p + 1 - f.base ∉ f.lines)
    (hinfo : ∀ a ∈ f.infos, p + 1 - f.base < a.Offset) :
    f.position (p + 1) = ⟨(f.position p).Line, (f.position p).Column + 1⟩ := by
  have hoff : p + 1 - f.base = (p - f.base) + 1 := by omega
  rw [hoff] at hn hinfo
  have hinfo0 : ∀ a ∈ f.infos, p - f.base < a.Offset := fun a ha => by
    have := hinfo a ha
    omega
  unfold TokenFile.position
  rw [hoff, TokenFile.unpack_unadjusted f _ hinfo, TokenFile.unpack_unadjusted f _ hinfo0]
  unfold searchInts
  simp only [takeWhile_le_succ f.lines (p - f.base) hn]
  cases hlen : (f.lines.takeWhile (fun v => decide (v ≤ p - f.base))).length with
  | zero =>
    exfalso
    cases hl : f.lines with
    | nil => rw [hl] at h0; simp at h0
    | cons v vs =>
      rw [hl] at h0 hlen
      simp only [List.head?_cons, Option.some.injEq] at h0
      subst h0
      simp [List.takeWhile] at hlen
  | succ i =>
    have hle := getD_takeWhile_le f.lines (p - f.base) i (by omega)
    simp only [Position.mk.injEq, true_and]
    omega

/-- The position of the file set after a byte that is one byte inside a line
and that no `//line` directive governs. -/
theorem FileSet.Position_succ (s : FileSet) (p : Nat) (h : s.oneByteOnLine p)
    (hdir : s.noLineDirective (p + 1)) :
    s.Position (p + 1) = ⟨(s.Position p).Line, (s.Position p).Column + 1⟩ := by
  obtain ⟨hp, f, hf, hf1, h0, hn⟩ := h
  have hinfo := hdir f hf1
  have hb : f.base ≤ p := by
    have := List.find?_some hf
    simp only [Bool.and_eq_true, decide_eq_true_eq] at this
    exact this.1
  unfold FileSet.file at hf hf1
  unfold FileSet.Position
  rw [if_neg hp, if_neg (Nat.succ_ne_zero p), hf, hf1]
  exact TokenFile.position_succ f p hb h0 hn hinfo

/-- Claim C18 as stated fails after a `//line` directive that gives no column:
in `directiveFile` the opening parenthesis of the call is one byte inside its
line, its adjusted position is line 100 with the column unknown (0), and so
is the position of the offset after it; the marker inserted at that offset is
`100:1`, not the marker `100:0` of the position of the offset. -/
theorem C18_marker_after_line_directive :
    directiveBuilder.res.FileSet.oneByteOnLine 26 ∧
    directiveBuilder.res.FileSet.Position 26 = ⟨100, 0⟩ ∧
    directiveBuilder.res.FileSet.Position (26 + 1) = ⟨100, 0⟩ ∧
    (Apply (pre demoEnv directiveBuilder directivePkg directiveFile) directiveFile.AST.node
        (initialState directiveFile ⟨[], []⟩)).map (fun st => st.rw.edits) =
      .ok [.Insert (26 + 1) "\"payments\",/*line :100:1*/"] ∧
    markerAt directiveBuilder (26 + 1) = "/*line :100:0*/" ∧
    (rewritePkg demoEnv directiveBuilder directivePkg "out").1.written =
      [("out/d.go", "//line gen.go:100\nh.Query(\"payments\",/*line :100:1*/a, b)")] :=
  ⟨⟨by decide, ⟨1, 31, [0, 18], [⟨18, 100, 0⟩]⟩, by rfl, by rfl, by rfl, by decide⟩,
    by rfl, by rfl, by rfl, by rfl, by rfl⟩

/-- Claim C18, amended. Every position marker the closure emits is the marker
of the position of the offset at which the edit that carries it is inserted,
provided, for the inserts after an opening parenthesis, that no `//line`
directive governs that offset. For a DatabaseHandle and for a RemoteCall
directive on a call whose opening parenthesis is one byte inside a line, with
no `//line` directive at or before the offset `Lparen + 1`, the payload of the
Insert at `Lparen + 1` ends with the marker of the position of `Lparen + 1`,
which is the line and the column plus one of the parenthesis. For a
SecretDeclaration directive the initializer inserted at the end of the
specification ends with the marker of the position of that end, and the
runtime package clause inserted at the start of the first declaration ends
with the marker of the position of that start, `//line` directives or not. -/
theorem C18_markers_encode_insert_position (env : Env) (b : builder) (pkg : Package)
    (file : File) (st : WalkState) :
    (∀ (callPtr pos end_ : Nat) (Fun : Node) (Lparen : Nat) (Args : List Node)
        (d : Directive) (svc : Service),
      file.References.lookup callPtr = some d → d.Typ = .SQLDBNode →
      pkg.Service = some svc → b.res.FileSet.oneByteOnLine Lparen →
      b.res.FileSet.noLineDirective (Lparen + 1) →
      b.res.FileSet.Position (Lparen + 1) =
        ⟨(b.res.FileSet.Position Lparen).Line, (b.res.FileSet.Position Lparen).Column + 1⟩ ∧
      pre env b pkg file st (.CallExpr callPtr pos end_ Fun Lparen Args) =
        .ok ({ st with rw := { st.rw with edits := st.rw.edits ++
          [.Insert (Lparen + 1) (env.Quote svc.Name ++ "," ++ markerAt b (Lparen + 1))] } },
          true)) ∧
    (∀ (callPtr pos end_ : Nat) (Fun : Node) (Lparen : Nat) (Args : List Node)
        (d : Directive) (st1 : WalkState) (r : Bool),
      file.References.lookup callPtr = some d → d.Typ = .RPCCallNode →
      pre env b pkg file st (.CallExpr callPtr pos end_ Fun Lparen Args) = .ok (st1, r) →
      b.res.FileSet.oneByteOnLine Lparen →
      b.res.FileSet.noLineDirective (Lparen + 1) →
      b.res.FileSet.Position (Lparen + 1) =
        ⟨(b.res.FileSet.Position Lparen).Line, (b.res.FileSet.Position Lparen).Column + 1⟩ ∧
      ∃ name ids, st1.rw.edits = st.rw.edits ++
        [.Replace Fun.Pos Fun.End name, .Insert (Lparen + 1) (ids ++ markerAt b (Lparen + 1))]) ∧
    (∀ (specPtr pos end_ : Nat) (Names : List Node) (typ : Node) (Values : List Node)
        (d : Directive) (decl : Node) (decls : List Node),
      file.References.lookup specPtr = some d → d.Typ = .SecretsNode →
      file.AST.Decls = decl :: decls →
      ∃ init imp,
        pre env b pkg file st (.ValueSpec specPtr pos end_ Names (some typ) Values) =
          .ok ({ st with rw := { st.rw with edits := st.rw.edits ++
            [.Insert typ.Pos "= ", .Insert end_ (init ++ markerAt b end_),
              .Insert decl.Pos (imp ++ markerAt b decl.Pos)] } }, true)) := by
  refine ⟨?_, ?_, ?_⟩
  · intro callPtr pos end_ Fun Lparen Args d svc hd ht hs hline hdir
    have hpos := FileSet.Position_succ b.res.FileSet Lparen hline hdir
    refine ⟨hpos, ?_⟩
    unfold pre
    simp only [Node.ptr, hd, ht, hs, markerAt, hpos]
    rfl
  · intro callPtr pos end_ Fun Lparen Args d st1 r hd ht h hline hdir
    have hpos := FileSet.Position_succ b.res.FileSet Lparen hline hdir
    refine ⟨hpos, ?_⟩
    unfold pre at h
    simp only [Node.ptr, hd, ht] at h
    cases hr : d.RPC with
    | none =>
      rw [hr] at h
      exact Except.noConfusion h
    | some rpc =>
      rw [hr] at h
      dsimp only at h
      cases hc : b.res.Nodes pkg.self.ptr callPtr with
      | none =>
        rw [hc] at h
        exact Except.noConfusion h
      | some callTx =>
        cases hf : b.res.Nodes rpc.Svc.Root.ptr rpc.Func with
        | none =>
          rw [hc, hf] at h
          exact Except.noConfusion h
        | some rpcTx =>
          rw [hc, hf] at h
          dsimp only at h
          injection h with h
          injection h with h _
          subst h
          exact ⟨wrapperName rpc, toString callTx ++ ", " ++ toString rpcTx ++ ",",
            by simp [Rewriter.Insert, Rewriter.Replace, markerAt, hpos]⟩
  · intro specPtr pos end_ Names typ Values d decl decls hd ht hdecls
    refine ⟨"\x7b\n" ++ String.join (pkg.Secrets.map (fun secret =>
        "\t" ++ secret ++ ": __encore_runtime.LoadSecret(" ++ env.Quote secret ++ "),\n"))
        ++ "\x7d",
      "import __encore_runtime " ++ env.Quote "encore.dev/runtime" ++ "\n", ?_⟩
    rw [pre_Secrets env b pkg file st specPtr pos end_ Names typ Values d decl decls hd ht
      hdecls]
    simp [Rewriter.Insert, secretsInit, runtimeImport, markerAt]

/-- Claim C18, amended, on `h.Query(a, b)` (marker `1:9` at offset 9), on `users.Get()`
on the second line of its file (marker `2:11` at offset 30, the parenthesis
being at line 2, column 10) and on `var secrets struct\x7b\x7d` (markers `1:21` at the
end of the specification and `1:1` at the start of the declaration). -/
theorem C18_markers_witness :
    (markerAt demoBuilder (8 + 1) = "/*line :1:9*/" ∧
     pre demoEnv demoBuilder paymentsPkg queryFile (initialState queryFile ⟨[], []⟩)
        (.CallExpr 20 1 14 (.SelectorExpr 21 1 8 (leaf 22 1 2) (leaf 23 3 8)) 8
          [leaf 24 9 10, leaf 25 12 13]) =
      .ok ({ initialState queryFile ⟨[], []⟩ with
        rw := { (initialState queryFile ⟨[], []⟩).rw with
          edits := (initialState queryFile ⟨[], []⟩).rw.edits ++
            [.Insert (8 + 1)
              (demoEnv.Quote "payments" ++ "," ++ markerAt demoBuilder (8 + 1))] } },
        true)) ∧
    ((twoLineBuilder 19).res.FileSet.Position 29 = ⟨2, 10⟩ ∧
     markerAt (twoLineBuilder 19) (29 + 1) = "/*line :2:11*/" ∧
     (twoLineBuilder 19).res.FileSet.Position (29 + 1) =
      ⟨((twoLineBuilder 19).res.FileSet.Position 29).Line,
        ((twoLineBuilder 19).res.FileSet.Position 29).Column + 1⟩) ∧
    (markerAt demoBuilder 21 = "/*line :1:21*/" ∧ markerAt demoBuilder 1 = "/*line :1:1*/" ∧
     ∃ init imp,
      pre demoEnv demoBuilder billingSecretsPkg secretsFile
          (initialState secretsFile ⟨[], []⟩)
          (.ValueSpec 13 5 21 [leaf 14 5 12] (some (leaf 15 13 21)) []) =
        .ok ({ initialState secretsFile ⟨[], []⟩ with
          rw := { (initialState secretsFile ⟨[], []⟩).rw with
            edits := (initialState secretsFile ⟨[], []⟩).rw.edits ++
              [.Insert (leaf 15 13 21).Pos "= ",
                .Insert 21 (init ++ markerAt demoBuilder 21),
                .Insert (Node.Other 12 1 21 [secretsSpec]).Pos
                  (imp ++ markerAt demoBuilder (Node.Other 12 1 21 [secretsSpec]).Pos)] } },
          true)) :=
  ⟨⟨by rfl,
      ((C18_markers_encode_insert_position demoEnv demoBuilder paymentsPkg queryFile
        (initialState queryFile ⟨[], []⟩)).1 20 1 14
        (.SelectorExpr 21 1 8 (leaf 22 1 2) (leaf 23 3 8)) 8 [leaf 24 9 10, leaf 25 12 13]
        ⟨.SQLDBNode, none⟩ ⟨"payments", ⟨1, "payments", "app/payments"⟩⟩
        (by rfl) (by rfl) (by rfl)
        ⟨by decide, ⟨1, 99, [0], []⟩, by rfl, by rfl, by rfl, by decide⟩
        (fun f hf a ha => by
          have hf1 : f = ⟨1, 99, [0], []⟩ := (Option.some.inj hf).symm
          subst hf1
          exact absurd ha (List.not_mem_nil a))).2⟩,
    ⟨by rfl, by rfl,
      ((C18_markers_encode_insert_position demoEnv (twoLineBuilder 19) usersCallPkg
        usersCallFile (initialState usersCallFile ⟨[], []⟩)).2.1 20 20 31
        (.SelectorExpr 21 20 29 (leaf 22 20 25) (leaf 23 26 29)) 29 []
        ⟨.RPCCallNode, some usersGet⟩
        ⟨⟨"import \"app/users\"\nusers.Get()", 1,
            [.Replace 20 29 "__encore_users_Get", .Insert 30 "120, 401,/*line :2:11*/"]⟩,
          [21], [usersPkg], ["__encore_users_Get"], [usersGet]⟩ true
        (by rfl) (by rfl) (by rfl)
        ⟨by decide, ⟨1, 99, [0, 19], []⟩, by rfl, by rfl, by rfl, by decide⟩
        (fun f hf a ha => by
          have hf1 : f = ⟨1, 99, [0, 19], []⟩ := (Option.some.inj hf).symm
          subst hf1
          exact absurd ha (List.not_mem_nil a))).1⟩,
    ⟨by rfl, by rfl,
      (C18_markers_encode_insert_position demoEnv demoBuilder billingSecretsPkg secretsFile
        (initialState secretsFile ⟨[], []⟩)).2.2 13 5 21 [leaf 14 5 12] (leaf 15 13 21) []
        ⟨.SecretsNode, none⟩ (.Other 12 1 21 [secretsSpec]) [] (by rfl) (by rfl) (by rfl)⟩⟩

end compiler
